import Mathlib

/-!
Workflow-trigger resolution (`job_workflow_trigger.go`).

A shallow embedding of `WorkflowTriggerJob.ToJobs`, `getRepoFromJob`,
`getSourceJobTargets`, `LintJob` and `checkWorkflowTriggerLoop` from
`pkg/microservice/aslan/core/workflow/service/workflow/job/job_workflow_trigger.go`.

Conventions of the embedding.

* Go structs become Lean structures with the fields the code reads or writes
  (plus a few payload fields); Go strings are `String`, Go `int` is `Int`.
* Elements of pointer slices (`[]*T`) are taken to be non-nil; the one pointer
  the code tests against `nil`, `Param.Repo`, is an `Option`.
* The dynamically typed `Job.Spec` is the sum type `JobSpec`; the JSON
  conversion `commonmodels.IToi` lives outside this file and is a parameter
  (`SpecDecoder`).
* A Go call has three outcomes: a normal return, a returned `error`
  (`Fault.err`), or a run-time panic (`Fault.panic`).
* `Params` slices are shared by pointer between an entry of the decoded
  spec and every event built from that entry, and `getRepoFromJob` writes
  through the pointer.  The sharing is explicit: an event is paired with the
  address (`Addr`) of the entry whose `Params` it aliases, and the repo
  resolution pass updates a store indexed by addresses.
* The recursion of `checkWorkflowTriggerLoop` is given a budget for its depth;
  a budget of one more than the number of stored workflow names is shown to be
  enough.
* `ToJobs` stores the decoded spec in `j.spec` and `j.job.Spec`; the model
  returns it, as the call leaves it, next to the task list.  The jobs of the
  owning workflow are only read.
-/

namespace Zadig

/-! ## Constants declared outside the embedded file -/

/-- Modelled from the spec: `config.WorkflowTriggerTypeCommon`, the `Common`
trigger type; the constant is declared in package `config`. -/
def WorkflowTriggerTypeCommon : String := "common"

/-- Modelled from the spec: `config.WorkflowTriggerTypeFixed`, the `Fixed`
trigger type; the constant is declared in package `config`. -/
def WorkflowTriggerTypeFixed : String := "fixed"

/-- Modelled from the spec: `config.TriggerWorkflowSourceRuntime`, the
`Runtime` source; the constant is declared in package `config`. -/
def TriggerWorkflowSourceRuntime : String := "runtime"

/-- Modelled from the spec: `config.TriggerWorkflowSourceFromJob`, the
`FromJob` source; the constant is declared in package `config`. -/
def TriggerWorkflowSourceFromJob : String := "fromjob"

/-- Modelled from the spec: `config.JobZadigBuild`, the `Build` job type; the
constant is declared in package `config`. -/
def JobZadigBuild : String := "zadig-build"

/-- Modelled from the spec: `config.JobZadigDistributeImage`, the
`DistributeImage` job type; the constant is declared in package `config`. -/
def JobZadigDistributeImage : String := "zadig-distribute-image"

/-- Modelled from the spec: `config.JobZadigDeploy`, the `Deploy` job type; the
constant is declared in package `config`. -/
def JobZadigDeploy : String := "zadig-deploy"

/-- Modelled from the spec: `config.JobWorkflowTrigger`, the `WorkflowTrigger`
job type (section 6 of the spec gives the task's `jobType` as
`"workflow_trigger"`); the constant is declared in package `config`. -/
def JobWorkflowTrigger : String := "workflow_trigger"

/-- Modelled from the spec: `types.RepoSourceJob`, the value of
`Repository.SourceFrom` meaning `sourceFrom = Job`; the constant is declared
in package `types`. -/
def RepoSourceJob : String := "job"

/-! ## Data model -/

/-- Outcome of a Go call that does not return normally. -/
inductive Fault where
  | err (msg : String)
  | panic (msg : String)
deriving DecidableEq, Repr

/-- The struct `types.Repository`: the fields `getRepoFromJob` reads, and three
payload fields. -/
structure Repository where
  RepoOwner : String
  RepoName : String
  Branch : String
  SourceFrom : String
  JobName : String
  ServiceName : String
  ServiceModule : String
  JobRepoIndex : Int
deriving DecidableEq, Repr

/-- The struct `commonmodels.Param`; `Repo` is a pointer that may be nil. -/
structure Param where
  Name : String
  Description : String
  ParamsType : String
  Value : String
  Repo : Option Repository
deriving DecidableEq, Repr

/-- The struct `commonmodels.ServiceNameAndModule`, the composite map key. -/
structure ServiceNameAndModule where
  ServiceName : String
  ServiceModule : String
deriving DecidableEq, Repr

/-- The struct `commonmodels.ServiceTriggerWorkflowInfo`, an entry of
`ServiceTriggerWorkflow` or of `FixedWorkflowList`. -/
structure ServiceTriggerWorkflowInfo where
  ServiceName : String
  ServiceModule : String
  WorkflowName : String
  ProjectName : String
  Params : List Param
deriving DecidableEq, Repr

/-- The struct `commonmodels.WorkflowTriggerJobSpec`. -/
structure WorkflowTriggerJobSpec where
  IsEnableCheck : Bool
  TriggerType : String
  ServiceTriggerWorkflow : List ServiceTriggerWorkflowInfo
  FixedWorkflowList : List ServiceTriggerWorkflowInfo
  Source : String
  SourceJobName : String
  SourceService : List ServiceNameAndModule
deriving DecidableEq, Repr

/-- The struct `commonmodels.ServiceAndBuild`. -/
structure ServiceAndBuild where
  ServiceName : String
  ServiceModule : String
  BuildName : String
  Repos : List Repository
deriving DecidableEq, Repr

/-- The struct `commonmodels.ZadigBuildJobSpec`. -/
structure ZadigBuildJobSpec where
  DockerRegistryID : String
  ServiceAndBuilds : List ServiceAndBuild
deriving DecidableEq, Repr

/-- The struct `commonmodels.DistributeTarget`. -/
structure DistributeTarget where
  ServiceName : String
  ServiceModule : String
  TargetTag : String
deriving DecidableEq, Repr

/-- The struct `commonmodels.ZadigDistributeImageJobSpec` (the field is spelt
`Tatgets` in the source). -/
structure ZadigDistributeImageJobSpec where
  Tatgets : List DistributeTarget
deriving DecidableEq, Repr

/-- The struct `commonmodels.ServiceAndImage`. -/
structure ServiceAndImage where
  ServiceName : String
  ServiceModule : String
  Image : String
deriving DecidableEq, Repr

/-- The struct `commonmodels.ZadigDeployJobSpec`. -/
structure ZadigDeployJobSpec where
  Env : String
  ServiceAndImages : List ServiceAndImage
deriving DecidableEq, Repr

/-- The dynamic value held by `Job.Spec` (a Go `interface{}`): one of the typed
spec pointers, or anything else (`raw`, for instance the generic map a stored
job carries before it is decoded). -/
inductive JobSpec where
  | build (v : ZadigBuildJobSpec)
  | distribute (v : ZadigDistributeImageJobSpec)
  | deploy (v : ZadigDeployJobSpec)
  | trigger (v : WorkflowTriggerJobSpec)
  | raw (payload : String)
deriving DecidableEq, Repr

/-- The struct `commonmodels.Job`. -/
structure Job where
  Name : String
  JobType : String
  Spec : JobSpec
deriving DecidableEq, Repr

/-- The struct `commonmodels.WorkflowStage`. -/
structure WorkflowStage where
  Name : String
  Jobs : List Job
deriving DecidableEq, Repr

/-- The struct `commonmodels.WorkflowV4`. -/
structure WorkflowV4 where
  Name : String
  Project : String
  Stages : List WorkflowStage
deriving DecidableEq, Repr

/-- The struct `commonmodels.WorkflowTriggerEvent`. -/
structure WorkflowTriggerEvent where
  WorkflowName : String
  Params : List Param
  ServiceName : String
  ServiceModule : String
  ProjectName : String
deriving DecidableEq, Repr

/-- The struct `commonmodels.JobTaskWorkflowTriggerSpec`. -/
structure JobTaskWorkflowTriggerSpec where
  TriggerType : String
  IsEnableCheck : Bool
  WorkflowTriggerEvents : List WorkflowTriggerEvent
deriving DecidableEq, Repr

/-- The struct `commonmodels.JobTask`, with the fields `ToJobs` sets. -/
structure JobTask where
  Name : String
  Key : String
  JobType : String
  Spec : JobTaskWorkflowTriggerSpec
  Timeout : Int
deriving DecidableEq, Repr

/-- The conversion `commonmodels.IToi(before, after)`, one function per target
type used by the embedded code.  It is defined outside the embedded file and is
a parameter of the model; a failed conversion returns the error text. -/
structure SpecDecoder where
  toTrigger : JobSpec → Except String WorkflowTriggerJobSpec
  toBuild : JobSpec → Except String ZadigBuildJobSpec
  toDistribute : JobSpec → Except String ZadigDistributeImageJobSpec
  toDeploy : JobSpec → Except String ZadigDeployJobSpec

/-! ## Memory model for shared `Params` slices -/

/-- Address of the `Params` slice of an entry of the decoded trigger spec:
the `i`-th entry of `ServiceTriggerWorkflow` or of `FixedWorkflowList`. -/
inductive Addr where
  | service (i : Nat)
  | fixed (i : Nat)
deriving DecidableEq, Repr

/-- Contents of the `Params` slices, by address. -/
abbrev ParamStore := Addr → List Param

/-- The store right after the spec is decoded. -/
def initStore (spec : WorkflowTriggerJobSpec) : ParamStore
  | .service i => match spec.ServiceTriggerWorkflow[i]? with
    | some info => info.Params
    | none => []
  | .fixed i => match spec.FixedWorkflowList[i]? with
    | some info => info.Params
    | none => []

/-- Write `ps` at address `a`. -/
def ParamStore.write (st : ParamStore) (a : Addr) (ps : List Param) : ParamStore :=
  fun b => if b = a then ps else st b

/-- Read the entries of a list of the spec back from the store, entry `i`
of the list living at address `mk i`. -/
def readBack (st : ParamStore) (mk : Nat → Addr) :
    Nat → List ServiceTriggerWorkflowInfo → List ServiceTriggerWorkflowInfo
  | _, [] => []
  | i, info :: rest => { info with Params := st (mk i) } :: readBack st mk (i + 1) rest

/-- The trigger spec `j.spec` as it stands when `ToJobs` returns. -/
def specAfter (spec : WorkflowTriggerJobSpec) (st : ParamStore) : WorkflowTriggerJobSpec :=
  { spec with
    ServiceTriggerWorkflow := readBack st Addr.service 0 spec.ServiceTriggerWorkflow
    FixedWorkflowList := readBack st Addr.fixed 0 spec.FixedWorkflowList }

/-- A pointer to an entry of `ServiceTriggerWorkflow`: the index of the entry
and the entry. -/
structure InfoPtr where
  index : Nat
  info : ServiceTriggerWorkflowInfo
deriving DecidableEq, Repr

/-- The Go map `m` of `ToJobs`, from service identity to entry pointer. -/
abbrev TriggerMap := ServiceNameAndModule → Option InfoPtr

/-- Key of an entry in the map `m`. -/
def ServiceTriggerWorkflowInfo.key (info : ServiceTriggerWorkflowInfo) : ServiceNameAndModule :=
  { ServiceName := info.ServiceName, ServiceModule := info.ServiceModule }

/-- The assignment `m[key] = info`. -/
def TriggerMap.insert (m : TriggerMap) (k : ServiceNameAndModule) (p : InfoPtr) : TriggerMap :=
  fun k2 => if k2 = k then some p else m k2

/-- The loop of lines 77-82 from entry number `i` on: each entry is stored
under its key, a later entry replacing an earlier one. -/
def fillMap : Nat → List ServiceTriggerWorkflowInfo → TriggerMap → TriggerMap
  | _, [], m => m
  | i, info :: rest, m => fillMap (i + 1) rest (m.insert info.key { index := i, info := info })

/-- The map `m` built from `j.spec.ServiceTriggerWorkflow` (lines 76-82). -/
def buildMap (infos : List ServiceTriggerWorkflowInfo) : TriggerMap :=
  fillMap 0 infos (fun _ => none)

/-- An event together with the address of the `Params` slice it shares. -/
abbrev PendingEvent := Addr × WorkflowTriggerEvent

/-- The event appended for a map hit `info` and a service identity (lines
91-96, 189-194, 208-213, 226-231); `ProjectName` is still the zero value. -/
def eventFor (p : InfoPtr) (serviceName serviceModule : String) : PendingEvent :=
  (Addr.service p.index,
   { WorkflowName := p.info.WorkflowName
     Params := p.info.Params
     ServiceName := serviceName
     ServiceModule := serviceModule
     ProjectName := "" })

/-! ## `getRepoFromJob` (lines 141-170) -/

/-- The Go index expression `repos[i]`, which panics out of range. -/
def indexRepos (repos : List Repository) (i : Int) : Except Fault Repository :=
  if i < 0 then .error (.panic "index out of range")
  else match repos[i.toNat]? with
    | some r => .ok r
    | none => .error (.panic "index out of range")

/-- The loop over `v.ServiceAndBuilds` (lines 157-165): `some r` when the loop
assigns `r` and returns, `none` when it runs to its end. -/
def scanBuilds (repo : Repository) : List ServiceAndBuild → Except Fault (Option Repository)
  | [] => .ok none
  | build :: rest =>
    if build.ServiceName ≠ repo.ServiceName ∨ build.ServiceModule ≠ repo.ServiceModule then
      scanBuilds repo rest
    else if (build.Repos.length : Int) ≥ repo.JobRepoIndex then
      match indexRepos build.Repos repo.JobRepoIndex with
      | .ok r => .ok (some r)
      | .error e => .error e
    else scanBuilds repo rest

/-- The loop over `stage.Jobs` (lines 151-167). -/
def scanJobs (repo : Repository) : List Job → Except Fault (Option Repository)
  | [] => .ok none
  | job :: rest =>
    if job.Name ≠ repo.JobName then scanJobs repo rest
    else match job.Spec with
      | .build v =>
        match scanBuilds repo v.ServiceAndBuilds with
        | .ok none => scanJobs repo rest
        | .ok (some r) => .ok (some r)
        | .error e => .error e
      | _ => scanJobs repo rest

/-- The loop over `j.workflow.Stages` (lines 150-168). -/
def scanStages (repo : Repository) : List WorkflowStage → Except Fault (Option Repository)
  | [] => .ok none
  | stage :: rest =>
    match scanJobs repo stage.Jobs with
    | .ok none => scanStages repo rest
    | .ok (some r) => .ok (some r)
    | .error e => .error e

/-- The method `getRepoFromJob`: the parameter as the call leaves it, or the
panic the call raises. -/
def getRepoFromJob (workflow : WorkflowV4) (param : Param) : Except Fault Param :=
  if param.ParamsType ≠ "repo" then .ok param
  else match param.Repo with
    | none => .ok param
    | some repo =>
      if repo.SourceFrom = RepoSourceJob then
        match scanStages repo workflow.Stages with
        | .ok none => .ok param
        | .ok (some r) => .ok { param with Repo := some r }
        | .error e => .error e
      else .ok param

/-! ## `getSourceJobTargets` (lines 172-239) -/

/-- The loop over `buildSpec.ServiceAndBuilds` (lines 184-196). -/
def buildTargets (m : TriggerMap) : List ServiceAndBuild → List PendingEvent
  | [] => []
  | build :: rest =>
    match m { ServiceName := build.ServiceName, ServiceModule := build.ServiceModule } with
    | some p => eventFor p build.ServiceName build.ServiceModule :: buildTargets m rest
    | none => buildTargets m rest

/-- The loop over `distributeSpec.Tatgets` (lines 203-215). -/
def distributeTargets (m : TriggerMap) : List DistributeTarget → List PendingEvent
  | [] => []
  | distribute :: rest =>
    match m { ServiceName := distribute.ServiceName, ServiceModule := distribute.ServiceModule } with
    | some p => eventFor p distribute.ServiceName distribute.ServiceModule :: distributeTargets m rest
    | none => distributeTargets m rest

/-- The loop over `deploySpec.ServiceAndImages` (lines 221-233). -/
def deployTargets (m : TriggerMap) : List ServiceAndImage → List PendingEvent
  | [] => []
  | build :: rest =>
    match m { ServiceName := build.ServiceName, ServiceModule := build.ServiceModule } with
    | some p => eventFor p build.ServiceName build.ServiceModule :: deployTargets m rest
    | none => deployTargets m rest

/-- The body run for the first job whose name is `SourceJobName` (lines
178-235): the switch on `job.JobType` and the `return` after it. -/
def sourceJobTargets (dec : SpecDecoder) (m : TriggerMap) (job : Job) :
    Except Fault (List PendingEvent) :=
  if job.JobType = JobZadigBuild then
    match dec.toBuild job.Spec with
    | .error e => .error (.err e)
    | .ok buildSpec => .ok (buildTargets m buildSpec.ServiceAndBuilds)
  else if job.JobType = JobZadigDistributeImage then
    match dec.toDistribute job.Spec with
    | .error e => .error (.err e)
    | .ok distributeSpec => .ok (distributeTargets m distributeSpec.Tatgets)
  else if job.JobType = JobZadigDeploy then
    match dec.toDeploy job.Spec with
    | .error e => .error (.err e)
    | .ok deploySpec => .ok (deployTargets m deploySpec.ServiceAndImages)
  else .ok []

/-- The loop over `stage.Jobs` (lines 174-236): `none` when no job of the stage
is named `sourceJobName`. -/
def sourceJobInJobs (dec : SpecDecoder) (sourceJobName : String) (m : TriggerMap) :
    List Job → Option (Except Fault (List PendingEvent))
  | [] => none
  | job :: rest =>
    if sourceJobName ≠ job.Name then sourceJobInJobs dec sourceJobName m rest
    else some (sourceJobTargets dec m job)

/-- The loop over `j.workflow.Stages` (lines 173-237). -/
def sourceJobInStages (dec : SpecDecoder) (sourceJobName : String) (m : TriggerMap) :
    List WorkflowStage → Option (Except Fault (List PendingEvent))
  | [] => none
  | stage :: rest =>
    match sourceJobInJobs dec sourceJobName m stage.Jobs with
    | some r => some r
    | none => sourceJobInStages dec sourceJobName m rest

/-- The method `getSourceJobTargets(jobName, m)`; the loop compares job names
with `j.spec.SourceJobName`, the final error quotes `jobName`. -/
def getSourceJobTargets (dec : SpecDecoder) (workflow : WorkflowV4)
    (spec : WorkflowTriggerJobSpec) (jobName : String) (m : TriggerMap) :
    Except Fault (List PendingEvent) :=
  match sourceJobInStages dec spec.SourceJobName m workflow.Stages with
  | some r => r
  | none => .error (.err ("service from job " ++ jobName ++ " not found"))

/-! ## `ToJobs` (lines 65-139) -/

/-- The loop over `j.spec.SourceService` (lines 85-100). -/
def runtimeEvents (m : TriggerMap) : List ServiceNameAndModule → Except Fault (List PendingEvent)
  | [] => .ok []
  | service :: rest =>
    match m { ServiceName := service.ServiceName, ServiceModule := service.ServiceModule } with
    | some p =>
      match runtimeEvents m rest with
      | .ok evs => .ok (eventFor p service.ServiceName service.ServiceModule :: evs)
      | .error e => .error e
    | none =>
      .error (.err ("no workflow trigger info for service " ++ service.ServiceName ++ "-"
        ++ service.ServiceModule))

/-- The loop over `j.spec.FixedWorkflowList` (lines 109-114), from entry
number `i` on. -/
def fixedEvents : Nat → List ServiceTriggerWorkflowInfo → List PendingEvent
  | _, [] => []
  | i, w :: rest =>
    (Addr.fixed i,
     { WorkflowName := w.WorkflowName
       Params := w.Params
       ServiceName := ""
       ServiceModule := ""
       ProjectName := "" }) :: fixedEvents (i + 1) rest

/-- The switch on `j.spec.TriggerType` (lines 73-117): the events appended to
`workflowTriggerEvents`, or the error returned. -/
def collectEvents (dec : SpecDecoder) (workflow : WorkflowV4) (spec : WorkflowTriggerJobSpec) :
    Except Fault (List PendingEvent) :=
  if spec.TriggerType = WorkflowTriggerTypeCommon then
    let m := buildMap spec.ServiceTriggerWorkflow
    if spec.Source = TriggerWorkflowSourceRuntime then
      runtimeEvents m spec.SourceService
    else if spec.Source = TriggerWorkflowSourceFromJob then
      getSourceJobTargets dec workflow spec spec.SourceJobName m
    else .ok []
  else if spec.TriggerType = WorkflowTriggerTypeFixed then
    .ok (fixedEvents 0 spec.FixedWorkflowList)
  else .error (.err ("invalid trigger type: " ++ spec.TriggerType))

/-- The inner loop of lines 122-124: `getRepoFromJob` on every parameter of
one `Params` slice, in order. -/
def resolveParams (workflow : WorkflowV4) : List Param → Except Fault (List Param)
  | [] => .ok []
  | param :: rest =>
    match getRepoFromJob workflow param with
    | .error e => .error e
    | .ok p =>
      match resolveParams workflow rest with
      | .error e => .error e
      | .ok ps => .ok (p :: ps)

/-- The loop of lines 120-125 on the store: for each event in order, the
parameters at the address the event shares are resolved in place. -/
def resolveEvents (workflow : WorkflowV4) : List PendingEvent → ParamStore → Except Fault ParamStore
  | [], st => .ok st
  | (a, _) :: rest, st =>
    match resolveParams workflow (st a) with
    | .error e => .error e
    | .ok ps => resolveEvents workflow rest (st.write a ps)

/-- The events as the returned task holds them: `ProjectName` set by line 121,
`Params` read through the shared pointer. -/
def finishEvents (workflow : WorkflowV4) (st : ParamStore) (events : List PendingEvent) :
    List WorkflowTriggerEvent :=
  events.map (fun e => { e.2 with ProjectName := workflow.Project, Params := st e.1 })

/-- The task built by lines 127-137. -/
def mkJobTask (job : Job) (spec : WorkflowTriggerJobSpec) (events : List WorkflowTriggerEvent) :
    JobTask :=
  { Name := job.Name
    Key := job.Name
    JobType := JobWorkflowTrigger
    Spec :=
      { TriggerType := spec.TriggerType
        IsEnableCheck := spec.IsEnableCheck
        WorkflowTriggerEvents := events }
    Timeout := 0 }

/-- The method `ToJobs` of the trigger job `job` of `workflow`: the returned
task list together with `j.spec` as the call leaves it, or the returned error,
or the panic. -/
def ToJobs (dec : SpecDecoder) (workflow : WorkflowV4) (job : Job) :
    Except Fault (List JobTask × WorkflowTriggerJobSpec) :=
  match dec.toTrigger job.Spec with
  | .error e => .error (.err e)
  | .ok spec =>
    match collectEvents dec workflow spec with
    | .error e => .error e
    | .ok events =>
      match resolveEvents workflow events (initStore spec) with
      | .error e => .error e
      | .ok st => .ok ([mkJobTask job spec (finishEvents workflow st events)], specAfter spec st)


/-! ## Specification-side vocabulary -/

/-- The jobs of a workflow in stage order, then job order. -/
def WorkflowV4.jobs (workflow : WorkflowV4) : List Job :=
  workflow.Stages.flatMap (fun stage => stage.Jobs)

/-- The build entries a job offers to `getRepoFromJob` when the job looked for
is `jobName`: those of its typed build spec if it has that name, none
otherwise. -/
def buildEntriesOfJob (jobName : String) (job : Job) : List ServiceAndBuild :=
  if job.Name = jobName then
    match job.Spec with
    | .build v => v.ServiceAndBuilds
    | _ => []
  else []

/-- The build entries of the jobs named `jobName` that hold a build spec, in
stage order, job order, then entry order. -/
def buildEntriesNamed (workflow : WorkflowV4) (jobName : String) : List ServiceAndBuild :=
  workflow.jobs.flatMap (buildEntriesOfJob jobName)

/-- A build entry is the entry of the service and module the repo names. -/
def ServiceAndBuild.matchesRepo (build : ServiceAndBuild) (repo : Repository) : Prop :=
  build.ServiceName = repo.ServiceName ∧ build.ServiceModule = repo.ServiceModule

/-- The service identity of a build entry. -/
def ServiceAndBuild.key (build : ServiceAndBuild) : ServiceNameAndModule :=
  { ServiceName := build.ServiceName, ServiceModule := build.ServiceModule }

/-- The service identity an event carries. -/
def WorkflowTriggerEvent.key (ev : WorkflowTriggerEvent) : ServiceNameAndModule :=
  { ServiceName := ev.ServiceName, ServiceModule := ev.ServiceModule }

/-- The first job of the workflow named `name`, in stage order, then job
order. -/
def WorkflowV4.firstJobNamed (workflow : WorkflowV4) (name : String) : Option Job :=
  workflow.jobs.find? (fun job => decide (name = job.Name))

/-- The number of keys of the mapping built from `infos` that equal the pair
of some entry of `builds`. -/
def matchedKeyCount (infos : List ServiceTriggerWorkflowInfo) (builds : List ServiceAndBuild) :
    Nat :=
  ((infos.map (fun info => info.key)).dedup.filter
    (fun k => decide (k ∈ builds.map (fun b => b.key)))).length

/-- The entries of `builds` whose pair is a key of the mapping built from
`infos`, in the order of `builds`. -/
def matchedBuilds (infos : List ServiceTriggerWorkflowInfo) (builds : List ServiceAndBuild) :
    List ServiceAndBuild :=
  builds.filter (fun b => decide (b.key ∈ infos.map (fun info => info.key)))

/-! ## Concrete inputs -/

/-- Modelled from the spec: `config.JobFreestyle`, the `Freestyle` job type; the
constant is declared in package `config`. -/
def JobFreestyle : String := "freestyle"

/-- Modelled from the spec: `config.JobPlugin`, the `Plugin` job type; the
constant is declared in package `config`. -/
def JobPlugin : String := "plugin"

/-- A decoder for concrete runs: a typed spec of the requested type converts
to itself, anything else fails to convert. -/
def exampleDecoder : SpecDecoder where
  toTrigger := fun s => match s with
    | .trigger v => .ok v
    | _ => .error "not a workflow trigger spec"
  toBuild := fun s => match s with
    | .build v => .ok v
    | _ => .error "not a build spec"
  toDistribute := fun s => match s with
    | .distribute v => .ok v
    | _ => .error "not a distribute image spec"
  toDeploy := fun s => match s with
    | .deploy v => .ok v
    | _ => .error "not a deploy spec"

/-- A repository checked out by the build job of the examples. -/
def exRepo : Repository :=
  { RepoOwner := "koderover", RepoName := "zadig", Branch := "main", SourceFrom := "runtime",
    JobName := "", ServiceName := "", ServiceModule := "", JobRepoIndex := 0 }

/-- A repo descriptor that names repository number `i` of entry `svc`/`mod` of
the job `build`. -/
def exJobRepo (i : Int) : Repository :=
  { RepoOwner := "", RepoName := "", Branch := "", SourceFrom := RepoSourceJob,
    JobName := "build", ServiceName := "svc", ServiceModule := "mod", JobRepoIndex := i }

/-- A parameter of type "repo" carrying `exJobRepo i`. -/
def exRepoParam (i : Int) : Param :=
  { Name := "repo", Description := "", ParamsType := "repo", Value := "",
    Repo := some (exJobRepo i) }

/-- A plain string parameter. -/
def exStringParam : Param :=
  { Name := "tag", Description := "", ParamsType := "string", Value := "v1", Repo := none }

/-- The build entry `svc`/`mod`, with one repository. -/
def exBuild : ServiceAndBuild :=
  { ServiceName := "svc", ServiceModule := "mod", BuildName := "svc-build", Repos := [exRepo] }

/-- A build job named `build` with the given entries. -/
def exBuildJob (builds : List ServiceAndBuild) : Job :=
  { Name := "build", JobType := JobZadigBuild,
    Spec := .build { DockerRegistryID := "", ServiceAndBuilds := builds } }

/-- A freestyle job named `unit-test`. -/
def exTestJob : Job :=
  { Name := "unit-test", JobType := JobFreestyle, Spec := .raw "steps" }

/-- The trigger job of the examples, holding the typed spec `spec`. -/
def exTriggerJob (spec : WorkflowTriggerJobSpec) : Job :=
  { Name := "trigger", JobType := JobWorkflowTrigger, Spec := .trigger spec }

/-- The owning workflow `A` of project `proj-a`: a stage with the build job
and the freestyle job, then a stage with the trigger job. -/
def exWorkflow (builds : List ServiceAndBuild) (spec : WorkflowTriggerJobSpec) : WorkflowV4 :=
  { Name := "A", Project := "proj-a",
    Stages := [{ Name := "stage-1", Jobs := [exBuildJob builds, exTestJob] },
               { Name := "stage-2", Jobs := [exTriggerJob spec] }] }

/-- A `Fixed` spec with two targets; the first passes `exRepoParam i`. -/
def exFixedSpec (i : Int) : WorkflowTriggerJobSpec :=
  { IsEnableCheck := true, TriggerType := WorkflowTriggerTypeFixed,
    ServiceTriggerWorkflow := [],
    FixedWorkflowList :=
      [{ ServiceName := "", ServiceModule := "", WorkflowName := "deploy-all",
         ProjectName := "proj-b", Params := [exRepoParam i] },
       { ServiceName := "", ServiceModule := "", WorkflowName := "notify",
         ProjectName := "proj-a", Params := [exStringParam] }],
    Source := "", SourceJobName := "", SourceService := [] }

/-- The trigger-target entry of the examples: `svc`/`mod` triggers `deploy-svc`
and passes `params`. -/
def exInfo (params : List Param) : ServiceTriggerWorkflowInfo :=
  { ServiceName := "svc", ServiceModule := "mod", WorkflowName := "deploy-svc",
    ProjectName := "proj-b", Params := params }

/-- A `Common` spec with the single trigger target `exInfo params`. -/
def exCommonSpec (source sourceJobName : String) (services : List ServiceNameAndModule)
    (params : List Param) : WorkflowTriggerJobSpec :=
  { IsEnableCheck := false, TriggerType := WorkflowTriggerTypeCommon,
    ServiceTriggerWorkflow := [exInfo params],
    FixedWorkflowList := [],
    Source := source, SourceJobName := sourceJobName, SourceService := services }

/-- The event the examples produce for `svc`/`mod`. -/
def exEvent (params : List Param) : WorkflowTriggerEvent :=
  { WorkflowName := "deploy-svc", Params := params, ServiceName := "svc",
    ServiceModule := "mod", ProjectName := "proj-a" }

/-- The service identity of a distribute target. -/
def DistributeTarget.key (target : DistributeTarget) : ServiceNameAndModule :=
  { ServiceName := target.ServiceName, ServiceModule := target.ServiceModule }

/-- The service identity of a deployed service and image. -/
def ServiceAndImage.key (image : ServiceAndImage) : ServiceNameAndModule :=
  { ServiceName := image.ServiceName, ServiceModule := image.ServiceModule }

/-- One event per element of `pairs` that is a key of the mapping `m`, in the
order of `pairs`; a pair that is no key is skipped. -/
def pairTargets (m : TriggerMap) (pairs : List ServiceNameAndModule) : List PendingEvent :=
  pairs.filterMap (fun k => (m k).map (fun p => eventFor p k.ServiceName k.ServiceModule))

/-- The parameter is one `getRepoFromJob` does not resolve: its type is not
"repo", or it has no repo, or its repo's `SourceFrom` is not `Job`. -/
def Param.plain (param : Param) : Prop :=
  param.ParamsType ≠ "repo" ∨ param.Repo = none ∨
    ∃ repo, param.Repo = some repo ∧ repo.SourceFrom ≠ RepoSourceJob

/-- No entry of the spec, in either list, passes a job-sourced repo parameter. -/
def WorkflowTriggerJobSpec.plain (spec : WorkflowTriggerJobSpec) : Prop :=
  ∀ info ∈ spec.ServiceTriggerWorkflow ++ spec.FixedWorkflowList, ∀ p ∈ info.Params, p.plain

/-- A distribute-image job named `distribute` with the targets `svc`/`mod` and
`web`/`mod`. -/
def exDistributeJob : Job :=
  { Name := "distribute", JobType := JobZadigDistributeImage,
    Spec := .distribute
      { Tatgets := [{ ServiceName := "svc", ServiceModule := "mod", TargetTag := "v1" },
                    { ServiceName := "web", ServiceModule := "mod", TargetTag := "v1" }] } }

/-- A workflow `A` of project `proj-a` with one stage holding `jobs` and one
stage holding the trigger job. -/
def exWorkflowOf (jobs : List Job) (trigger : Job) : WorkflowV4 :=
  { Name := "A", Project := "proj-a",
    Stages := [{ Name := "stage-1", Jobs := jobs }, { Name := "stage-2", Jobs := [trigger] }] }

/-- A `Common`/`Runtime` spec for the service `svc`/`mod` whose
`ServiceTriggerWorkflow` has two entries with the pair `svc`/`mod`: `first`,
then one that triggers `deploy-svc-v2`. -/
def exDupSpec (first : ServiceTriggerWorkflowInfo) : WorkflowTriggerJobSpec :=
  { IsEnableCheck := false, TriggerType := WorkflowTriggerTypeCommon,
    ServiceTriggerWorkflow :=
      [first,
       { ServiceName := "svc", ServiceModule := "mod", WorkflowName := "deploy-svc-v2",
         ProjectName := "proj-a", Params := [exStringParam] }],
    FixedWorkflowList := [],
    Source := TriggerWorkflowSourceRuntime, SourceJobName := "",
    SourceService := [⟨"svc", "mod"⟩] }

/-! ## `checkWorkflowTriggerLoop` and `LintJob` (lines 241-323) -/

/-- Modelled from the spec: the workflow store behind
`mongodb.NewWorkflowV4Coll()`, which is outside the embedded file: the stored
workflow definitions. -/
structure WorkflowColl where
  workflows : List WorkflowV4

/-- Modelled from the spec: `mongodb.NewWorkflowV4Coll().Find(name)`, the
`findWorkflow(name) -> Workflow | NotFound` of section 6 of the spec: the stored
workflow of that name, or an error when there is none. -/
def WorkflowColl.Find (coll : WorkflowColl) (name : String) : Except String WorkflowV4 :=
  match coll.workflows.find? (fun w => decide (w.Name = name)) with
  | some w => .ok w
  | none => .error "mongo: no documents in result"

/-- What `LintJob` and `checkWorkflowTriggerLoop` take from outside the
embedded file: the conversions `IToi` and `IToiYaml`, the helper
`getJobRankMap` (a Go `map[string]int`, here a partial function on job names)
and the workflow store. -/
structure LintEnv where
  IToi : SpecDecoder
  IToiYaml : JobSpec → Except String WorkflowTriggerJobSpec
  getJobRankMap : List WorkflowStage → String → Option Int
  coll : WorkflowColl

/-- Outcome of `LintJob` or `checkWorkflowTriggerLoop`: a nil error, a returned
error, or, in the model only, a recursion deeper than the budget given. -/
inductive Verdict where
  | pass
  | fail (msg : String)
  | outOfFuel
deriving DecidableEq, Repr

/-- The body of the loop of lines 301-318 for a target not yet checked (lines
305-317): look the target up, reject it when it is on the path, recurse with
the path extended by it.  `recur` is the recursive call. -/
def loopVisit (recur : WorkflowV4 → List String → Verdict) (coll : WorkflowColl)
    (workflow : WorkflowV4) (workflowSet : List String) (name : String) : Verdict :=
  match coll.Find name with
  | .error e => .fail ("can't found workflow " ++ name ++ ": " ++ e)
  | .ok w =>
    if name ∈ workflowSet then .fail ("工作流不能循环触发, 工作流名称: " ++ workflow.Name)
    else recur w (name :: workflowSet)

/-- The loop over `triggerSpec.ServiceTriggerWorkflow` (lines 301-318): the
verdict and `checkedWorkflow` as the loop leaves it. -/
def loopInfos (visit : String → Verdict) :
    List ServiceTriggerWorkflowInfo → List String → Verdict × List String
  | [], checked => (.pass, checked)
  | info :: rest, checked =>
    if info.WorkflowName ∈ checked then loopInfos visit rest checked
    else
      match visit info.WorkflowName with
      | .pass => loopInfos visit rest (info.WorkflowName :: checked)
      | v => (v, info.WorkflowName :: checked)

/-- The loop over `stage.Jobs` (lines 295-320). -/
def loopJobs (dec : SpecDecoder) (visit : String → Verdict) :
    List Job → List String → Verdict × List String
  | [], checked => (.pass, checked)
  | job :: rest, checked =>
    if job.JobType = JobWorkflowTrigger then
      match dec.toTrigger job.Spec with
      | .error e => (.fail e, checked)
      | .ok triggerSpec =>
        match loopInfos visit triggerSpec.ServiceTriggerWorkflow checked with
        | (.pass, checked2) => loopJobs dec visit rest checked2
        | r => r
    else loopJobs dec visit rest checked

/-- The loop over `workflow.Stages` (lines 294-321). -/
def loopStages (dec : SpecDecoder) (visit : String → Verdict) :
    List WorkflowStage → List String → Verdict × List String
  | [], checked => (.pass, checked)
  | stage :: rest, checked =>
    match loopJobs dec visit stage.Jobs checked with
    | (.pass, checked2) => loopStages dec visit rest checked2
    | r => r

/-- The function `checkWorkflowTriggerLoop(workflow, workflowSet)`, with a
budget for the depth of the recursion: a call with budget 0 gives
`outOfFuel`.  A set of names is a list read through membership. -/
def checkWorkflowTriggerLoop (dec : SpecDecoder) (coll : WorkflowColl) :
    Nat → WorkflowV4 → List String → Verdict
  | 0, _, _ => .outOfFuel
  | fuel + 1, workflow, workflowSet =>
    (loopStages dec (loopVisit (checkWorkflowTriggerLoop dec coll fuel) coll workflow workflowSet)
      workflow.Stages []).1

/-- The loop over `stage.Jobs` of lines 269-275: the first job of a type other
than Freestyle, Plugin and WorkflowTrigger is an error. -/
def checkJobTypesJobs (workflow : WorkflowV4) : List Job → Verdict
  | [] => .pass
  | job :: rest =>
    if job.JobType = JobFreestyle ∨ job.JobType = JobPlugin ∨ job.JobType = JobWorkflowTrigger then
      checkJobTypesJobs workflow rest
    else .fail ("工作流 " ++ workflow.Name ++ " 中的任务 " ++ job.Name ++ " 类型不支持被触发")

/-- The loop over `workflow.Stages` of lines 268-276. -/
def checkJobTypes (workflow : WorkflowV4) : List WorkflowStage → Verdict
  | [] => .pass
  | stage :: rest =>
    match checkJobTypesJobs workflow stage.Jobs with
    | .pass => checkJobTypes workflow rest
    | v => v

/-- The loop over `j.spec.ServiceTriggerWorkflow` of `LintJob` (lines 251-277),
`owner` being `j.workflow` and `workflowSet` the set holding its name. -/
def lintInfos (fuel : Nat) (dec : SpecDecoder) (coll : WorkflowColl) (owner : WorkflowV4) :
    List ServiceTriggerWorkflowInfo → List String → Verdict
  | [], _ => .pass
  | info :: rest, checked =>
    if info.WorkflowName ∈ checked then lintInfos fuel dec coll owner rest checked
    else
      match coll.Find info.WorkflowName with
      | .error e => .fail ("can't found workflow " ++ info.WorkflowName ++ ": " ++ e)
      | .ok workflow =>
        if workflow.Name ∈ [owner.Name] then
          .fail ("工作流不能循环触发, 工作流名称: " ++ workflow.Name)
        else
          match checkWorkflowTriggerLoop dec coll fuel workflow (workflow.Name :: [owner.Name]) with
          | .pass =>
            match checkJobTypes workflow workflow.Stages with
            | .pass => lintInfos fuel dec coll owner rest (workflow.Name :: checked)
            | v => v
          | v => v

/-- The rank check of lines 282-286. -/
def checkJobRank (jobRankMap : String → Option Int) (spec : WorkflowTriggerJobSpec)
    (job : Job) : Verdict :=
  match jobRankMap spec.SourceJobName with
  | none => .fail ("can not quote job " ++ spec.SourceJobName ++ " in job " ++ job.Name)
  | some sourceJobRank =>
    if sourceJobRank ≥ (jobRankMap job.Name).getD 0 then
      .fail ("can not quote job " ++ spec.SourceJobName ++ " in job " ++ job.Name)
    else .pass

/-- The method `LintJob` of the trigger job `job` of `workflow`, with the
recursion budget handed to `checkWorkflowTriggerLoop`. -/
def LintJob (fuel : Nat) (env : LintEnv) (workflow : WorkflowV4) (job : Job) : Verdict :=
  match env.IToiYaml job.Spec with
  | .error e => .fail e
  | .ok spec =>
    match lintInfos fuel env.IToi env.coll workflow spec.ServiceTriggerWorkflow [] with
    | .pass =>
      if spec.TriggerType ≠ WorkflowTriggerTypeCommon ∨
          spec.Source ≠ TriggerWorkflowSourceFromJob then .pass
      else checkJobRank (env.getJobRankMap workflow.Stages) spec job
    | v => v

/-! ## Vocabulary for the trigger graph -/

/-- The names of the stored workflows, each once. -/
def WorkflowColl.names (coll : WorkflowColl) : List String :=
  (coll.workflows.map (fun w => w.Name)).dedup

/-- The stored names that are not on the path `workflowSet`. -/
def WorkflowColl.namesLeft (coll : WorkflowColl) (workflowSet : List String) : List String :=
  coll.names.filter (fun n => decide (n ∉ workflowSet))

/-- The workflow has a WorkflowTrigger job whose spec decodes and names `name`
as a target in its `ServiceTriggerWorkflow`. -/
def Triggers (dec : SpecDecoder) (workflow : WorkflowV4) (name : String) : Prop :=
  ∃ job ∈ workflow.jobs, job.JobType = JobWorkflowTrigger ∧
    ∃ spec, dec.toTrigger job.Spec = .ok spec ∧
      ∃ info ∈ spec.ServiceTriggerWorkflow, info.WorkflowName = name

/-- Every WorkflowTrigger job of the workflow has a spec that decodes. -/
def Decodes (dec : SpecDecoder) (workflow : WorkflowV4) : Prop :=
  ∀ job ∈ workflow.jobs, job.JobType = JobWorkflowTrigger →
    ∃ spec, dec.toTrigger job.Spec = .ok spec

/-- The paths of the trigger graph that start at one of `targets`, the last
name reached first: a target is a path, and a path whose last name `n` is
stored extends by every name the workflow stored under `n` triggers. -/
inductive Reach (dec : SpecDecoder) (coll : WorkflowColl) (targets : List String) :
    List String → Prop where
  | start (n : String) : n ∈ targets → Reach dec coll targets [n]
  | step (n m : String) (path : List String) (w : WorkflowV4) :
      Reach dec coll targets (n :: path) → coll.Find n = .ok w → Triggers dec w m →
      Reach dec coll targets (m :: n :: path)

/-- The target names of a list of trigger-target entries. -/
def targetNames (infos : List ServiceTriggerWorkflowInfo) : List String :=
  infos.map (fun info => info.WorkflowName)

/-- Every job of the workflow has type Freestyle, Plugin or WorkflowTrigger. -/
def Triggerable (workflow : WorkflowV4) : Prop :=
  ∀ job ∈ workflow.jobs,
    job.JobType = JobFreestyle ∨ job.JobType = JobPlugin ∨ job.JobType = JobWorkflowTrigger

/-- The steps of one call of `checkWorkflowTriggerLoop` over `jobs`, in order:
for each WorkflowTrigger job, the decoding error if its spec does not decode,
else the target names of its `ServiceTriggerWorkflow`. -/
def walkSteps (dec : SpecDecoder) (jobs : List Job) : List (Except String String) :=
  jobs.flatMap (fun job =>
    if job.JobType = JobWorkflowTrigger then
      match dec.toTrigger job.Spec with
      | .error e => [.error e]
      | .ok spec => spec.ServiceTriggerWorkflow.map (fun info => .ok info.WorkflowName)
    else [])

/-- A list of steps run in order with the `checkedWorkflow` set: a decoding
error ends the run, a name already checked is skipped, any other name is
visited and ends the run unless the visit passes. -/
def runSteps (visit : String → Verdict) :
    List (Except String String) → List String → Verdict × List String
  | [], checked => (.pass, checked)
  | .error e :: _, checked => (.fail e, checked)
  | .ok n :: rest, checked =>
    if n ∈ checked then runSteps visit rest checked
    else
      match visit n with
      | .pass => runSteps visit rest (n :: checked)
      | v => (v, n :: checked)

/-- The body of the loop of `LintJob` for a target not yet checked (lines
255-276), as a function of the target name. -/
def lintVisit (fuel : Nat) (dec : SpecDecoder) (coll : WorkflowColl) (owner : WorkflowV4)
    (name : String) : Verdict :=
  match coll.Find name with
  | .error e => .fail ("can't found workflow " ++ name ++ ": " ++ e)
  | .ok workflow =>
    if workflow.Name ∈ [owner.Name] then
      .fail ("工作流不能循环触发, 工作流名称: " ++ workflow.Name)
    else
      match checkWorkflowTriggerLoop dec coll fuel workflow (workflow.Name :: [owner.Name]) with
      | .pass => checkJobTypes workflow workflow.Stages
      | v => v

/-! ## The walk without the `checkedWorkflow` sets -/

/-- The loop of lines 301-318 without `checkedWorkflow`: every entry is
visited, repeated target names included. -/
def loopInfosPlain (visit : String → Verdict) : List ServiceTriggerWorkflowInfo → Verdict
  | [] => .pass
  | info :: rest =>
    match visit info.WorkflowName with
    | .pass => loopInfosPlain visit rest
    | v => v

/-- The loop over `stage.Jobs` without `checkedWorkflow`. -/
def loopJobsPlain (dec : SpecDecoder) (visit : String → Verdict) : List Job → Verdict
  | [] => .pass
  | job :: rest =>
    if job.JobType = JobWorkflowTrigger then
      match dec.toTrigger job.Spec with
      | .error e => .fail e
      | .ok triggerSpec =>
        match loopInfosPlain visit triggerSpec.ServiceTriggerWorkflow with
        | .pass => loopJobsPlain dec visit rest
        | v => v
    else loopJobsPlain dec visit rest

/-- The loop over `workflow.Stages` without `checkedWorkflow`. -/
def loopStagesPlain (dec : SpecDecoder) (visit : String → Verdict) :
    List WorkflowStage → Verdict
  | [] => .pass
  | stage :: rest =>
    match loopJobsPlain dec visit stage.Jobs with
    | .pass => loopStagesPlain dec visit rest
    | v => v

/-- The walk of `checkWorkflowTriggerLoop` without `checkedWorkflow`. -/
def checkWorkflowTriggerLoopPlain (dec : SpecDecoder) (coll : WorkflowColl) :
    Nat → WorkflowV4 → List String → Verdict
  | 0, _, _ => .outOfFuel
  | fuel + 1, workflow, workflowSet =>
    loopStagesPlain dec
      (loopVisit (checkWorkflowTriggerLoopPlain dec coll fuel) coll workflow workflowSet)
      workflow.Stages

/-- The loop of `LintJob` over `j.spec.ServiceTriggerWorkflow` without
`checkedWorkflow`, recursing into the walk without `checkedWorkflow`. -/
def lintInfosPlain (fuel : Nat) (dec : SpecDecoder) (coll : WorkflowColl) (owner : WorkflowV4) :
    List ServiceTriggerWorkflowInfo → Verdict
  | [] => .pass
  | info :: rest =>
    match coll.Find info.WorkflowName with
    | .error e => .fail ("can't found workflow " ++ info.WorkflowName ++ ": " ++ e)
    | .ok workflow =>
      if workflow.Name ∈ [owner.Name] then
        .fail ("工作流不能循环触发, 工作流名称: " ++ workflow.Name)
      else
        match checkWorkflowTriggerLoopPlain dec coll fuel workflow
            (workflow.Name :: [owner.Name]) with
        | .pass =>
          match checkJobTypes workflow workflow.Stages with
          | .pass => lintInfosPlain fuel dec coll owner rest
          | v => v
        | v => v

/-- `LintJob` without the `checkedWorkflow` sets. -/
def LintJobPlain (fuel : Nat) (env : LintEnv) (workflow : WorkflowV4) (job : Job) : Verdict :=
  match env.IToiYaml job.Spec with
  | .error e => .fail e
  | .ok spec =>
    match lintInfosPlain fuel env.IToi env.coll workflow spec.ServiceTriggerWorkflow with
    | .pass =>
      if spec.TriggerType ≠ WorkflowTriggerTypeCommon ∨
          spec.Source ≠ TriggerWorkflowSourceFromJob then .pass
      else checkJobRank (env.getJobRankMap workflow.Stages) spec job
    | v => v

/-- A list of steps run in order without the `checkedWorkflow` set. -/
def runStepsPlain (visit : String → Verdict) : List (Except String String) → Verdict
  | [] => .pass
  | .error e :: _ => .fail e
  | .ok n :: rest =>
    match visit n with
    | .pass => runStepsPlain visit rest
    | v => v

/-! ## Concrete stores -/

/-- A job of type WorkflowTrigger named `trigger` whose `Common`/`Runtime`
spec targets the workflows `targets`, each for the service `svc`/`mod`. -/
def exTriggerTo (targets : List String) : Job :=
  { Name := "trigger", JobType := JobWorkflowTrigger,
    Spec := .trigger
      { IsEnableCheck := false, TriggerType := WorkflowTriggerTypeCommon,
        ServiceTriggerWorkflow := targets.map (fun t =>
          { ServiceName := "svc", ServiceModule := "mod", WorkflowName := t,
            ProjectName := "proj-a", Params := [] }),
        FixedWorkflowList := [],
        Source := TriggerWorkflowSourceRuntime, SourceJobName := "", SourceService := [] } }

/-- A workflow of project `proj-a` with one stage holding `jobs`. -/
def exStored (name : String) (jobs : List Job) : WorkflowV4 :=
  { Name := name, Project := "proj-a", Stages := [{ Name := "stage-1", Jobs := jobs }] }

/-- The rank of the last job named `name` in `jobs`, the first job of
`jobs` having rank `i` and each next job one more. -/
def rankIn (name : String) : List Job → Int → Option Int
  | [], _ => none
  | job :: rest, i =>
    match rankIn name rest (i + 1) with
    | some r => some r
    | none => if job.Name = name then some i else none

/-- A rank map for concrete runs: the position of the last job of that name,
counted from 0 in stage order, then job order. -/
def exRankMap (stages : List WorkflowStage) (name : String) : Option Int :=
  rankIn name (stages.flatMap (fun s => s.Jobs)) 0

/-- The environment of the concrete runs: `IToiYaml` converts like `IToi`. -/
def exEnv (stored : List WorkflowV4) : LintEnv :=
  { IToi := exampleDecoder
    IToiYaml := exampleDecoder.toTrigger
    getJobRankMap := exRankMap
    coll := { workflows := stored } }

/-- The store with `A` triggering `B` and `B` triggering `A`. -/
def exCycleStore : List WorkflowV4 :=
  [exStored "A" [exTriggerTo ["B"]], exStored "B" [exTriggerTo ["A"]]]

/-- The store with `A` triggering `B` and `C`, both triggering `D`. -/
def exDiamondStore : List WorkflowV4 :=
  [exStored "A" [exTriggerTo ["B", "C"]], exStored "B" [exTriggerTo ["D"]],
   exStored "C" [exTriggerTo ["D"]], exStored "D" [exTestJob]]

/-- The store with `A` triggering `B`, `B` triggering `C`, and `C` holding a
Build job. -/
def exBuildDownstreamStore : List WorkflowV4 :=
  [exStored "A" [exTriggerTo ["B"]], exStored "B" [exTriggerTo ["C"]],
   exStored "C" [exBuildJob [exBuild]]]

/-- A `Fixed` spec whose only target is the workflow `A`. -/
def exSelfFixedSpec : WorkflowTriggerJobSpec :=
  { IsEnableCheck := false, TriggerType := WorkflowTriggerTypeFixed,
    ServiceTriggerWorkflow := [],
    FixedWorkflowList :=
      [{ ServiceName := "", ServiceModule := "", WorkflowName := "A",
         ProjectName := "proj-a", Params := [] }],
    Source := "", SourceJobName := "", SourceService := [] }

/-- The store with `A`, whose trigger job is `trigger`, and `B`, whose `Fixed`
trigger job targets `A`. -/
def exFixedBackStore (trigger : Job) : List WorkflowV4 :=
  [exStored "A" [trigger], exStored "B" [exTriggerJob exSelfFixedSpec]]

/-- The store with the workflow `deploy-svc`, which holds a freestyle job. -/
def exDeployStore : List WorkflowV4 :=
  [exStored "deploy-svc" [exTestJob]]

/-! ## Lemmas on `getRepoFromJob` -/

theorem scanBuilds_append (repo : Repository) (l1 l2 : List ServiceAndBuild) :
    scanBuilds repo (l1 ++ l2) =
      match scanBuilds repo l1 with
      | .ok none => scanBuilds repo l2
      | r => r := by
  induction l1 with
  | nil => simp [scanBuilds]
  | cons b rest ih =>
    simp only [List.cons_append, scanBuilds]
    split_ifs
    · exact ih
    · cases indexRepos b.Repos repo.JobRepoIndex <;> rfl
    · exact ih

theorem scanJobs_eq_scanBuilds (repo : Repository) (jobs : List Job) :
    scanJobs repo jobs = scanBuilds repo (jobs.flatMap (buildEntriesOfJob repo.JobName)) := by
  induction jobs with
  | nil => simp [scanJobs, scanBuilds]
  | cons job rest ih =>
    simp only [List.flatMap_cons, scanBuilds_append, scanJobs, buildEntriesOfJob]
    by_cases hn : job.Name = repo.JobName
    · simp only [hn, ne_eq, not_true_eq_false, if_false, if_true]
      cases hs : job.Spec with
      | build v =>
        simp only []
        rcases h : scanBuilds repo v.ServiceAndBuilds with e | (_ | r)
        · rfl
        · simpa using ih
        · rfl
      | distribute v => simpa [scanBuilds] using ih
      | deploy v => simpa [scanBuilds] using ih
      | trigger v => simpa [scanBuilds] using ih
      | raw p => simpa [scanBuilds] using ih
    · simp only [hn, ne_eq, not_false_eq_true, if_true, if_false, scanBuilds]
      exact ih

theorem scanStages_eq_scanBuilds (repo : Repository) (stages : List WorkflowStage) :
    scanStages repo stages =
      scanBuilds repo
        ((stages.flatMap (fun stage => stage.Jobs)).flatMap (buildEntriesOfJob repo.JobName)) := by
  induction stages with
  | nil => simp [scanStages, scanBuilds]
  | cons stage rest ih =>
    simp only [List.flatMap_cons, List.flatMap_append, scanBuilds_append, scanStages]
    rw [← scanJobs_eq_scanBuilds repo stage.Jobs]
    rcases h : scanJobs repo stage.Jobs with e | (_ | r)
    · rfl
    · simpa using ih
    · rfl

theorem scanBuilds_skip (repo : Repository) (pre rest : List ServiceAndBuild)
    (hpre : ∀ x ∈ pre, ¬ x.matchesRepo repo) :
    scanBuilds repo (pre ++ rest) = scanBuilds repo rest := by
  induction pre with
  | nil => rfl
  | cons b pre ih =>
    have hb : ¬ b.matchesRepo repo := hpre b (List.mem_cons_self _ _)
    have hb2 : b.ServiceName ≠ repo.ServiceName ∨ b.ServiceModule ≠ repo.ServiceModule := by
      unfold ServiceAndBuild.matchesRepo at hb
      by_contra hcon
      push_neg at hcon
      exact hb hcon
    simp only [List.cons_append, scanBuilds, if_pos hb2]
    exact ih (fun x hx => hpre x (List.mem_cons_of_mem _ hx))

theorem indexRepos_of_getElem (repos : List Repository) (i : Int) (r : Repository)
    (hi : 0 ≤ i) (hr : repos[i.toNat]? = some r) : indexRepos repos i = .ok r := by
  unfold indexRepos
  rw [if_neg (not_lt.mpr hi)]
  simp [hr]

theorem getRepoFromJob_scan (workflow : WorkflowV4) (param : Param) (repo : Repository)
    (htype : param.ParamsType = "repo") (hrepo : param.Repo = some repo)
    (hsrc : repo.SourceFrom = RepoSourceJob) :
    getRepoFromJob workflow param =
      match scanBuilds repo (buildEntriesNamed workflow repo.JobName) with
      | .ok none => .ok param
      | .ok (some r) => .ok { param with Repo := some r }
      | .error e => .error e := by
  unfold getRepoFromJob
  simp only [htype, ne_eq, not_true_eq_false, if_false, hrepo, hsrc, if_true,
    scanStages_eq_scanBuilds]
  rfl

/-- C10. When the parameter has type "repo", its repo has `sourceFrom = Job`,
`build` is the first entry matching the repo's service and module among the
build entries of the jobs named `repo.JobName` (stage order, job order, entry
order), and `JobRepoIndex` is a valid index of `build.Repos`, `getRepoFromJob`
returns normally and leaves the parameter with exactly the repository at that
index as its repo, every other field unchanged. -/
theorem getRepoFromJob_resolves (workflow : WorkflowV4) (param : Param) (repo : Repository)
    (pre post : List ServiceAndBuild) (build : ServiceAndBuild) (r : Repository)
    (htype : param.ParamsType = "repo") (hrepo : param.Repo = some repo)
    (hsrc : repo.SourceFrom = RepoSourceJob)
    (hscan : buildEntriesNamed workflow repo.JobName = pre ++ build :: post)
    (hpre : ∀ x ∈ pre, ¬ x.matchesRepo repo)
    (hbuild : build.matchesRepo repo)
    (hidx : 0 ≤ repo.JobRepoIndex)
    (hr : build.Repos[repo.JobRepoIndex.toNat]? = some r) :
    getRepoFromJob workflow param = .ok { param with Repo := some r } := by
  rw [getRepoFromJob_scan workflow param repo htype hrepo hsrc, hscan,
    scanBuilds_skip repo pre _ hpre]
  have hlen : repo.JobRepoIndex.toNat < build.Repos.length := by
    rcases List.getElem?_eq_some_iff.mp hr with ⟨h, _⟩
    exact h
  have hge : (build.Repos.length : Int) ≥ repo.JobRepoIndex := by omega
  have hm : ¬ (build.ServiceName ≠ repo.ServiceName ∨ build.ServiceModule ≠ repo.ServiceModule) := by
    rcases hbuild with ⟨h1, h2⟩
    simp [h1, h2]
  simp only [scanBuilds, if_neg hm, if_pos hge, indexRepos_of_getElem _ _ r hidx hr]

/-! ## Only `getRepoFromJob` panics -/

theorem indexRepos_fault (repos : List Repository) (i : Int) (e : Fault)
    (h : indexRepos repos i = .error e) : ∃ msg, e = .panic msg := by
  unfold indexRepos at h
  split_ifs at h
  · exact ⟨_, (Except.error.inj h).symm⟩
  · split at h
    · cases h
    · exact ⟨_, (Except.error.inj h).symm⟩

theorem scanBuilds_fault (repo : Repository) (builds : List ServiceAndBuild) (e : Fault)
    (h : scanBuilds repo builds = .error e) : ∃ msg, e = .panic msg := by
  induction builds with
  | nil => cases h
  | cons b rest ih =>
    simp only [scanBuilds] at h
    split_ifs at h
    · exact ih h
    · rcases hi : indexRepos b.Repos repo.JobRepoIndex with e2 | r
      · rw [hi] at h
        cases h
        exact indexRepos_fault _ _ _ hi
      · rw [hi] at h
        cases h
    · exact ih h

theorem getRepoFromJob_fault (workflow : WorkflowV4) (param : Param) (e : Fault)
    (h : getRepoFromJob workflow param = .error e) : ∃ msg, e = .panic msg := by
  unfold getRepoFromJob at h
  by_cases ht : param.ParamsType = "repo"
  · simp only [ht, ne_eq, not_true_eq_false, if_false] at h
    cases hr : param.Repo with
    | none =>
      rw [hr] at h
      cases h
    | some repo =>
      rw [hr] at h
      simp only [] at h
      by_cases hs : repo.SourceFrom = RepoSourceJob
      · rw [if_pos hs, scanStages_eq_scanBuilds] at h
        rcases hb : scanBuilds repo
          ((workflow.Stages.flatMap fun stage => stage.Jobs).flatMap
            (buildEntriesOfJob repo.JobName)) with e2 | (_ | r)
        · rw [hb] at h
          cases h
          exact scanBuilds_fault _ _ _ hb
        · rw [hb] at h
          cases h
        · rw [hb] at h
          cases h
      · rw [if_neg hs] at h
        cases h
  · simp only [ne_eq, ht, not_false_eq_true, if_true] at h
    cases h

theorem resolveParams_fault (workflow : WorkflowV4) (params : List Param) (e : Fault)
    (h : resolveParams workflow params = .error e) : ∃ msg, e = .panic msg := by
  induction params with
  | nil => cases h
  | cons p rest ih =>
    simp only [resolveParams] at h
    rcases hp : getRepoFromJob workflow p with e2 | p2
    · rw [hp] at h
      cases h
      exact getRepoFromJob_fault _ _ _ hp
    · rw [hp] at h
      rcases hr : resolveParams workflow rest with e3 | ps
      · rw [hr] at h
        cases h
        exact ih hr
      · rw [hr] at h
        cases h

theorem resolveEvents_fault (workflow : WorkflowV4) (events : List PendingEvent)
    (st : ParamStore) (e : Fault)
    (h : resolveEvents workflow events st = .error e) : ∃ msg, e = .panic msg := by
  induction events generalizing st with
  | nil => cases h
  | cons ev rest ih =>
    obtain ⟨a, w⟩ := ev
    simp only [resolveEvents] at h
    rcases hp : resolveParams workflow (st a) with e2 | ps
    · rw [hp] at h
      cases h
      exact resolveParams_fault _ _ _ hp
    · rw [hp] at h
      exact ih _ h

/-! ## The map `m` -/

theorem fillMap_eq (i : Nat) (infos : List ServiceTriggerWorkflowInfo) (m : TriggerMap)
    (k : ServiceNameAndModule) :
    fillMap i infos m k =
      match fillMap i infos (fun _ => none) k with
      | some p => some p
      | none => m k := by
  induction infos generalizing i m with
  | nil => rfl
  | cons a rest ih =>
    simp only [fillMap]
    rw [ih (i + 1) (m.insert a.key _), ih (i + 1) (TriggerMap.insert _ a.key _)]
    cases fillMap (i + 1) rest (fun _ => none) k with
    | some p => rfl
    | none =>
      simp only [TriggerMap.insert]
      split_ifs <;> rfl

theorem fillMap_cons (i : Nat) (a : ServiceTriggerWorkflowInfo)
    (rest : List ServiceTriggerWorkflowInfo) (k : ServiceNameAndModule) :
    fillMap i (a :: rest) (fun _ => none) k =
      match fillMap (i + 1) rest (fun _ => none) k with
      | some p => some p
      | none => if k = a.key then some { index := i, info := a } else none := by
  simp only [fillMap]
  rw [fillMap_eq]
  cases fillMap (i + 1) rest (fun _ => none) k with
  | some p => rfl
  | none => rfl

theorem fillMap_eq_none_iff (i : Nat) (infos : List ServiceTriggerWorkflowInfo)
    (k : ServiceNameAndModule) :
    fillMap i infos (fun _ => none) k = none ↔ ∀ info ∈ infos, info.key ≠ k := by
  induction infos generalizing i with
  | nil => simp [fillMap]
  | cons a rest ih =>
    rw [fillMap_cons]
    cases h : fillMap (i + 1) rest (fun _ => none) k with
    | some p =>
      have hn : ¬ ∀ info ∈ rest, info.key ≠ k := by
        rw [← ih (i + 1), h]
        simp
      constructor
      · intro h2
        cases h2
      · intro h2
        exact absurd (fun info hi => h2 info (List.mem_cons_of_mem _ hi)) hn
    | none =>
      have hr := (ih (i + 1)).mp h
      simp only [List.mem_cons, forall_eq_or_imp]
      by_cases hk : k = a.key
      · simp [hk]
      · simp only [if_neg hk, true_iff]
        exact ⟨fun h2 => hk h2.symm, hr⟩

/-- The entry the map holds for a key is the last entry of the list with that
key, and the pointer's index is its position. -/
theorem fillMap_eq_some_iff (i : Nat) (infos : List ServiceTriggerWorkflowInfo)
    (k : ServiceNameAndModule) (p : InfoPtr) :
    fillMap i infos (fun _ => none) k = some p ↔
      ∃ j, p.index = i + j ∧ infos[j]? = some p.info ∧ p.info.key = k ∧
        ∀ j2 info, j < j2 → infos[j2]? = some info → info.key ≠ k := by
  induction infos generalizing i p with
  | nil => simp [fillMap]
  | cons a rest ih =>
    rw [fillMap_cons]
    cases h : fillMap (i + 1) rest (fun _ => none) k with
    | some q =>
      simp only [Option.some.injEq]
      constructor
      · intro hq
        subst hq
        obtain ⟨j, h1, h2, h3, h4⟩ := (ih (i + 1) q).mp h
        refine ⟨j + 1, by omega, by simpa using h2, h3, ?_⟩
        intro j2 info hj hinfo
        cases j2 with
        | zero => omega
        | succ j3 =>
          exact h4 j3 info (by omega) (by simpa using hinfo)
      · rintro ⟨j, h1, h2, h3, h4⟩
        obtain ⟨j0, g1, g2, g3, g4⟩ := (ih (i + 1) q).mp h
        cases j with
        | zero =>
          exact absurd g3 (h4 (j0 + 1) q.info (by omega) (by simpa using g2))
        | succ j1 =>
          have hp : fillMap (i + 1) rest (fun _ => none) k = some p :=
            (ih (i + 1) p).mpr ⟨j1, by omega, by simpa using h2, h3, fun j2 info hj hinfo =>
              h4 (j2 + 1) info (by omega) (by simpa using hinfo)⟩
          rw [h] at hp
          exact Option.some.inj hp
    | none =>
      have hr := (fillMap_eq_none_iff (i + 1) rest k).mp h
      constructor
      · intro hq
        by_cases hk : k = a.key
        · rw [if_pos hk] at hq
          have hq2 := Option.some.inj hq
          subst hq2
          refine ⟨0, rfl, by simp, hk.symm, ?_⟩
          intro j2 info hj hinfo
          cases j2 with
          | zero => omega
          | succ j3 =>
            have hmem : info ∈ rest := List.getElem?_mem (by simpa using hinfo)
            exact hr info hmem
        · rw [if_neg hk] at hq
          cases hq
      · rintro ⟨j, h1, h2, h3, h4⟩
        cases j with
        | zero =>
          simp only [List.getElem?_cons_zero, Option.some.injEq] at h2
          have hk : k = a.key := by rw [h2, h3]
          rw [if_pos hk]
          obtain ⟨pi, pinfo⟩ := p
          simp only [Nat.add_zero] at h1
          simp only at h2
          rw [h1, h2]
        | succ j1 =>
          have hmem : p.info ∈ rest := List.getElem?_mem (by simpa using h2)
          exact absurd h3 (hr p.info hmem)

theorem buildMap_eq_none_iff (infos : List ServiceTriggerWorkflowInfo)
    (k : ServiceNameAndModule) :
    buildMap infos k = none ↔ ∀ info ∈ infos, info.key ≠ k :=
  fillMap_eq_none_iff 0 infos k

theorem buildMap_eq_some_iff (infos : List ServiceTriggerWorkflowInfo)
    (k : ServiceNameAndModule) (p : InfoPtr) :
    buildMap infos k = some p ↔
      infos[p.index]? = some p.info ∧ p.info.key = k ∧
        ∀ j2 info, p.index < j2 → infos[j2]? = some info → info.key ≠ k := by
  unfold buildMap
  rw [fillMap_eq_some_iff]
  constructor
  · rintro ⟨j, h1, h2, h3, h4⟩
    have hj : p.index = j := by omega
    subst hj
    exact ⟨h2, h3, h4⟩
  · rintro ⟨h2, h3, h4⟩
    exact ⟨p.index, by omega, h2, h3, h4⟩

/-! ## Lemmas on `ToJobs` -/

theorem runtimeEvents_fault (m : TriggerMap) (services : List ServiceNameAndModule) (e : Fault)
    (h : runtimeEvents m services = .error e) :
    ∃ pre s post, services = pre ++ s :: post ∧ (∀ x ∈ pre, m x ≠ none) ∧ m s = none ∧
      e = .err ("no workflow trigger info for service " ++ s.ServiceName ++ "-"
        ++ s.ServiceModule) := by
  induction services with
  | nil => cases h
  | cons s rest ih =>
    simp only [runtimeEvents] at h
    cases hm : m s with
    | none =>
      rw [show m { ServiceName := s.ServiceName, ServiceModule := s.ServiceModule } = none from hm] at h
      exact ⟨[], s, rest, rfl, by simp, hm, (Except.error.inj h).symm⟩
    | some p =>
      rw [show m { ServiceName := s.ServiceName, ServiceModule := s.ServiceModule } = some p from hm] at h
      rcases hr : runtimeEvents m rest with e2 | evs
      · rw [hr] at h
        cases h
        obtain ⟨pre, s2, post, h1, h2, h3, h4⟩ := ih hr
        refine ⟨s :: pre, s2, post, by simp [h1], ?_, h3, h4⟩
        intro x hx
        rcases List.mem_cons.mp hx with hx | hx
        · rw [hx, hm]
          simp
        · exact h2 x hx
      · rw [hr] at h
        cases h

theorem runtimeEvents_first_missing (m : TriggerMap) (pre post : List ServiceNameAndModule)
    (s : ServiceNameAndModule) (hpre : ∀ x ∈ pre, m x ≠ none) (hs : m s = none) :
    runtimeEvents m (pre ++ s :: post) =
      .error (.err ("no workflow trigger info for service " ++ s.ServiceName ++ "-"
        ++ s.ServiceModule)) := by
  induction pre with
  | nil =>
    simp only [List.nil_append, runtimeEvents]
    rw [show m { ServiceName := s.ServiceName, ServiceModule := s.ServiceModule } = none from hs]
  | cons x pre ih =>
    cases hm : m x with
    | none => exact absurd hm (hpre x (List.mem_cons_self _ _))
    | some p =>
      have hm2 : m { ServiceName := x.ServiceName, ServiceModule := x.ServiceModule } = some p := hm
      have ih2 := ih (fun y hy => hpre y (List.mem_cons_of_mem _ hy))
      have ih3 : runtimeEvents m (pre.append (s :: post)) = _ := ih2
      simp only [List.cons_append, runtimeEvents, hm2, ih3]

theorem exists_first_missing (m : TriggerMap) (services : List ServiceNameAndModule)
    (h : ∃ s ∈ services, m s = none) :
    ∃ pre s post, services = pre ++ s :: post ∧ (∀ x ∈ pre, m x ≠ none) ∧ m s = none := by
  induction services with
  | nil =>
    obtain ⟨s, hs, _⟩ := h
    cases hs
  | cons a rest ih =>
    by_cases ha : m a = none
    · exact ⟨[], a, rest, rfl, by simp, ha⟩
    · obtain ⟨s, hs, hms⟩ := h
      rcases List.mem_cons.mp hs with hs | hs
      · rw [hs] at hms
        exact absurd hms ha
      · obtain ⟨pre, s2, post, h1, h2, h3⟩ := ih ⟨s, hs, hms⟩
        refine ⟨a :: pre, s2, post, by simp [h1], ?_, h3⟩
        intro x hx
        rcases List.mem_cons.mp hx with hx | hx
        · rw [hx]
          exact ha
        · exact h2 x hx

theorem ToJobs_of_decode (dec : SpecDecoder) (workflow : WorkflowV4) (job : Job)
    (spec : WorkflowTriggerJobSpec) (hdec : dec.toTrigger job.Spec = .ok spec) :
    ToJobs dec workflow job =
      match collectEvents dec workflow spec with
      | .error e => .error e
      | .ok events =>
        match resolveEvents workflow events (initStore spec) with
        | .error e => .error e
        | .ok st =>
          .ok ([mkJobTask job spec (finishEvents workflow st events)], specAfter spec st) := by
  unfold ToJobs
  rw [hdec]

/-- When the events are collected, `ToJobs` either returns the task or panics
in the repo resolution pass. -/
theorem ToJobs_of_events (dec : SpecDecoder) (workflow : WorkflowV4) (job : Job)
    (spec : WorkflowTriggerJobSpec) (events : List PendingEvent)
    (hdec : dec.toTrigger job.Spec = .ok spec)
    (hev : collectEvents dec workflow spec = .ok events) :
    (∃ msg, ToJobs dec workflow job = .error (.panic msg)) ∨
    ∃ st, resolveEvents workflow events (initStore spec) = .ok st ∧
      ToJobs dec workflow job =
        .ok ([mkJobTask job spec (finishEvents workflow st events)], specAfter spec st) := by
  have h0 := ToJobs_of_decode dec workflow job spec hdec
  simp only [hev] at h0
  rcases hr : resolveEvents workflow events (initStore spec) with e | st
  · obtain ⟨msg, hmsg⟩ := resolveEvents_fault _ _ _ _ hr
    simp only [hr] at h0
    left
    exact ⟨msg, by rw [h0, hmsg]⟩
  · simp only [hr] at h0
    right
    exact ⟨st, rfl, h0⟩

theorem ToJobs_err_iff (dec : SpecDecoder) (workflow : WorkflowV4) (job : Job)
    (spec : WorkflowTriggerJobSpec) (hdec : dec.toTrigger job.Spec = .ok spec) (msg : String) :
    ToJobs dec workflow job = .error (.err msg) ↔
      collectEvents dec workflow spec = .error (.err msg) := by
  have h0 := ToJobs_of_decode dec workflow job spec hdec
  rcases hc : collectEvents dec workflow spec with e | events
  · simp only [hc] at h0
    rw [h0]
    constructor <;> intro h3 <;> cases h3 <;> rfl
  · rcases ToJobs_of_events dec workflow job spec events hdec hc with ⟨m2, h2⟩ | ⟨st, _, h2⟩
    · rw [h2]
      constructor <;> intro h3 <;> cases h3
    · rw [h2]
      constructor <;> intro h3 <;> cases h3

theorem collectEvents_runtime (dec : SpecDecoder) (workflow : WorkflowV4)
    (spec : WorkflowTriggerJobSpec)
    (htype : spec.TriggerType = WorkflowTriggerTypeCommon)
    (hsrc : spec.Source = TriggerWorkflowSourceRuntime) :
    collectEvents dec workflow spec =
      runtimeEvents (buildMap spec.ServiceTriggerWorkflow) spec.SourceService := by
  unfold collectEvents
  simp only [htype, hsrc, if_true]

/-- C2. For a `Common` spec with source `Runtime`, `ToJobs` returns an error
exactly when some entry of `SourceService` has a (serviceName, serviceModule)
pair that is the pair of no entry of `ServiceTriggerWorkflow`; and the error
returned (an error result carries no task) is the one naming the first such
entry of `SourceService`. -/
theorem ToJobs_runtime_error_iff (dec : SpecDecoder) (workflow : WorkflowV4) (job : Job)
    (spec : WorkflowTriggerJobSpec) (hdec : dec.toTrigger job.Spec = .ok spec)
    (htype : spec.TriggerType = WorkflowTriggerTypeCommon)
    (hsrc : spec.Source = TriggerWorkflowSourceRuntime) :
    ((∃ msg, ToJobs dec workflow job = .error (.err msg)) ↔
      ∃ s ∈ spec.SourceService, ∀ info ∈ spec.ServiceTriggerWorkflow, info.key ≠ s) ∧
    ∀ pre s post, spec.SourceService = pre ++ s :: post →
      (∀ x ∈ pre, ∃ info ∈ spec.ServiceTriggerWorkflow, info.key = x) →
      (∀ info ∈ spec.ServiceTriggerWorkflow, info.key ≠ s) →
      ToJobs dec workflow job =
        .error (.err ("no workflow trigger info for service " ++ s.ServiceName ++ "-"
          ++ s.ServiceModule)) := by
  have hfirst : ∀ pre s post, spec.SourceService = pre ++ s :: post →
      (∀ x ∈ pre, ∃ info ∈ spec.ServiceTriggerWorkflow, info.key = x) →
      (∀ info ∈ spec.ServiceTriggerWorkflow, info.key ≠ s) →
      ToJobs dec workflow job =
        .error (.err ("no workflow trigger info for service " ++ s.ServiceName ++ "-"
          ++ s.ServiceModule)) := by
    intro pre s post hsplit hpre hs
    rw [ToJobs_err_iff dec workflow job spec hdec, collectEvents_runtime dec workflow spec htype hsrc,
      hsplit]
    apply runtimeEvents_first_missing
    · intro x hx hnone
      obtain ⟨info, hi, hk⟩ := hpre x hx
      exact (buildMap_eq_none_iff _ _).mp hnone info hi hk
    · exact (buildMap_eq_none_iff _ _).mpr hs
  refine ⟨⟨?_, ?_⟩, hfirst⟩
  · rintro ⟨msg, hmsg⟩
    rw [ToJobs_err_iff dec workflow job spec hdec,
      collectEvents_runtime dec workflow spec htype hsrc] at hmsg
    obtain ⟨pre, s, post, h1, _, h3, _⟩ := runtimeEvents_fault _ _ _ hmsg
    refine ⟨s, ?_, (buildMap_eq_none_iff _ _).mp h3⟩
    rw [h1]
    simp
  · rintro ⟨s, hs, hmiss⟩
    obtain ⟨pre, s2, post, h1, h2, h3⟩ :=
      exists_first_missing (buildMap spec.ServiceTriggerWorkflow) spec.SourceService
        ⟨s, hs, (buildMap_eq_none_iff _ _).mpr hmiss⟩
    refine ⟨_, hfirst pre s2 post h1 ?_ ((buildMap_eq_none_iff _ _).mp h3)⟩
    intro x hx
    have hx2 := h2 x hx
    rw [ne_eq, buildMap_eq_none_iff] at hx2
    push_neg at hx2
    exact hx2

/-- A run of C2: the second service, `web`/`mod`, has no trigger target. -/
theorem ToJobs_runtime_error_iff_witness :
    (ToJobs exampleDecoder
        (exWorkflow [exBuild] (exCommonSpec TriggerWorkflowSourceRuntime ""
          [⟨"svc", "mod"⟩, ⟨"web", "mod"⟩] []))
        (exTriggerJob (exCommonSpec TriggerWorkflowSourceRuntime ""
          [⟨"svc", "mod"⟩, ⟨"web", "mod"⟩] [])) =
      .error (.err "no workflow trigger info for service web-mod")) ∧
    ((∃ msg, ToJobs exampleDecoder
        (exWorkflow [exBuild] (exCommonSpec TriggerWorkflowSourceRuntime ""
          [⟨"svc", "mod"⟩, ⟨"web", "mod"⟩] []))
        (exTriggerJob (exCommonSpec TriggerWorkflowSourceRuntime ""
          [⟨"svc", "mod"⟩, ⟨"web", "mod"⟩] [])) = .error (.err msg)) ↔
      ∃ s ∈ (exCommonSpec TriggerWorkflowSourceRuntime ""
          [⟨"svc", "mod"⟩, ⟨"web", "mod"⟩] []).SourceService,
        ∀ info ∈ (exCommonSpec TriggerWorkflowSourceRuntime ""
          [⟨"svc", "mod"⟩, ⟨"web", "mod"⟩] []).ServiceTriggerWorkflow, info.key ≠ s) :=
  ⟨rfl, (ToJobs_runtime_error_iff exampleDecoder _ (exTriggerJob _) _ rfl rfl rfl).1⟩

/-! ## Claims on the returned task -/

/-- C7. Whenever `ToJobs` succeeds, every event of the returned task has
`ProjectName` equal to the owning workflow's project, whatever the trigger type
and source, the target workflow names and the project stored in the
trigger-target entries. -/
theorem ToJobs_project (dec : SpecDecoder) (workflow : WorkflowV4) (job : Job)
    (tasks : List JobTask) (spec2 : WorkflowTriggerJobSpec)
    (h : ToJobs dec workflow job = .ok (tasks, spec2)) :
    ∀ task ∈ tasks, ∀ ev ∈ task.Spec.WorkflowTriggerEvents,
      ev.ProjectName = workflow.Project := by
  unfold ToJobs at h
  split at h
  · cases h
  · split at h
    · cases h
    · split at h
      · cases h
      · next st _ =>
        simp only [Except.ok.injEq, Prod.mk.injEq] at h
        obtain ⟨h1, _⟩ := h
        subst h1
        intro task htask ev hev
        rw [List.mem_singleton] at htask
        subst htask
        simp only [mkJobTask, finishEvents, List.mem_map] at hev
        obtain ⟨pe, _, hpe⟩ := hev
        rw [← hpe]

/-- A run of C7: the first target entry stores project `proj-b`, the event
built from it has the owning workflow's project `proj-a`. -/
theorem ToJobs_project_witness :
    ToJobs exampleDecoder (exWorkflow [exBuild] (exFixedSpec 0)) (exTriggerJob (exFixedSpec 0)) =
      .ok ([mkJobTask (exTriggerJob (exFixedSpec 0)) (exFixedSpec 0)
              [{ WorkflowName := "deploy-all",
                 Params := [{ exRepoParam 0 with Repo := some exRepo }],
                 ServiceName := "", ServiceModule := "", ProjectName := "proj-a" },
               { WorkflowName := "notify", Params := [exStringParam],
                 ServiceName := "", ServiceModule := "", ProjectName := "proj-a" }]],
           specAfter (exFixedSpec 0)
             (fun a => if a = Addr.fixed 0 then [{ exRepoParam 0 with Repo := some exRepo }]
               else initStore (exFixedSpec 0) a)) ∧
    (∀ task ∈ [mkJobTask (exTriggerJob (exFixedSpec 0)) (exFixedSpec 0)
              [{ WorkflowName := "deploy-all",
                 Params := [{ exRepoParam 0 with Repo := some exRepo }],
                 ServiceName := "", ServiceModule := "", ProjectName := "proj-a" },
               { WorkflowName := "notify", Params := [exStringParam],
                 ServiceName := "", ServiceModule := "", ProjectName := "proj-a" }]],
      ∀ ev ∈ task.Spec.WorkflowTriggerEvents,
        ev.ProjectName = (exWorkflow [exBuild] (exFixedSpec 0)).Project) :=
  ⟨rfl, ToJobs_project exampleDecoder (exWorkflow [exBuild] (exFixedSpec 0))
    (exTriggerJob (exFixedSpec 0)) _ _ rfl⟩

/-- C8. Whenever `ToJobs` succeeds the job's spec decoded to some `spec`, and
the result is exactly one task: its name and key are the triggering job's name,
its job type is the workflow-trigger kind, its timeout is 0, and its spec holds
`spec.TriggerType`, `spec.IsEnableCheck` and the resolved event list (the
collected events after the repo resolution pass). -/
theorem ToJobs_task (dec : SpecDecoder) (workflow : WorkflowV4) (job : Job)
    (tasks : List JobTask) (spec2 : WorkflowTriggerJobSpec)
    (h : ToJobs dec workflow job = .ok (tasks, spec2)) :
    ∃ spec events st,
      dec.toTrigger job.Spec = .ok spec ∧
      collectEvents dec workflow spec = .ok events ∧
      resolveEvents workflow events (initStore spec) = .ok st ∧
      tasks =
        [{ Name := job.Name
           Key := job.Name
           JobType := JobWorkflowTrigger
           Spec :=
             { TriggerType := spec.TriggerType
               IsEnableCheck := spec.IsEnableCheck
               WorkflowTriggerEvents := finishEvents workflow st events }
           Timeout := 0 }] := by
  unfold ToJobs at h
  split at h
  · cases h
  · next spec hspec =>
    split at h
    · cases h
    · next events hev =>
      split at h
      · cases h
      · next st hst =>
        simp only [Except.ok.injEq, Prod.mk.injEq] at h
        exact ⟨spec, events, st, hspec, hev, hst, h.1.symm⟩

/-- A run of C8 on the `Fixed` example. -/
theorem ToJobs_task_witness :
    ∃ spec events st,
      exampleDecoder.toTrigger (exTriggerJob (exFixedSpec 0)).Spec = .ok spec ∧
      collectEvents exampleDecoder (exWorkflow [exBuild] (exFixedSpec 0)) spec = .ok events ∧
      resolveEvents (exWorkflow [exBuild] (exFixedSpec 0)) events (initStore spec) = .ok st ∧
      [mkJobTask (exTriggerJob (exFixedSpec 0)) (exFixedSpec 0)
              [{ WorkflowName := "deploy-all",
                 Params := [{ exRepoParam 0 with Repo := some exRepo }],
                 ServiceName := "", ServiceModule := "", ProjectName := "proj-a" },
               { WorkflowName := "notify", Params := [exStringParam],
                 ServiceName := "", ServiceModule := "", ProjectName := "proj-a" }]] =
        [{ Name := (exTriggerJob (exFixedSpec 0)).Name
           Key := (exTriggerJob (exFixedSpec 0)).Name
           JobType := JobWorkflowTrigger
           Spec :=
             { TriggerType := spec.TriggerType
               IsEnableCheck := spec.IsEnableCheck
               WorkflowTriggerEvents :=
                 finishEvents (exWorkflow [exBuild] (exFixedSpec 0)) st events }
           Timeout := 0 }] :=
  ToJobs_task exampleDecoder (exWorkflow [exBuild] (exFixedSpec 0))
    (exTriggerJob (exFixedSpec 0)) _
    (specAfter (exFixedSpec 0)
      (fun a => if a = Addr.fixed 0 then [{ exRepoParam 0 with Repo := some exRepo }]
        else initStore (exFixedSpec 0) a)) rfl

/-- A run of C10: index 0 of the one-repository entry `svc`/`mod`. -/
theorem getRepoFromJob_resolves_witness :
    getRepoFromJob (exWorkflow [exBuild] (exFixedSpec 0)) (exRepoParam 0) =
      .ok { exRepoParam 0 with Repo := some exRepo } :=
  getRepoFromJob_resolves (exWorkflow [exBuild] (exFixedSpec 0)) (exRepoParam 0) (exJobRepo 0)
    [] [] exBuild exRepo rfl rfl rfl rfl (by simp) ⟨rfl, rfl⟩ (by decide) rfl

/-! ## Runs on which the code departs from a claim -/

/-- C9. `getRepoFromJob` panics when the named job and the matching build entry
exist and `JobRepoIndex` equals the length of the entry's repository list, and
when it is negative: the guard `len(build.Repos) >= JobRepoIndex` lets both
reach the index expression. -/
theorem getRepoFromJob_index_panics :
    getRepoFromJob (exWorkflow [exBuild] (exFixedSpec 1)) (exRepoParam 1) =
      .error (.panic "index out of range") ∧
    getRepoFromJob (exWorkflow [exBuild] (exFixedSpec 1)) (exRepoParam (-1)) =
      .error (.panic "index out of range") :=
  ⟨rfl, rfl⟩

/-- C1. On a `Fixed` spec whose first target passes a job-sourced repo
parameter with `JobRepoIndex` equal to the length of the repository list,
`ToJobs` panics instead of returning the two events. -/
theorem ToJobs_fixed_panics :
    ToJobs exampleDecoder (exWorkflow [exBuild] (exFixedSpec 1)) (exTriggerJob (exFixedSpec 1)) =
      .error (.panic "index out of range") :=
  rfl

/-- C3. On a `Common`/`Runtime` spec whose only source service `svc`/`mod` is a
key of the mapping, and whose target passes a job-sourced repo parameter with
`JobRepoIndex` equal to the length of the repository list, `ToJobs` panics
instead of returning the event. -/
theorem ToJobs_runtime_panics :
    ToJobs exampleDecoder
      (exWorkflow [exBuild]
        (exCommonSpec TriggerWorkflowSourceRuntime "" [⟨"svc", "mod"⟩] [exRepoParam 1]))
      (exTriggerJob
        (exCommonSpec TriggerWorkflowSourceRuntime "" [⟨"svc", "mod"⟩] [exRepoParam 1])) =
      .error (.panic "index out of range") :=
  rfl

/-- C5. On a `Common`/`FromJob` spec whose source job `unit-test` is a
freestyle job, `ToJobs` returns no error: it returns the task with an empty
event list. -/
theorem ToJobs_unsupported_source_job_succeeds :
    ToJobs exampleDecoder
      (exWorkflow [exBuild] (exCommonSpec TriggerWorkflowSourceFromJob "unit-test" [] []))
      (exTriggerJob (exCommonSpec TriggerWorkflowSourceFromJob "unit-test" [] [])) =
      .ok ([mkJobTask (exTriggerJob (exCommonSpec TriggerWorkflowSourceFromJob "unit-test" [] []))
              (exCommonSpec TriggerWorkflowSourceFromJob "unit-test" [] []) []],
           exCommonSpec TriggerWorkflowSourceFromJob "unit-test" [] []) :=
  rfl

/-- C6. On a `Common` spec whose source is the empty string, neither `Runtime`
nor `FromJob`, `ToJobs` returns no error: it returns the task with an empty
event list. -/
theorem ToJobs_unknown_source_succeeds :
    ToJobs exampleDecoder
      (exWorkflow [exBuild] (exCommonSpec "" "" [] []))
      (exTriggerJob (exCommonSpec "" "" [] [])) =
      .ok ([mkJobTask (exTriggerJob (exCommonSpec "" "" [] [])) (exCommonSpec "" "" [] []) []],
           exCommonSpec "" "" [] []) :=
  rfl

/-! ## Lemmas on `getSourceJobTargets` -/

theorem sourceJobInJobs_eq (dec : SpecDecoder) (name : String) (m : TriggerMap)
    (jobs : List Job) :
    sourceJobInJobs dec name m jobs =
      (jobs.find? (fun job => decide (name = job.Name))).map (sourceJobTargets dec m) := by
  induction jobs with
  | nil => rfl
  | cons job rest ih =>
    simp only [sourceJobInJobs, List.find?_cons]
    by_cases hn : name = job.Name
    · simp [hn]
    · simp [hn, ih]

theorem sourceJobInStages_eq (dec : SpecDecoder) (name : String) (m : TriggerMap)
    (stages : List WorkflowStage) :
    sourceJobInStages dec name m stages =
      ((stages.flatMap (fun stage => stage.Jobs)).find? (fun job => decide (name = job.Name))).map
        (sourceJobTargets dec m) := by
  induction stages with
  | nil => rfl
  | cons stage rest ih =>
    simp only [sourceJobInStages, List.flatMap_cons, List.find?_append, sourceJobInJobs_eq]
    cases List.find? (fun job => decide (name = job.Name)) stage.Jobs with
    | none => simpa using ih
    | some job => simp

theorem getSourceJobTargets_found (dec : SpecDecoder) (workflow : WorkflowV4)
    (spec : WorkflowTriggerJobSpec) (jobName : String) (m : TriggerMap) (srcJob : Job)
    (h : workflow.firstJobNamed spec.SourceJobName = some srcJob) :
    getSourceJobTargets dec workflow spec jobName m = sourceJobTargets dec m srcJob := by
  unfold getSourceJobTargets
  rw [sourceJobInStages_eq]
  unfold WorkflowV4.firstJobNamed WorkflowV4.jobs at h
  rw [h]
  rfl

theorem getSourceJobTargets_missing (dec : SpecDecoder) (workflow : WorkflowV4)
    (spec : WorkflowTriggerJobSpec) (jobName : String) (m : TriggerMap)
    (h : workflow.firstJobNamed spec.SourceJobName = none) :
    getSourceJobTargets dec workflow spec jobName m =
      .error (.err ("service from job " ++ jobName ++ " not found")) := by
  unfold getSourceJobTargets
  rw [sourceJobInStages_eq]
  unfold WorkflowV4.firstJobNamed WorkflowV4.jobs at h
  rw [h]
  rfl

theorem collectEvents_fromJob (dec : SpecDecoder) (workflow : WorkflowV4)
    (spec : WorkflowTriggerJobSpec)
    (htype : spec.TriggerType = WorkflowTriggerTypeCommon)
    (hsrc : spec.Source = TriggerWorkflowSourceFromJob) :
    collectEvents dec workflow spec =
      getSourceJobTargets dec workflow spec spec.SourceJobName
        (buildMap spec.ServiceTriggerWorkflow) := by
  unfold collectEvents
  have hne : ¬ TriggerWorkflowSourceFromJob = TriggerWorkflowSourceRuntime := by decide
  simp only [htype, hsrc, if_true, if_neg hne]

theorem buildTargets_keys (m : TriggerMap) (builds : List ServiceAndBuild) :
    (buildTargets m builds).map (fun pe => pe.2.key) =
      (builds.filter (fun b => (m b.key).isSome)).map (fun b => b.key) := by
  induction builds with
  | nil => rfl
  | cons b rest ih =>
    simp only [buildTargets, List.filter_cons]
    cases hm : m b.key with
    | none =>
      have hm2 : m { ServiceName := b.ServiceName, ServiceModule := b.ServiceModule } = none := hm
      simp [hm2, ih]
    | some p =>
      have hm2 : m { ServiceName := b.ServiceName, ServiceModule := b.ServiceModule } = some p := hm
      simp only [hm2, Option.isSome_some, if_true, List.map_cons, ih]
      rfl

theorem buildTargets_mem (m : TriggerMap) (builds : List ServiceAndBuild) (pe : PendingEvent)
    (h : pe ∈ buildTargets m builds) :
    ∃ b ∈ builds, ∃ p, m b.key = some p ∧ pe = eventFor p b.ServiceName b.ServiceModule := by
  induction builds with
  | nil => cases h
  | cons b rest ih =>
    simp only [buildTargets] at h
    cases hm : m b.key with
    | none =>
      have hm2 : m { ServiceName := b.ServiceName, ServiceModule := b.ServiceModule } = none := hm
      simp only [hm2] at h
      obtain ⟨b2, hb2, p, hp⟩ := ih h
      exact ⟨b2, List.mem_cons_of_mem _ hb2, p, hp⟩
    | some p =>
      have hm2 : m { ServiceName := b.ServiceName, ServiceModule := b.ServiceModule } = some p := hm
      simp only [hm2, List.mem_cons] at h
      rcases h with h | h
      · exact ⟨b, List.mem_cons_self _ _, p, hm, h⟩
      · obtain ⟨b2, hb2, p2, hp⟩ := ih h
        exact ⟨b2, List.mem_cons_of_mem _ hb2, p2, hp⟩

theorem buildMap_isSome_iff (infos : List ServiceTriggerWorkflowInfo)
    (k : ServiceNameAndModule) :
    (buildMap infos k).isSome = decide (k ∈ infos.map (fun info => info.key)) := by
  cases h : buildMap infos k with
  | none =>
    have h2 := (buildMap_eq_none_iff infos k).mp h
    simp only [Option.isSome_none, List.mem_map]
    symm
    rw [decide_eq_false_iff_not]
    rintro ⟨info, hi, hk⟩
    exact h2 info hi hk
  | some p =>
    have h2 := (buildMap_eq_some_iff infos k p).mp h
    simp only [Option.isSome_some, List.mem_map]
    symm
    rw [decide_eq_true_iff]
    exact ⟨p.info, List.getElem?_mem h2.1, h2.2.1⟩

theorem matchedBuilds_length (infos : List ServiceTriggerWorkflowInfo)
    (builds : List ServiceAndBuild) (hnd : (builds.map (fun b => b.key)).Nodup) :
    (matchedBuilds infos builds).length = matchedKeyCount infos builds := by
  have h1 : (matchedBuilds infos builds).length =
      ((builds.map (fun b => b.key)).filter
        (fun k => decide (k ∈ infos.map (fun info => info.key)))).length := by
    unfold matchedBuilds
    rw [List.filter_map, List.length_map]
    rfl
  rw [h1]
  unfold matchedKeyCount
  apply List.Perm.length_eq
  rw [List.perm_ext_iff_of_nodup (hnd.filter _) ((List.nodup_dedup _).filter _)]
  intro k
  simp only [List.mem_filter, List.mem_dedup, decide_eq_true_eq]
  exact And.comm

/-! ## The store after the resolution pass -/

theorem readBack_getElem (st : ParamStore) (mk : Nat → Addr) (i j : Nat)
    (infos : List ServiceTriggerWorkflowInfo) :
    (readBack st mk i infos)[j]? =
      (infos[j]?).map (fun info => { info with Params := st (mk (i + j)) }) := by
  induction infos generalizing i j with
  | nil => simp [readBack]
  | cons a rest ih =>
    cases j with
    | zero => simp [readBack]
    | succ j2 =>
      simp only [readBack, List.getElem?_cons_succ]
      rw [ih (i + 1) j2]
      have : i + 1 + j2 = i + (j2 + 1) := by omega
      rw [this]

theorem finishEvents_mem (workflow : WorkflowV4) (st : ParamStore) (events : List PendingEvent)
    (ev : WorkflowTriggerEvent) (h : ev ∈ finishEvents workflow st events) :
    ∃ pe ∈ events, ev = { pe.2 with ProjectName := workflow.Project, Params := st pe.1 } := by
  unfold finishEvents at h
  rw [List.mem_map] at h
  obtain ⟨pe, hpe, heq⟩ := h
  exact ⟨pe, hpe, heq.symm⟩

theorem finishEvents_keys (workflow : WorkflowV4) (st : ParamStore) (events : List PendingEvent) :
    (finishEvents workflow st events).map (fun ev => ev.key) =
      events.map (fun pe => pe.2.key) := by
  unfold finishEvents
  rw [List.map_map]
  rfl

/-! ## Claim C4 -/

/-- C4, as stated, fails: the build job lists `svc`/`mod` twice, the mapping has
the one key `svc`/`mod` (so M = 1), and `ToJobs` yields two events. -/
theorem ToJobs_fromJob_build_count_counterexample :
    matchedKeyCount
        (exCommonSpec TriggerWorkflowSourceFromJob "build" [] [exStringParam]).ServiceTriggerWorkflow
        [exBuild, exBuild] = 1 ∧
    ToJobs exampleDecoder
      (exWorkflow [exBuild, exBuild]
        (exCommonSpec TriggerWorkflowSourceFromJob "build" [] [exStringParam]))
      (exTriggerJob (exCommonSpec TriggerWorkflowSourceFromJob "build" [] [exStringParam])) =
      .ok ([mkJobTask
              (exTriggerJob (exCommonSpec TriggerWorkflowSourceFromJob "build" [] [exStringParam]))
              (exCommonSpec TriggerWorkflowSourceFromJob "build" [] [exStringParam])
              [exEvent [exStringParam], exEvent [exStringParam]]],
           exCommonSpec TriggerWorkflowSourceFromJob "build" [] [exStringParam]) :=
  ⟨by decide, rfl⟩

/-- C4, amended. For a `Common` spec with source `FromJob` whose source job (the
first job named `SourceJobName`) is a Build job that decodes to `buildSpec`,
`ToJobs`, unless the repo resolution pass panics, returns the task with exactly
one event per build entry whose pair is a key of the mapping, in the order of
the build entries, hence exactly M events when the build entries have pairwise
distinct pairs.  Every event carries a pair that a build entry has and that is a
key of the mapping, the workflow name of the entry the mapping holds for that
key, and the params that entry holds when `ToJobs` returns. -/
theorem ToJobs_fromJob_build (dec : SpecDecoder) (workflow : WorkflowV4) (job : Job)
    (spec : WorkflowTriggerJobSpec) (srcJob : Job) (buildSpec : ZadigBuildJobSpec)
    (hdec : dec.toTrigger job.Spec = .ok spec)
    (htype : spec.TriggerType = WorkflowTriggerTypeCommon)
    (hsrc : spec.Source = TriggerWorkflowSourceFromJob)
    (hfirst : workflow.firstJobNamed spec.SourceJobName = some srcJob)
    (hkind : srcJob.JobType = JobZadigBuild)
    (hbuild : dec.toBuild srcJob.Spec = .ok buildSpec)
    (hnopanic : ∀ msg, ToJobs dec workflow job ≠ .error (.panic msg)) :
    ∃ events spec2,
      ToJobs dec workflow job = .ok ([mkJobTask job spec events], spec2) ∧
      events.map (fun ev => ev.key) =
        (matchedBuilds spec.ServiceTriggerWorkflow buildSpec.ServiceAndBuilds).map
          (fun b => b.key) ∧
      ((buildSpec.ServiceAndBuilds.map (fun b => b.key)).Nodup →
        events.length =
          matchedKeyCount spec.ServiceTriggerWorkflow buildSpec.ServiceAndBuilds) ∧
      ∀ ev ∈ events,
        ev.key ∈ buildSpec.ServiceAndBuilds.map (fun b => b.key) ∧
        ∃ p info2,
          buildMap spec.ServiceTriggerWorkflow ev.key = some p ∧
          ev.WorkflowName = p.info.WorkflowName ∧
          spec2.ServiceTriggerWorkflow[p.index]? = some info2 ∧
          ev.Params = info2.Params := by
  have hev : collectEvents dec workflow spec =
      .ok (buildTargets (buildMap spec.ServiceTriggerWorkflow) buildSpec.ServiceAndBuilds) := by
    rw [collectEvents_fromJob dec workflow spec htype hsrc,
      getSourceJobTargets_found dec workflow spec _ _ srcJob hfirst]
    unfold sourceJobTargets
    rw [if_pos hkind, hbuild]
  rcases ToJobs_of_events dec workflow job spec _ hdec hev with ⟨msg, hmsg⟩ | ⟨st, _, hok⟩
  · exact absurd hmsg (hnopanic msg)
  · have hkeys : (finishEvents workflow st
          (buildTargets (buildMap spec.ServiceTriggerWorkflow) buildSpec.ServiceAndBuilds)).map
          (fun ev => ev.key) =
        (matchedBuilds spec.ServiceTriggerWorkflow buildSpec.ServiceAndBuilds).map
          (fun b => b.key) := by
      rw [finishEvents_keys, buildTargets_keys]
      unfold matchedBuilds
      congr 2
      funext b
      exact buildMap_isSome_iff _ _
    refine ⟨_, _, hok, hkeys, ?_, ?_⟩
    · intro hnd
      have hlen := congrArg List.length hkeys
      rw [List.length_map, List.length_map] at hlen
      rw [hlen]
      exact matchedBuilds_length _ _ hnd
    · intro ev hevmem
      obtain ⟨pe, hpe, heq⟩ := finishEvents_mem _ _ _ _ hevmem
      obtain ⟨b, hb, p, hp, hpe2⟩ := buildTargets_mem _ _ _ hpe
      have hkey : ev.key = b.key := by
        rw [heq, hpe2]
        rfl
      refine ⟨?_, ?_⟩
      · rw [hkey]
        exact List.mem_map_of_mem _ hb
      · have hp2 := (buildMap_eq_some_iff _ _ _).mp hp
        refine ⟨p, { p.info with Params := st (Addr.service p.index) }, ?_, ?_, ?_, ?_⟩
        · rw [hkey]
          exact hp
        · rw [heq, hpe2]
          rfl
        · simp only [specAfter]
          rw [readBack_getElem, hp2.1]
          simp
        · rw [heq, hpe2]
          rfl

/-- A run of C4, amended: the build job has the entry `svc`/`mod`, which is a
key of the mapping, and an entry `web`/`mod`, which is not. -/
theorem ToJobs_fromJob_build_witness :
    ∃ events spec2,
      ToJobs exampleDecoder
        (exWorkflow [exBuild, { exBuild with ServiceName := "web" }]
          (exCommonSpec TriggerWorkflowSourceFromJob "build" [] [exStringParam]))
        (exTriggerJob (exCommonSpec TriggerWorkflowSourceFromJob "build" [] [exStringParam])) =
        .ok ([mkJobTask
          (exTriggerJob (exCommonSpec TriggerWorkflowSourceFromJob "build" [] [exStringParam]))
          (exCommonSpec TriggerWorkflowSourceFromJob "build" [] [exStringParam]) events], spec2) ∧
      events.map (fun ev => ev.key) =
        (matchedBuilds
          (exCommonSpec TriggerWorkflowSourceFromJob "build" [] [exStringParam]).ServiceTriggerWorkflow
          [exBuild, { exBuild with ServiceName := "web" }]).map (fun b => b.key) ∧
      ((([exBuild, { exBuild with ServiceName := "web" }] : List ServiceAndBuild).map
          (fun b => b.key)).Nodup →
        events.length =
          matchedKeyCount
            (exCommonSpec TriggerWorkflowSourceFromJob "build" [] [exStringParam]).ServiceTriggerWorkflow
            [exBuild, { exBuild with ServiceName := "web" }]) ∧
      ∀ ev ∈ events,
        ev.key ∈ ([exBuild, { exBuild with ServiceName := "web" }] : List ServiceAndBuild).map
          (fun b => b.key) ∧
        ∃ p info2,
          buildMap
            (exCommonSpec TriggerWorkflowSourceFromJob "build" [] [exStringParam]).ServiceTriggerWorkflow
            ev.key = some p ∧
          ev.WorkflowName = p.info.WorkflowName ∧
          spec2.ServiceTriggerWorkflow[p.index]? = some info2 ∧
          ev.Params = info2.Params :=
  ToJobs_fromJob_build exampleDecoder
    (exWorkflow [exBuild, { exBuild with ServiceName := "web" }]
      (exCommonSpec TriggerWorkflowSourceFromJob "build" [] [exStringParam]))
    (exTriggerJob (exCommonSpec TriggerWorkflowSourceFromJob "build" [] [exStringParam]))
    (exCommonSpec TriggerWorkflowSourceFromJob "build" [] [exStringParam])
    (exBuildJob [exBuild, { exBuild with ServiceName := "web" }])
    { DockerRegistryID := "", ServiceAndBuilds := [exBuild, { exBuild with ServiceName := "web" }] }
    rfl rfl rfl rfl rfl rfl
    (fun msg h => by
      have hok : ToJobs exampleDecoder
          (exWorkflow [exBuild, { exBuild with ServiceName := "web" }]
            (exCommonSpec TriggerWorkflowSourceFromJob "build" [] [exStringParam]))
          (exTriggerJob (exCommonSpec TriggerWorkflowSourceFromJob "build" [] [exStringParam])) =
          .ok ([mkJobTask
            (exTriggerJob (exCommonSpec TriggerWorkflowSourceFromJob "build" [] [exStringParam]))
            (exCommonSpec TriggerWorkflowSourceFromJob "build" [] [exStringParam])
            [exEvent [exStringParam]]],
            exCommonSpec TriggerWorkflowSourceFromJob "build" [] [exStringParam]) := rfl
      rw [hok] at h
      cases h)

/-! ## Unknown sources, unknown trigger types and source jobs of other kinds -/

theorem readBack_initStore_service (spec : WorkflowTriggerJobSpec) :
    readBack (initStore spec) Addr.service 0 spec.ServiceTriggerWorkflow =
      spec.ServiceTriggerWorkflow := by
  apply List.ext_getElem?
  intro n
  rw [readBack_getElem]
  cases h : spec.ServiceTriggerWorkflow[n]? with
  | none => rfl
  | some info => simp [initStore, h]

theorem readBack_initStore_fixed (spec : WorkflowTriggerJobSpec) :
    readBack (initStore spec) Addr.fixed 0 spec.FixedWorkflowList =
      spec.FixedWorkflowList := by
  apply List.ext_getElem?
  intro n
  rw [readBack_getElem]
  cases h : spec.FixedWorkflowList[n]? with
  | none => rfl
  | some info => simp [initStore, h]

/-- A resolution pass that changes nothing leaves the spec as decoded. -/
theorem specAfter_initStore (spec : WorkflowTriggerJobSpec) :
    specAfter spec (initStore spec) = spec := by
  unfold specAfter
  rw [readBack_initStore_service, readBack_initStore_fixed]

theorem ToJobs_no_events (dec : SpecDecoder) (workflow : WorkflowV4) (job : Job)
    (spec : WorkflowTriggerJobSpec) (hdec : dec.toTrigger job.Spec = .ok spec)
    (hev : collectEvents dec workflow spec = .ok []) :
    ToJobs dec workflow job = .ok ([mkJobTask job spec []], spec) := by
  have h0 := ToJobs_of_decode dec workflow job spec hdec
  simp only [hev, resolveEvents] at h0
  rw [h0, specAfter_initStore]
  rfl

/-- A trigger type that is neither `Common` nor `Fixed` makes `ToJobs` return
the error "invalid trigger type". -/
theorem ToJobs_invalid_trigger_type (dec : SpecDecoder) (workflow : WorkflowV4) (job : Job)
    (spec : WorkflowTriggerJobSpec) (hdec : dec.toTrigger job.Spec = .ok spec)
    (hc : spec.TriggerType ≠ WorkflowTriggerTypeCommon)
    (hf : spec.TriggerType ≠ WorkflowTriggerTypeFixed) :
    ToJobs dec workflow job = .error (.err ("invalid trigger type: " ++ spec.TriggerType)) := by
  rw [ToJobs_err_iff dec workflow job spec hdec]
  unfold collectEvents
  rw [if_neg hc, if_neg hf]

/-- On every `Common` spec whose source is neither `Runtime` nor `FromJob`,
`ToJobs` returns the task with no event: the inner switch has no default. -/
theorem ToJobs_unknown_source (dec : SpecDecoder) (workflow : WorkflowV4) (job : Job)
    (spec : WorkflowTriggerJobSpec) (hdec : dec.toTrigger job.Spec = .ok spec)
    (htype : spec.TriggerType = WorkflowTriggerTypeCommon)
    (hr : spec.Source ≠ TriggerWorkflowSourceRuntime)
    (hj : spec.Source ≠ TriggerWorkflowSourceFromJob) :
    ToJobs dec workflow job = .ok ([mkJobTask job spec []], spec) := by
  apply ToJobs_no_events dec workflow job spec hdec
  unfold collectEvents
  simp only [htype, if_true, if_neg hr, if_neg hj]

/-- When no job of the owning workflow is named `SourceJobName`, `ToJobs`
returns the error "service from job ... not found". -/
theorem ToJobs_source_job_missing (dec : SpecDecoder) (workflow : WorkflowV4) (job : Job)
    (spec : WorkflowTriggerJobSpec) (hdec : dec.toTrigger job.Spec = .ok spec)
    (htype : spec.TriggerType = WorkflowTriggerTypeCommon)
    (hsrc : spec.Source = TriggerWorkflowSourceFromJob)
    (hmiss : ∀ j ∈ workflow.jobs, j.Name ≠ spec.SourceJobName) :
    ToJobs dec workflow job =
      .error (.err ("service from job " ++ spec.SourceJobName ++ " not found")) := by
  rw [ToJobs_err_iff dec workflow job spec hdec, collectEvents_fromJob dec workflow spec htype hsrc]
  apply getSourceJobTargets_missing
  unfold WorkflowV4.firstJobNamed
  rw [List.find?_eq_none]
  intro j hjmem hname
  exact hmiss j hjmem (of_decide_eq_true hname).symm

/-- When the first job named `SourceJobName` has a job type other than Build,
DistributeImage and Deploy, `ToJobs` returns the task with no event: the switch
on the job type has no default and the `return` after it carries no error. -/
theorem ToJobs_source_job_other_kind (dec : SpecDecoder) (workflow : WorkflowV4) (job : Job)
    (spec : WorkflowTriggerJobSpec) (srcJob : Job)
    (hdec : dec.toTrigger job.Spec = .ok spec)
    (htype : spec.TriggerType = WorkflowTriggerTypeCommon)
    (hsrc : spec.Source = TriggerWorkflowSourceFromJob)
    (hfirst : workflow.firstJobNamed spec.SourceJobName = some srcJob)
    (hb : srcJob.JobType ≠ JobZadigBuild)
    (hd : srcJob.JobType ≠ JobZadigDistributeImage)
    (hp : srcJob.JobType ≠ JobZadigDeploy) :
    ToJobs dec workflow job = .ok ([mkJobTask job spec []], spec) := by
  apply ToJobs_no_events dec workflow job spec hdec
  rw [collectEvents_fromJob dec workflow spec htype hsrc,
    getSourceJobTargets_found dec workflow spec _ _ srcJob hfirst]
  unfold sourceJobTargets
  rw [if_neg hb, if_neg hd, if_neg hp]

/-! ## What `ToJobs` returns for `Fixed` and `Runtime` specs when it does not panic -/

theorem fixedEvents_getElem (i j : Nat) (l : List ServiceTriggerWorkflowInfo) :
    (fixedEvents i l)[j]? =
      (l[j]?).map (fun w =>
        ((Addr.fixed (i + j),
          { WorkflowName := w.WorkflowName
            Params := w.Params
            ServiceName := ""
            ServiceModule := ""
            ProjectName := "" }) : PendingEvent)) := by
  induction l generalizing i j with
  | nil => simp [fixedEvents]
  | cons a rest ih =>
    cases j with
    | zero => simp [fixedEvents]
    | succ j2 =>
      simp only [fixedEvents, List.getElem?_cons_succ]
      rw [ih (i + 1) j2]
      have : i + 1 + j2 = i + (j2 + 1) := by omega
      rw [this]

theorem fixedEvents_length (i : Nat) (l : List ServiceTriggerWorkflowInfo) :
    (fixedEvents i l).length = l.length := by
  induction l generalizing i with
  | nil => rfl
  | cons a rest ih => simp [fixedEvents, ih]

theorem write_same (st : ParamStore) (a : Addr) (ps : List Param) : st.write a ps a = ps := by
  simp [ParamStore.write]

theorem write_other (st : ParamStore) (a b : Addr) (ps : List Param) (h : b ≠ a) :
    st.write a ps b = st b := by
  simp [ParamStore.write, h]

/-- On the events of a `Fixed` list every entry's parameters are resolved
exactly once, and nothing else in the store changes. -/
theorem resolveEvents_fixed (workflow : WorkflowV4) (l : List ServiceTriggerWorkflowInfo)
    (i : Nat) (s st : ParamStore)
    (h : resolveEvents workflow (fixedEvents i l) s = .ok st) :
    (∀ j w, l[j]? = some w →
      resolveParams workflow (s (Addr.fixed (i + j))) = .ok (st (Addr.fixed (i + j)))) ∧
    (∀ a, (∀ j, j < l.length → a ≠ Addr.fixed (i + j)) → st a = s a) := by
  induction l generalizing i s with
  | nil =>
    simp only [fixedEvents, resolveEvents, Except.ok.injEq] at h
    subst h
    exact ⟨fun j w hw => by simp at hw, fun a _ => rfl⟩
  | cons w0 rest ih =>
    simp only [fixedEvents, resolveEvents] at h
    rcases hp : resolveParams workflow (s (Addr.fixed i)) with e | ps
    · rw [hp] at h
      cases h
    · rw [hp] at h
      simp only at h
      obtain ⟨hA, hB⟩ := ih (i + 1) (s.write (Addr.fixed i) ps) h
      have hi : st (Addr.fixed i) = ps := by
        rw [hB (Addr.fixed i) (fun j _ => by
          intro hcon
          injection hcon with hcon
          omega)]
        exact write_same _ _ _
      constructor
      · intro j w hw
        cases j with
        | zero =>
          rw [Nat.add_zero, hp, hi]
        | succ j2 =>
          have h1 := hA j2 w (by simpa using hw)
          rw [write_other _ _ _ _ (by
            intro hcon
            injection hcon with hcon
            omega)] at h1
          have : i + (j2 + 1) = i + 1 + j2 := by omega
          rw [this]
          exact h1
      · intro a ha
        rw [hB a (fun j hj => by
          have := ha (j + 1) (by simp only [List.length_cons]; omega)
          have h2 : i + (j + 1) = i + 1 + j := by omega
          rw [h2] at this
          exact this)]
        apply write_other
        have := ha 0 (by simp)
        simpa using this

theorem collectEvents_fixed (dec : SpecDecoder) (workflow : WorkflowV4)
    (spec : WorkflowTriggerJobSpec)
    (htype : spec.TriggerType = WorkflowTriggerTypeFixed) :
    collectEvents dec workflow spec = .ok (fixedEvents 0 spec.FixedWorkflowList) := by
  unfold collectEvents
  have hne : ¬ WorkflowTriggerTypeFixed = WorkflowTriggerTypeCommon := by decide
  simp only [htype, if_neg hne, if_true]

theorem finishEvents_getElem (workflow : WorkflowV4) (st : ParamStore)
    (events : List PendingEvent) (j : Nat) :
    (finishEvents workflow st events)[j]? =
      (events[j]?).map
        (fun e => { e.2 with ProjectName := workflow.Project, Params := st e.1 }) := by
  unfold finishEvents
  rw [List.getElem?_map]

/-- On a `Fixed` spec `ToJobs`, unless the repo resolution pass panics,
returns the task with one event per entry of
`FixedWorkflowList`, in order; the event number `i` has the workflow name of
entry `i`, the parameters entry `i` holds when `ToJobs` returns, which are
the configured parameters after one `getRepoFromJob` each, an empty service
name and module, and the owning workflow's project. -/
theorem ToJobs_fixed (dec : SpecDecoder) (workflow : WorkflowV4) (job : Job)
    (spec : WorkflowTriggerJobSpec) (hdec : dec.toTrigger job.Spec = .ok spec)
    (htype : spec.TriggerType = WorkflowTriggerTypeFixed)
    (hnopanic : ∀ msg, ToJobs dec workflow job ≠ .error (.panic msg)) :
    ∃ (events : List WorkflowTriggerEvent) (spec2 : WorkflowTriggerJobSpec),
      ToJobs dec workflow job = .ok ([mkJobTask job spec events], spec2) ∧
      events.length = spec.FixedWorkflowList.length ∧
      ∀ (i : Nat) (w : ServiceTriggerWorkflowInfo), spec.FixedWorkflowList[i]? = some w →
        ∃ (ev : WorkflowTriggerEvent) (w2 : ServiceTriggerWorkflowInfo), events[i]? = some ev ∧ spec2.FixedWorkflowList[i]? = some w2 ∧
          ev.WorkflowName = w.WorkflowName ∧ ev.Params = w2.Params ∧
          resolveParams workflow w.Params = .ok w2.Params ∧
          ev.ServiceName = "" ∧ ev.ServiceModule = "" ∧
          ev.ProjectName = workflow.Project := by
  have hev := collectEvents_fixed dec workflow spec htype
  rcases ToJobs_of_events dec workflow job spec _ hdec hev with ⟨msg, hmsg⟩ | ⟨st, hst, hok⟩
  · exact absurd hmsg (hnopanic msg)
  · refine ⟨_, _, hok, ?_, ?_⟩
    · simp [finishEvents, fixedEvents_length]
    · intro i w hw
      obtain ⟨hA, _⟩ := resolveEvents_fixed workflow _ 0 _ st hst
      have h1 := hA i w hw
      have h2 : initStore spec (Addr.fixed (0 + i)) = w.Params := by
        simp [initStore, hw]
      rw [h2] at h1
      refine ⟨{ WorkflowName := w.WorkflowName, Params := st (Addr.fixed (0 + i)),
                ServiceName := "", ServiceModule := "", ProjectName := workflow.Project },
        { w with Params := st (Addr.fixed (0 + i)) }, ?_, ?_, rfl, rfl, h1, rfl, rfl, rfl⟩
      · rw [finishEvents_getElem, fixedEvents_getElem, hw]
        rfl
      · simp only [specAfter]
        rw [readBack_getElem, hw]
        rfl

theorem runtimeEvents_ok (m : TriggerMap) (services : List ServiceNameAndModule)
    (evs : List PendingEvent) (h : runtimeEvents m services = .ok evs) :
    evs.length = services.length ∧
    ∀ (i : Nat) (s : ServiceNameAndModule), services[i]? = some s →
      ∃ p, m s = some p ∧ evs[i]? = some (eventFor p s.ServiceName s.ServiceModule) := by
  induction services generalizing evs with
  | nil =>
    simp only [runtimeEvents, Except.ok.injEq] at h
    subst h
    exact ⟨rfl, fun i s hs => by simp at hs⟩
  | cons s0 rest ih =>
    simp only [runtimeEvents] at h
    cases hm : m s0 with
    | none =>
      have hm2 : m { ServiceName := s0.ServiceName, ServiceModule := s0.ServiceModule } = none := hm
      simp only [hm2] at h
      cases h
    | some p =>
      have hm2 : m { ServiceName := s0.ServiceName, ServiceModule := s0.ServiceModule } = some p :=
        hm
      simp only [hm2] at h
      rcases hr : runtimeEvents m rest with e | evs2
      · rw [hr] at h
        cases h
      · rw [hr] at h
        simp only [Except.ok.injEq] at h
        subst h
        obtain ⟨hlen, hget⟩ := ih evs2 hr
        refine ⟨by simp [hlen], ?_⟩
        intro i s hs
        cases i with
        | zero =>
          simp only [List.getElem?_cons_zero, Option.some.injEq] at hs
          subst hs
          exact ⟨p, hm, by simp⟩
        | succ i2 =>
          obtain ⟨p2, hp2, hev2⟩ := hget i2 s (by simpa using hs)
          exact ⟨p2, hp2, by simpa using hev2⟩

theorem runtimeEvents_present (m : TriggerMap) (services : List ServiceNameAndModule)
    (h : ∀ s ∈ services, m s ≠ none) : ∃ evs, runtimeEvents m services = .ok evs := by
  rcases hr : runtimeEvents m services with e | evs
  · obtain ⟨pre, s, post, h1, _, h3, _⟩ := runtimeEvents_fault m services e hr
    exact absurd h3 (h s (by rw [h1]; simp))
  · exact ⟨evs, rfl⟩

/-- On a `Common`/`Runtime` spec in which every `SourceService` pair is a key
of the mapping, `ToJobs`, unless the repo resolution pass panics, returns the task with one event per `SourceService`
entry, in order, duplicates included; the event number `i` has the service
name and module of entry `i`, the workflow name of the entry the mapping holds
for that pair, the parameters that entry holds when `ToJobs` returns, and the
owning workflow's project. -/
theorem ToJobs_runtime (dec : SpecDecoder) (workflow : WorkflowV4) (job : Job)
    (spec : WorkflowTriggerJobSpec) (hdec : dec.toTrigger job.Spec = .ok spec)
    (htype : spec.TriggerType = WorkflowTriggerTypeCommon)
    (hsrc : spec.Source = TriggerWorkflowSourceRuntime)
    (hpresent : ∀ s ∈ spec.SourceService, ∃ info ∈ spec.ServiceTriggerWorkflow, info.key = s)
    (hnopanic : ∀ msg, ToJobs dec workflow job ≠ .error (.panic msg)) :
    ∃ (events : List WorkflowTriggerEvent) (spec2 : WorkflowTriggerJobSpec),
      ToJobs dec workflow job = .ok ([mkJobTask job spec events], spec2) ∧
      events.length = spec.SourceService.length ∧
      ∀ (i : Nat) (s : ServiceNameAndModule), spec.SourceService[i]? = some s →
        ∃ (ev : WorkflowTriggerEvent) (p : InfoPtr) (info2 : ServiceTriggerWorkflowInfo),
          events[i]? = some ev ∧
          ev.ServiceName = s.ServiceName ∧ ev.ServiceModule = s.ServiceModule ∧
          buildMap spec.ServiceTriggerWorkflow s = some p ∧
          ev.WorkflowName = p.info.WorkflowName ∧
          spec2.ServiceTriggerWorkflow[p.index]? = some info2 ∧
          ev.Params = info2.Params ∧
          ev.ProjectName = workflow.Project := by
  obtain ⟨evs, hevs⟩ := runtimeEvents_present (buildMap spec.ServiceTriggerWorkflow)
    spec.SourceService (by
      intro s hs hnone
      obtain ⟨info, hi, hk⟩ := hpresent s hs
      exact (buildMap_eq_none_iff _ _).mp hnone info hi hk)
  have hev : collectEvents dec workflow spec = .ok evs := by
    rw [collectEvents_runtime dec workflow spec htype hsrc, hevs]
  rcases ToJobs_of_events dec workflow job spec _ hdec hev with ⟨msg, hmsg⟩ | ⟨st, _, hok⟩
  · exact absurd hmsg (hnopanic msg)
  · obtain ⟨hlen, hget⟩ := runtimeEvents_ok _ _ _ hevs
    refine ⟨_, _, hok, ?_, ?_⟩
    · simp [finishEvents, hlen]
    · intro i s hs
      obtain ⟨p, hp, hpe⟩ := hget i s hs
      have hp2 := (buildMap_eq_some_iff _ _ _).mp hp
      refine ⟨{ (eventFor p s.ServiceName s.ServiceModule).2 with
                ProjectName := workflow.Project, Params := st (Addr.service p.index) },
        p, { p.info with Params := st (Addr.service p.index) }, ?_, rfl, rfl, hp, rfl,
        ?_, rfl, rfl⟩
      · rw [finishEvents_getElem, hpe]
        rfl
      · simp only [specAfter]
        rw [readBack_getElem, hp2.1]
        simp

/-! ## The index guard of `getRepoFromJob` -/

/-- When the first matching build entry has `JobRepoIndex` equal to the length of its repository list, or negative,
`getRepoFromJob` panics. -/
theorem getRepoFromJob_panics (workflow : WorkflowV4) (param : Param) (repo : Repository)
    (pre post : List ServiceAndBuild) (build : ServiceAndBuild)
    (htype : param.ParamsType = "repo") (hrepo : param.Repo = some repo)
    (hsrc : repo.SourceFrom = RepoSourceJob)
    (hscan : buildEntriesNamed workflow repo.JobName = pre ++ build :: post)
    (hpre : ∀ x ∈ pre, ¬ x.matchesRepo repo)
    (hbuild : build.matchesRepo repo)
    (hidx : repo.JobRepoIndex < 0 ∨ repo.JobRepoIndex = build.Repos.length) :
    getRepoFromJob workflow param = .error (.panic "index out of range") := by
  rw [getRepoFromJob_scan workflow param repo htype hrepo hsrc, hscan,
    scanBuilds_skip repo pre _ hpre]
  have hge : (build.Repos.length : Int) ≥ repo.JobRepoIndex := by omega
  have hm : ¬ (build.ServiceName ≠ repo.ServiceName ∨ build.ServiceModule ≠ repo.ServiceModule) := by
    rcases hbuild with ⟨h1, h2⟩
    simp [h1, h2]
  have hi : indexRepos build.Repos repo.JobRepoIndex = .error (.panic "index out of range") := by
    unfold indexRepos
    rcases hidx with h | h
    · rw [if_pos h]
    · have hn : ¬ repo.JobRepoIndex < 0 := by omega
      rw [if_neg hn]
      have hnone : build.Repos[repo.JobRepoIndex.toNat]? = none := by
        apply List.getElem?_eq_none
        omega
      rw [hnone]
  simp only [scanBuilds, if_neg hm, if_pos hge, hi]

/-- When `JobRepoIndex` is larger than the length of
the repository list of every matching build entry, `getRepoFromJob` returns
normally and leaves the parameter as it was. -/
theorem getRepoFromJob_index_beyond (workflow : WorkflowV4) (param : Param) (repo : Repository)
    (hrepo : param.Repo = some repo)
    (hbig : ∀ b ∈ buildEntriesNamed workflow repo.JobName, b.matchesRepo repo →
      (b.Repos.length : Int) < repo.JobRepoIndex) :
    getRepoFromJob workflow param = .ok param := by
  have hscan : ∀ builds : List ServiceAndBuild,
      (∀ b ∈ builds, b.matchesRepo repo → (b.Repos.length : Int) < repo.JobRepoIndex) →
      scanBuilds repo builds = .ok none := by
    intro builds
    induction builds with
    | nil => intro _; rfl
    | cons b rest ih =>
      intro h
      have ih2 := ih (fun x hx => h x (List.mem_cons_of_mem _ hx))
      simp only [scanBuilds]
      split_ifs with h1 h2
      · exact ih2
      · exfalso
        have hb : b.matchesRepo repo := by
          unfold ServiceAndBuild.matchesRepo
          by_contra hcon
          apply h1
          by_cases hs : b.ServiceName = repo.ServiceName
          · right
            exact fun hm => hcon ⟨hs, hm⟩
          · left
            exact hs
        have := h b (List.mem_cons_self _ _) hb
        omega
      · exact ih2
  by_cases ht : param.ParamsType = "repo"
  · by_cases hs : repo.SourceFrom = RepoSourceJob
    · rw [getRepoFromJob_scan workflow param repo ht hrepo hs, hscan _ hbig]
    · unfold getRepoFromJob
      simp only [ht, ne_eq, not_true_eq_false, if_false, hrepo, if_neg hs]
  · unfold getRepoFromJob
    simp only [ne_eq, ht, not_false_eq_true, if_true]

/-! ## The three kinds of source job -/

theorem buildTargets_eq_pairTargets (m : TriggerMap) (builds : List ServiceAndBuild) :
    buildTargets m builds = pairTargets m (builds.map (fun b => b.key)) := by
  induction builds with
  | nil => rfl
  | cons b rest ih =>
    simp only [buildTargets, pairTargets, List.map_cons, List.filterMap_cons]
    cases hm : m b.key with
    | none =>
      have hm2 : m { ServiceName := b.ServiceName, ServiceModule := b.ServiceModule } = none := hm
      simp only [hm2, Option.map_none']
      exact ih
    | some p =>
      have hm2 : m { ServiceName := b.ServiceName, ServiceModule := b.ServiceModule } = some p := hm
      simp only [hm2, Option.map_some']
      rw [ih]
      rfl

theorem distributeTargets_eq_pairTargets (m : TriggerMap) (targets : List DistributeTarget) :
    distributeTargets m targets = pairTargets m (targets.map (fun t => t.key)) := by
  induction targets with
  | nil => rfl
  | cons b rest ih =>
    simp only [distributeTargets, pairTargets, List.map_cons, List.filterMap_cons]
    cases hm : m b.key with
    | none =>
      have hm2 : m { ServiceName := b.ServiceName, ServiceModule := b.ServiceModule } = none := hm
      simp only [hm2, Option.map_none']
      exact ih
    | some p =>
      have hm2 : m { ServiceName := b.ServiceName, ServiceModule := b.ServiceModule } = some p := hm
      simp only [hm2, Option.map_some']
      rw [ih]
      rfl

theorem deployTargets_eq_pairTargets (m : TriggerMap) (images : List ServiceAndImage) :
    deployTargets m images = pairTargets m (images.map (fun s => s.key)) := by
  induction images with
  | nil => rfl
  | cons b rest ih =>
    simp only [deployTargets, pairTargets, List.map_cons, List.filterMap_cons]
    cases hm : m b.key with
    | none =>
      have hm2 : m { ServiceName := b.ServiceName, ServiceModule := b.ServiceModule } = none := hm
      simp only [hm2, Option.map_none']
      exact ih
    | some p =>
      have hm2 : m { ServiceName := b.ServiceName, ServiceModule := b.ServiceModule } = some p := hm
      simp only [hm2, Option.map_some']
      rw [ih]
      rfl

theorem pairTargets_mem (m : TriggerMap) (pairs : List ServiceNameAndModule) (pe : PendingEvent)
    (h : pe ∈ pairTargets m pairs) :
    ∃ k ∈ pairs, ∃ p, m k = some p ∧ pe = eventFor p k.ServiceName k.ServiceModule := by
  unfold pairTargets at h
  rw [List.mem_filterMap] at h
  obtain ⟨k, hk, hpe⟩ := h
  cases hm : m k with
  | none =>
    rw [hm] at hpe
    cases hpe
  | some p =>
    rw [hm] at hpe
    exact ⟨k, hk, p, hm, (Option.some.inj hpe).symm⟩

/-- C19. For every mapping `m` and list `pairs` of (serviceName,
serviceModule) pairs: when the source job of a `Common`/`FromJob` spec (the
first job named `SourceJobName`) is a Build job whose build entries have the
pairs `pairs`, or a DistributeImage job whose targets have them, or a Deploy
job whose service/image entries have them, `getSourceJobTargets` returns, and
the switch of `ToJobs` collects, the same event list in the three cases: one
event per element of `pairs` that is a key of the mapping, in the order of
`pairs`, the other pairs skipped without error. -/
theorem getSourceJobTargets_kinds (dec : SpecDecoder) (workflow : WorkflowV4)
    (spec : WorkflowTriggerJobSpec) (srcJob : Job) (pairs : List ServiceNameAndModule)
    (htype : spec.TriggerType = WorkflowTriggerTypeCommon)
    (hsrc : spec.Source = TriggerWorkflowSourceFromJob)
    (hfirst : workflow.firstJobNamed spec.SourceJobName = some srcJob)
    (hkind :
      (srcJob.JobType = JobZadigBuild ∧
        ∃ v, dec.toBuild srcJob.Spec = .ok v ∧ v.ServiceAndBuilds.map (fun b => b.key) = pairs) ∨
      (srcJob.JobType = JobZadigDistributeImage ∧
        ∃ v, dec.toDistribute srcJob.Spec = .ok v ∧ v.Tatgets.map (fun t => t.key) = pairs) ∨
      (srcJob.JobType = JobZadigDeploy ∧
        ∃ v, dec.toDeploy srcJob.Spec = .ok v ∧
          v.ServiceAndImages.map (fun s => s.key) = pairs)) :
    getSourceJobTargets dec workflow spec spec.SourceJobName
        (buildMap spec.ServiceTriggerWorkflow) =
      .ok (pairTargets (buildMap spec.ServiceTriggerWorkflow) pairs) ∧
    collectEvents dec workflow spec =
      .ok (pairTargets (buildMap spec.ServiceTriggerWorkflow) pairs) := by
  have hd : ¬ JobZadigDistributeImage = JobZadigBuild := by decide
  have hp1 : ¬ JobZadigDeploy = JobZadigBuild := by decide
  have hp2 : ¬ JobZadigDeploy = JobZadigDistributeImage := by decide
  have h1 : getSourceJobTargets dec workflow spec spec.SourceJobName
        (buildMap spec.ServiceTriggerWorkflow) =
      .ok (pairTargets (buildMap spec.ServiceTriggerWorkflow) pairs) := by
    rw [getSourceJobTargets_found dec workflow spec _ _ srcJob hfirst]
    unfold sourceJobTargets
    rcases hkind with ⟨hk, v, hv, hpairs⟩ | ⟨hk, v, hv, hpairs⟩ | ⟨hk, v, hv, hpairs⟩
    · rw [if_pos hk, hv, ← hpairs]
      simp only [buildTargets_eq_pairTargets]
    · rw [hk, if_neg hd, if_pos rfl, hv, ← hpairs]
      simp only [distributeTargets_eq_pairTargets]
    · rw [hk, if_neg hp1, if_neg hp2, if_pos rfl, hv, ← hpairs]
      simp only [deployTargets_eq_pairTargets]
  exact ⟨h1, by rw [collectEvents_fromJob dec workflow spec htype hsrc, h1]⟩

/-- A run of C19: the source job is a DistributeImage job with the targets
`svc`/`mod`, a key of the mapping, and `web`/`mod`, no key. -/
theorem getSourceJobTargets_kinds_witness :
    getSourceJobTargets exampleDecoder
        (exWorkflowOf [exDistributeJob]
          (exTriggerJob (exCommonSpec TriggerWorkflowSourceFromJob "distribute" [] [exStringParam])))
        (exCommonSpec TriggerWorkflowSourceFromJob "distribute" [] [exStringParam]) "distribute"
        (buildMap
          (exCommonSpec TriggerWorkflowSourceFromJob "distribute" [] [exStringParam]).ServiceTriggerWorkflow) =
      .ok (pairTargets
        (buildMap
          (exCommonSpec TriggerWorkflowSourceFromJob "distribute" [] [exStringParam]).ServiceTriggerWorkflow)
        [⟨"svc", "mod"⟩, ⟨"web", "mod"⟩]) ∧
    collectEvents exampleDecoder
        (exWorkflowOf [exDistributeJob]
          (exTriggerJob (exCommonSpec TriggerWorkflowSourceFromJob "distribute" [] [exStringParam])))
        (exCommonSpec TriggerWorkflowSourceFromJob "distribute" [] [exStringParam]) =
      .ok (pairTargets
        (buildMap
          (exCommonSpec TriggerWorkflowSourceFromJob "distribute" [] [exStringParam]).ServiceTriggerWorkflow)
        [⟨"svc", "mod"⟩, ⟨"web", "mod"⟩]) :=
  getSourceJobTargets_kinds exampleDecoder
    (exWorkflowOf [exDistributeJob]
      (exTriggerJob (exCommonSpec TriggerWorkflowSourceFromJob "distribute" [] [exStringParam])))
    (exCommonSpec TriggerWorkflowSourceFromJob "distribute" [] [exStringParam])
    exDistributeJob [⟨"svc", "mod"⟩, ⟨"web", "mod"⟩] rfl rfl rfl
    (Or.inr (Or.inl ⟨rfl, _, rfl, rfl⟩))

/-! ## Specs without job-sourced repo parameters -/

theorem getRepoFromJob_of_plain (workflow : WorkflowV4) (param : Param) (h : param.plain) :
    getRepoFromJob workflow param = .ok param := by
  unfold getRepoFromJob
  rcases h with h | h | ⟨repo, hr, hs⟩
  · rw [if_pos h]
  · split_ifs
    · rfl
    · rw [h]
  · split_ifs
    · rfl
    · rw [hr]
      simp only [if_neg hs]

theorem resolveParams_of_plain (workflow : WorkflowV4) (params : List Param)
    (h : ∀ p ∈ params, p.plain) : resolveParams workflow params = .ok params := by
  induction params with
  | nil => rfl
  | cons p rest ih =>
    simp only [resolveParams, getRepoFromJob_of_plain workflow p (h p (List.mem_cons_self _ _)),
      ih (fun q hq => h q (List.mem_cons_of_mem _ hq))]

theorem write_self (st : ParamStore) (a : Addr) : st.write a (st a) = st := by
  funext b
  unfold ParamStore.write
  split_ifs with hb
  · rw [hb]
  · rfl

theorem resolveEvents_of_fixpoint (workflow : WorkflowV4) (events : List PendingEvent)
    (st : ParamStore)
    (h : ∀ pe ∈ events, resolveParams workflow (st pe.1) = .ok (st pe.1)) :
    resolveEvents workflow events st = .ok st := by
  induction events with
  | nil => rfl
  | cons pe rest ih =>
    obtain ⟨a, ev⟩ := pe
    have ha := h (a, ev) (List.mem_cons_self _ _)
    simp only at ha
    simp only [resolveEvents, ha, write_self]
    exact ih (fun q hq => h q (List.mem_cons_of_mem _ hq))

theorem runtimeEvents_eq_pairTargets (m : TriggerMap) (services : List ServiceNameAndModule)
    (evs : List PendingEvent) (h : runtimeEvents m services = .ok evs) :
    evs = pairTargets m services := by
  induction services generalizing evs with
  | nil =>
    simp only [runtimeEvents, Except.ok.injEq] at h
    rw [← h]
    rfl
  | cons s rest ih =>
    simp only [runtimeEvents] at h
    cases hm : m s with
    | none =>
      have hm2 : m { ServiceName := s.ServiceName, ServiceModule := s.ServiceModule } = none := hm
      simp only [hm2] at h
      cases h
    | some p =>
      have hm2 : m { ServiceName := s.ServiceName, ServiceModule := s.ServiceModule } = some p := hm
      simp only [hm2] at h
      rcases hr : runtimeEvents m rest with e | evs2
      · rw [hr] at h
        cases h
      · rw [hr] at h
        simp only [Except.ok.injEq] at h
        rw [← h, ih evs2 hr]
        simp only [pairTargets, List.filterMap_cons, hm, Option.map_some']

theorem sourceJobTargets_shape (dec : SpecDecoder) (m : TriggerMap) (job : Job)
    (events : List PendingEvent) (h : sourceJobTargets dec m job = .ok events) :
    ∃ pairs, events = pairTargets m pairs := by
  unfold sourceJobTargets at h
  split_ifs at h
  · rcases hd : dec.toBuild job.Spec with e | v
    · rw [hd] at h
      cases h
    · rw [hd] at h
      simp only [Except.ok.injEq] at h
      exact ⟨_, by rw [← h, buildTargets_eq_pairTargets]⟩
  · rcases hd : dec.toDistribute job.Spec with e | v
    · rw [hd] at h
      cases h
    · rw [hd] at h
      simp only [Except.ok.injEq] at h
      exact ⟨_, by rw [← h, distributeTargets_eq_pairTargets]⟩
  · rcases hd : dec.toDeploy job.Spec with e | v
    · rw [hd] at h
      cases h
    · rw [hd] at h
      simp only [Except.ok.injEq] at h
      exact ⟨_, by rw [← h, deployTargets_eq_pairTargets]⟩
  · simp only [Except.ok.injEq] at h
    exact ⟨[], by rw [← h]; rfl⟩

/-- The events of a `Common` spec are the events of some list of pairs. -/
theorem collectEvents_common_shape (dec : SpecDecoder) (workflow : WorkflowV4)
    (spec : WorkflowTriggerJobSpec) (events : List PendingEvent)
    (htype : spec.TriggerType = WorkflowTriggerTypeCommon)
    (h : collectEvents dec workflow spec = .ok events) :
    ∃ pairs, events = pairTargets (buildMap spec.ServiceTriggerWorkflow) pairs := by
  by_cases hr : spec.Source = TriggerWorkflowSourceRuntime
  · rw [collectEvents_runtime dec workflow spec htype hr] at h
    exact ⟨_, runtimeEvents_eq_pairTargets _ _ _ h⟩
  · by_cases hj : spec.Source = TriggerWorkflowSourceFromJob
    · rw [collectEvents_fromJob dec workflow spec htype hj] at h
      cases hf : workflow.firstJobNamed spec.SourceJobName with
      | none =>
        rw [getSourceJobTargets_missing dec workflow spec _ _ hf] at h
        cases h
      | some srcJob =>
        rw [getSourceJobTargets_found dec workflow spec _ _ srcJob hf] at h
        exact sourceJobTargets_shape dec _ srcJob events h
    · unfold collectEvents at h
      simp only [htype, if_true, if_neg hr, if_neg hj, Except.ok.injEq] at h
      exact ⟨[], by rw [← h]; rfl⟩

theorem fixedEvents_mem (i : Nat) (l : List ServiceTriggerWorkflowInfo) (pe : PendingEvent)
    (h : pe ∈ fixedEvents i l) :
    ∃ j w, l[j]? = some w ∧
      pe = (Addr.fixed (i + j),
        { WorkflowName := w.WorkflowName
          Params := w.Params
          ServiceName := ""
          ServiceModule := ""
          ProjectName := "" }) := by
  obtain ⟨j, hj⟩ := List.getElem?_of_mem h
  rw [fixedEvents_getElem] at hj
  cases hw : l[j]? with
  | none =>
    rw [hw] at hj
    cases hj
  | some w =>
    rw [hw] at hj
    exact ⟨j, w, hw, (Option.some.inj hj).symm⟩

/-- Every collected event holds the workflow name and the parameters of an
entry of the spec, and shares the address of that entry's parameters. -/
theorem collectEvents_origin (dec : SpecDecoder) (workflow : WorkflowV4)
    (spec : WorkflowTriggerJobSpec) (events : List PendingEvent)
    (h : collectEvents dec workflow spec = .ok events) (pe : PendingEvent) (hpe : pe ∈ events) :
    ∃ info ∈ spec.ServiceTriggerWorkflow ++ spec.FixedWorkflowList,
      pe.2.WorkflowName = info.WorkflowName ∧ pe.2.Params = info.Params ∧
      initStore spec pe.1 = info.Params := by
  by_cases htype : spec.TriggerType = WorkflowTriggerTypeCommon
  · obtain ⟨pairs, hpairs⟩ := collectEvents_common_shape dec workflow spec events htype h
    rw [hpairs] at hpe
    obtain ⟨k, _, p, hp, heq⟩ := pairTargets_mem _ _ _ hpe
    have hp2 := (buildMap_eq_some_iff _ _ _).mp hp
    refine ⟨p.info, List.mem_append_left _ (List.getElem?_mem hp2.1), ?_, ?_, ?_⟩
    · rw [heq]
      rfl
    · rw [heq]
      rfl
    · rw [heq]
      simp [eventFor, initStore, hp2.1]
  · by_cases hf : spec.TriggerType = WorkflowTriggerTypeFixed
    · rw [collectEvents_fixed dec workflow spec hf] at h
      simp only [Except.ok.injEq] at h
      rw [← h] at hpe
      obtain ⟨j, w, hw, heq⟩ := fixedEvents_mem _ _ _ hpe
      refine ⟨w, List.mem_append_right _ (List.getElem?_mem hw), ?_, ?_, ?_⟩
      · rw [heq]
      · rw [heq]
      · rw [heq]
        simp [initStore, hw]
    · unfold collectEvents at h
      rw [if_neg htype, if_neg hf] at h
      cases h

theorem sourceJobTargets_fault (dec : SpecDecoder) (m : TriggerMap) (job : Job) (e : Fault)
    (h : sourceJobTargets dec m job = .error e) : ∃ msg, e = .err msg := by
  unfold sourceJobTargets at h
  split_ifs at h
  · rcases hd : dec.toBuild job.Spec with e2 | v
    · rw [hd] at h
      exact ⟨e2, (Except.error.inj h).symm⟩
    · rw [hd] at h
      cases h
  · rcases hd : dec.toDistribute job.Spec with e2 | v
    · rw [hd] at h
      exact ⟨e2, (Except.error.inj h).symm⟩
    · rw [hd] at h
      cases h
  · rcases hd : dec.toDeploy job.Spec with e2 | v
    · rw [hd] at h
      exact ⟨e2, (Except.error.inj h).symm⟩
    · rw [hd] at h
      cases h

/-- The switch of `ToJobs` returns errors, it does not panic. -/
theorem collectEvents_fault (dec : SpecDecoder) (workflow : WorkflowV4)
    (spec : WorkflowTriggerJobSpec) (e : Fault)
    (h : collectEvents dec workflow spec = .error e) : ∃ msg, e = .err msg := by
  by_cases htype : spec.TriggerType = WorkflowTriggerTypeCommon
  · by_cases hr : spec.Source = TriggerWorkflowSourceRuntime
    · rw [collectEvents_runtime dec workflow spec htype hr] at h
      obtain ⟨_, s, _, _, _, _, h8⟩ := runtimeEvents_fault _ _ _ h
      exact ⟨_, h8⟩
    · by_cases hj : spec.Source = TriggerWorkflowSourceFromJob
      · rw [collectEvents_fromJob dec workflow spec htype hj] at h
        cases hf : workflow.firstJobNamed spec.SourceJobName with
        | none =>
          rw [getSourceJobTargets_missing dec workflow spec _ _ hf] at h
          exact ⟨_, (Except.error.inj h).symm⟩
        | some srcJob =>
          rw [getSourceJobTargets_found dec workflow spec _ _ srcJob hf] at h
          exact sourceJobTargets_fault dec _ srcJob e h
      · unfold collectEvents at h
        simp only [htype, if_true, if_neg hr, if_neg hj] at h
        cases h
  · by_cases hf : spec.TriggerType = WorkflowTriggerTypeFixed
    · rw [collectEvents_fixed dec workflow spec hf] at h
      cases h
    · unfold collectEvents at h
      rw [if_neg htype, if_neg hf] at h
      exact ⟨_, (Except.error.inj h).symm⟩

/-- On a spec without job-sourced repo parameters the resolution pass changes
nothing: `ToJobs` returns the collected events with the project set, and leaves
the spec as decoded. -/
theorem ToJobs_of_plain (dec : SpecDecoder) (workflow : WorkflowV4) (job : Job)
    (spec : WorkflowTriggerJobSpec) (hdec : dec.toTrigger job.Spec = .ok spec)
    (hplain : spec.plain) :
    ToJobs dec workflow job =
      match collectEvents dec workflow spec with
      | .error e => .error e
      | .ok events =>
        .ok ([mkJobTask job spec
          (events.map (fun pe => { pe.2 with ProjectName := workflow.Project }))], spec) := by
  rw [ToJobs_of_decode dec workflow job spec hdec]
  rcases hc : collectEvents dec workflow spec with e | events
  · rfl
  · have hfix : ∀ pe ∈ events,
        resolveParams workflow (initStore spec pe.1) = .ok (initStore spec pe.1) := by
      intro pe hpe
      obtain ⟨info, hinfo, _, _, h3⟩ := collectEvents_origin dec workflow spec events hc pe hpe
      rw [h3]
      exact resolveParams_of_plain workflow _ (hplain info hinfo)
    have hfin : finishEvents workflow (initStore spec) events =
        events.map (fun pe => { pe.2 with ProjectName := workflow.Project }) := by
      unfold finishEvents
      apply List.map_congr_left
      intro pe hpe
      obtain ⟨info, _, _, h2, h3⟩ := collectEvents_origin dec workflow spec events hc pe hpe
      rw [h3, ← h2]
    simp only [resolveEvents_of_fixpoint workflow events _ hfix, specAfter_initStore, hfin]

/-- C11. `getRepoFromJob` leaves unchanged every parameter whose type is not
"repo", or whose repo is absent, or whose repo's `SourceFrom` is not `Job`,
whatever the owning workflow.  Consequently, on a spec none of whose
parameters is a job-sourced repo, `ToJobs` does not panic, leaves the spec as
decoded, returns events each of which carries the workflow name and the
configured parameters of an entry of the spec, and a second call, on the job as
the first call left it (its `Spec` now the typed spec), returns the same
result. -/
theorem ToJobs_plain_frame (dec : SpecDecoder) (workflow : WorkflowV4) (job : Job)
    (spec : WorkflowTriggerJobSpec) (param : Param)
    (hparam : param.plain)
    (hdec : dec.toTrigger job.Spec = .ok spec)
    (hplain : spec.plain)
    (hstable : dec.toTrigger (JobSpec.trigger spec) = .ok spec) :
    getRepoFromJob workflow param = .ok param ∧
    (∀ msg, ToJobs dec workflow job ≠ .error (.panic msg)) ∧
    (∀ tasks spec2, ToJobs dec workflow job = .ok (tasks, spec2) →
      spec2 = spec ∧
      (∃ events, collectEvents dec workflow spec = .ok events ∧
        tasks = [mkJobTask job spec
          (events.map (fun pe => { pe.2 with ProjectName := workflow.Project }))]) ∧
      ∀ task ∈ tasks, ∀ ev ∈ task.Spec.WorkflowTriggerEvents,
        ∃ info ∈ spec.ServiceTriggerWorkflow ++ spec.FixedWorkflowList,
          ev.WorkflowName = info.WorkflowName ∧ ev.Params = info.Params) ∧
    (∀ tasks spec2, ToJobs dec workflow job = .ok (tasks, spec2) →
      ToJobs dec workflow { job with Spec := JobSpec.trigger spec2 } = .ok (tasks, spec2)) := by
  have hform := ToJobs_of_plain dec workflow job spec hdec hplain
  have hshape : ∀ tasks spec2, ToJobs dec workflow job = .ok (tasks, spec2) →
      spec2 = spec ∧
      ∃ events, collectEvents dec workflow spec = .ok events ∧
        tasks = [mkJobTask job spec
          (events.map (fun pe => { pe.2 with ProjectName := workflow.Project }))] := by
    intro tasks spec2 h
    rw [hform] at h
    rcases hc : collectEvents dec workflow spec with e | events
    · rw [hc] at h
      cases h
    · rw [hc] at h
      simp only [Except.ok.injEq, Prod.mk.injEq] at h
      exact ⟨h.2.symm, events, rfl, h.1.symm⟩
  refine ⟨getRepoFromJob_of_plain workflow param hparam, ?_, ?_, ?_⟩
  · intro msg h
    rw [hform] at h
    rcases hc : collectEvents dec workflow spec with e | events
    · rw [hc] at h
      simp only [Except.error.injEq] at h
      obtain ⟨msg2, hmsg2⟩ := collectEvents_fault dec workflow spec e hc
      rw [hmsg2] at h
      cases h
    · rw [hc] at h
      cases h
  · intro tasks spec2 h
    obtain ⟨hs, events, hev, htasks⟩ := hshape tasks spec2 h
    refine ⟨hs, ⟨events, hev, htasks⟩, ?_⟩
    intro task htask ev hevmem
    rw [htasks, List.mem_singleton] at htask
    subst htask
    simp only [mkJobTask, List.mem_map] at hevmem
    obtain ⟨pe, hpe, heq⟩ := hevmem
    obtain ⟨info, hinfo, h1, h2, _⟩ := collectEvents_origin dec workflow spec events hev pe hpe
    exact ⟨info, hinfo, by rw [← heq]; exact h1, by rw [← heq]; exact h2⟩
  · intro tasks spec2 h
    obtain ⟨hs, _, _, _⟩ := hshape tasks spec2 h
    subst hs
    have hform2 := ToJobs_of_plain dec workflow { job with Spec := JobSpec.trigger spec2 } spec2
      hstable hplain
    rw [hform2, ← h, hform]
    rfl

/-- A run of C11 on a `Common`/`Runtime` spec whose only parameter is a plain
string parameter. -/
theorem ToJobs_plain_frame_witness :
    ToJobs exampleDecoder
        (exWorkflow [exBuild]
          (exCommonSpec TriggerWorkflowSourceRuntime "" [⟨"svc", "mod"⟩] [exStringParam]))
        (exTriggerJob
          (exCommonSpec TriggerWorkflowSourceRuntime "" [⟨"svc", "mod"⟩] [exStringParam])) =
      .ok ([mkJobTask
              (exTriggerJob
                (exCommonSpec TriggerWorkflowSourceRuntime "" [⟨"svc", "mod"⟩] [exStringParam]))
              (exCommonSpec TriggerWorkflowSourceRuntime "" [⟨"svc", "mod"⟩] [exStringParam])
              [exEvent [exStringParam]]],
           exCommonSpec TriggerWorkflowSourceRuntime "" [⟨"svc", "mod"⟩] [exStringParam]) ∧
    getRepoFromJob
        (exWorkflow [exBuild]
          (exCommonSpec TriggerWorkflowSourceRuntime "" [⟨"svc", "mod"⟩] [exStringParam]))
        exStringParam = .ok exStringParam ∧
    ToJobs exampleDecoder
        (exWorkflow [exBuild]
          (exCommonSpec TriggerWorkflowSourceRuntime "" [⟨"svc", "mod"⟩] [exStringParam]))
        { exTriggerJob
            (exCommonSpec TriggerWorkflowSourceRuntime "" [⟨"svc", "mod"⟩] [exStringParam]) with
          Spec := JobSpec.trigger
            (exCommonSpec TriggerWorkflowSourceRuntime "" [⟨"svc", "mod"⟩] [exStringParam]) } =
      .ok ([mkJobTask
              (exTriggerJob
                (exCommonSpec TriggerWorkflowSourceRuntime "" [⟨"svc", "mod"⟩] [exStringParam]))
              (exCommonSpec TriggerWorkflowSourceRuntime "" [⟨"svc", "mod"⟩] [exStringParam])
              [exEvent [exStringParam]]],
           exCommonSpec TriggerWorkflowSourceRuntime "" [⟨"svc", "mod"⟩] [exStringParam]) :=
  have hplainParam : exStringParam.plain := Or.inl (by decide)
  have hplain :
      (exCommonSpec TriggerWorkflowSourceRuntime "" [⟨"svc", "mod"⟩] [exStringParam]).plain := by
    intro info hinfo p hp
    simp only [exCommonSpec, List.append_nil, List.mem_singleton] at hinfo
    subst hinfo
    simp only [exInfo, List.mem_singleton] at hp
    subst hp
    exact hplainParam
  have hall := ToJobs_plain_frame exampleDecoder
    (exWorkflow [exBuild]
      (exCommonSpec TriggerWorkflowSourceRuntime "" [⟨"svc", "mod"⟩] [exStringParam]))
    (exTriggerJob (exCommonSpec TriggerWorkflowSourceRuntime "" [⟨"svc", "mod"⟩] [exStringParam]))
    (exCommonSpec TriggerWorkflowSourceRuntime "" [⟨"svc", "mod"⟩] [exStringParam])
    exStringParam hplainParam rfl hplain rfl
  ⟨rfl, hall.1, hall.2.2.2 _ _ rfl⟩

/-! ## Duplicate keys in `ServiceTriggerWorkflow` -/

theorem ToJobs_ok_inv (dec : SpecDecoder) (workflow : WorkflowV4) (job : Job)
    (spec : WorkflowTriggerJobSpec) (tasks : List JobTask) (spec2 : WorkflowTriggerJobSpec)
    (hdec : dec.toTrigger job.Spec = .ok spec)
    (h : ToJobs dec workflow job = .ok (tasks, spec2)) :
    ∃ events st, collectEvents dec workflow spec = .ok events ∧
      resolveEvents workflow events (initStore spec) = .ok st ∧
      tasks = [mkJobTask job spec (finishEvents workflow st events)] ∧
      spec2 = specAfter spec st := by
  rcases hc : collectEvents dec workflow spec with e | events
  · have h0 := ToJobs_of_decode dec workflow job spec hdec
    simp only [hc] at h0
    rw [h0] at h
    cases h
  · rcases ToJobs_of_events dec workflow job spec events hdec hc with ⟨msg, hmsg⟩ | ⟨st, hst, hok⟩
    · rw [hmsg] at h
      cases h
    · rw [hok] at h
      simp only [Except.ok.injEq, Prod.mk.injEq] at h
      exact ⟨events, st, rfl, hst, h.1.symm, h.2.symm⟩

theorem fillMap_append (i : Nat) (l1 l2 : List ServiceTriggerWorkflowInfo) (m : TriggerMap) :
    fillMap i (l1 ++ l2) m = fillMap (i + l1.length) l2 (fillMap i l1 m) := by
  induction l1 generalizing i m with
  | nil => rfl
  | cons a rest ih =>
    simp only [List.cons_append, fillMap, List.length_cons]
    have h2 := ih (i + 1) (m.insert a.key { index := i, info := a })
    have h3 : i + 1 + rest.length = i + (rest.length + 1) := by omega
    rw [h3] at h2
    exact h2

/-- An entry whose key occurs again later in the list does not show in the
map. -/
theorem buildMap_shadowed (pre post : List ServiceTriggerWorkflowInfo)
    (e : ServiceTriggerWorkflowInfo) (hshadow : ∃ l ∈ post, l.key = e.key)
    (k : ServiceNameAndModule) :
    buildMap (pre ++ e :: post) k =
      match fillMap (pre.length + 1) post (fun _ => none) k with
      | some p => some p
      | none => fillMap 0 pre (fun _ => none) k := by
  unfold buildMap
  rw [fillMap_append]
  simp only [fillMap, Nat.zero_add]
  rw [fillMap_eq]
  cases h : fillMap (pre.length + 1) post (fun _ => none) k with
  | some p => rfl
  | none =>
    have hnone := (fillMap_eq_none_iff _ _ _).mp h
    obtain ⟨l, hl, hlk⟩ := hshadow
    have hk : ¬ k = e.key := by
      intro hk
      exact hnone l hl (by rw [hlk, hk])
    simp only [TriggerMap.insert, if_neg hk]

theorem getElem?_middle {α : Type} (pre post : List α) (x : α) :
    (pre ++ x :: post)[pre.length]? = some x := by
  rw [List.getElem?_append_right (Nat.le_refl _), Nat.sub_self]
  exact List.getElem?_cons_zero

theorem buildMap_index_ne_shadowed (pre post : List ServiceTriggerWorkflowInfo)
    (e : ServiceTriggerWorkflowInfo) (hshadow : ∃ l ∈ post, l.key = e.key)
    (k : ServiceNameAndModule) (p : InfoPtr) (h : buildMap (pre ++ e :: post) k = some p) :
    p.index ≠ pre.length := by
  intro hidx
  obtain ⟨h1, h2, h3⟩ := (buildMap_eq_some_iff _ _ _).mp h
  rw [hidx] at h1 h3
  have he : p.info = e := by
    rw [getElem?_middle] at h1
    exact (Option.some.inj h1).symm
  obtain ⟨l, hl, hlk⟩ := hshadow
  obtain ⟨j, hj⟩ := List.getElem?_of_mem hl
  have hget : (pre ++ e :: post)[pre.length + 1 + j]? = some l := by
    rw [List.getElem?_append_right (by omega)]
    have : pre.length + 1 + j - pre.length = j + 1 := by omega
    rw [this]
    simpa using hj
  exact h3 (pre.length + 1 + j) l (by omega) hget (by rw [hlk, ← he, h2])

theorem write_comm (st : ParamStore) (a a0 : Addr) (ps c : List Param) (h : a ≠ a0) :
    (st.write a0 c).write a ps = (st.write a ps).write a0 c := by
  funext b
  unfold ParamStore.write
  by_cases hb : b = a
  · have hb0 : ¬ b = a0 := by
      rw [hb]
      exact h
    simp [hb, h]
  · simp [hb]

/-- The resolution pass does not read or write an address no event shares. -/
theorem resolveEvents_write (workflow : WorkflowV4) (events : List PendingEvent)
    (st : ParamStore) (a0 : Addr) (c : List Param) (h : ∀ pe ∈ events, pe.1 ≠ a0) :
    resolveEvents workflow events (st.write a0 c) =
      match resolveEvents workflow events st with
      | .error e => .error e
      | .ok st2 => .ok (st2.write a0 c) := by
  induction events generalizing st with
  | nil => rfl
  | cons pe rest ih =>
    obtain ⟨a, ev⟩ := pe
    have ha : a ≠ a0 := h (a, ev) (List.mem_cons_self _ _)
    simp only [resolveEvents]
    rw [write_other st a0 a c ha]
    rcases hp : resolveParams workflow (st a) with e | ps
    · rfl
    · simp only []
      rw [write_comm st a a0 ps c ha]
      exact ih _ (fun q hq => h q (List.mem_cons_of_mem _ hq))

theorem finishEvents_write (workflow : WorkflowV4) (events : List PendingEvent)
    (st : ParamStore) (a0 : Addr) (c : List Param) (h : ∀ pe ∈ events, pe.1 ≠ a0) :
    finishEvents workflow (st.write a0 c) events = finishEvents workflow st events := by
  unfold finishEvents
  apply List.map_congr_left
  intro pe hpe
  rw [write_other st a0 pe.1 c (h pe hpe)]

theorem getElem?_replace_middle {α : Type} (pre post : List α) (x y : α) (i : Nat)
    (hi : i ≠ pre.length) : (pre ++ x :: post)[i]? = (pre ++ y :: post)[i]? := by
  induction pre generalizing i with
  | nil =>
    cases i with
    | zero => simp at hi
    | succ j => simp
  | cons a rest ih =>
    cases i with
    | zero => simp
    | succ j =>
      simp only [List.cons_append, List.getElem?_cons_succ]
      exact ih j (by simpa using hi)

theorem initStore_replace (spec : WorkflowTriggerJobSpec)
    (pre post : List ServiceTriggerWorkflowInfo) (e e2 : ServiceTriggerWorkflowInfo)
    (hshape : spec.ServiceTriggerWorkflow = pre ++ e :: post) :
    initStore { spec with ServiceTriggerWorkflow := pre ++ e2 :: post } =
      (initStore spec).write (Addr.service pre.length) e2.Params := by
  funext a
  unfold ParamStore.write
  cases a with
  | service i =>
    by_cases hi : i = pre.length
    · subst hi
      simp only [initStore, getElem?_middle, if_true]
    · have hne : ¬ Addr.service i = Addr.service pre.length := by
        intro hcon
        injection hcon with hcon
        exact hi hcon
      rw [if_neg hne]
      simp only [initStore, hshape]
      rw [getElem?_replace_middle pre post e2 e i hi]
  | fixed i =>
    have hne : ¬ Addr.fixed i = Addr.service pre.length := by
      intro hcon
      cases hcon
    rw [if_neg hne]
    rfl

theorem collectEvents_congr (dec : SpecDecoder) (workflow : WorkflowV4)
    (spec : WorkflowTriggerJobSpec) (infos : List ServiceTriggerWorkflowInfo)
    (h : buildMap infos = buildMap spec.ServiceTriggerWorkflow) :
    collectEvents dec workflow { spec with ServiceTriggerWorkflow := infos } =
      collectEvents dec workflow spec := by
  unfold collectEvents getSourceJobTargets
  simp only [h]

/-- C18. In a `Common` spec, every event `ToJobs` emits carries the workflow
name of the last entry of `ServiceTriggerWorkflow`, in list order, with the
event's (serviceName, serviceModule) pair, and the parameters that entry holds
when `ToJobs` returns; and an entry whose pair occurs again later in the list
has no effect on the returned tasks: replacing it by any other entry whose pair
occurs later in the list leaves the outcome of `ToJobs` (tasks, error or panic)
the same. -/
theorem ToJobs_last_entry_wins (dec : SpecDecoder) (workflow : WorkflowV4) (job : Job)
    (spec : WorkflowTriggerJobSpec) (hdec : dec.toTrigger job.Spec = .ok spec)
    (htype : spec.TriggerType = WorkflowTriggerTypeCommon) :
    (∀ tasks spec2, ToJobs dec workflow job = .ok (tasks, spec2) →
      ∀ task ∈ tasks, ∀ ev ∈ task.Spec.WorkflowTriggerEvents,
        ∃ (i : Nat) (info info2 : ServiceTriggerWorkflowInfo),
          spec.ServiceTriggerWorkflow[i]? = some info ∧ info.key = ev.key ∧
          (∀ (j : Nat) (info3 : ServiceTriggerWorkflowInfo), i < j →
            spec.ServiceTriggerWorkflow[j]? = some info3 → info3.key ≠ ev.key) ∧
          ev.WorkflowName = info.WorkflowName ∧
          spec2.ServiceTriggerWorkflow[i]? = some info2 ∧ ev.Params = info2.Params) ∧
    (∀ (pre post : List ServiceTriggerWorkflowInfo) (e e2 : ServiceTriggerWorkflowInfo)
        (job2 : Job),
      spec.ServiceTriggerWorkflow = pre ++ e :: post →
      (∃ l ∈ post, l.key = e.key) → (∃ l ∈ post, l.key = e2.key) →
      job2.Name = job.Name →
      dec.toTrigger job2.Spec =
        .ok { spec with ServiceTriggerWorkflow := pre ++ e2 :: post } →
      (ToJobs dec workflow job2).map Prod.fst = (ToJobs dec workflow job).map Prod.fst) := by
  constructor
  · intro tasks spec2 h task htask ev hev
    obtain ⟨events, st, hc, _, htasks, hspec2⟩ :=
      ToJobs_ok_inv dec workflow job spec tasks spec2 hdec h
    rw [htasks, List.mem_singleton] at htask
    subst htask
    obtain ⟨pe, hpe, heq⟩ := finishEvents_mem _ _ _ _ hev
    obtain ⟨pairs, hpairs⟩ := collectEvents_common_shape dec workflow spec events htype hc
    rw [hpairs] at hpe
    obtain ⟨k, _, p, hp, hpe2⟩ := pairTargets_mem _ _ _ hpe
    obtain ⟨h1, h2, h3⟩ := (buildMap_eq_some_iff _ _ _).mp hp
    have hkey : ev.key = k := by
      rw [heq, hpe2]
      rfl
    refine ⟨p.index, p.info, { p.info with Params := st (Addr.service p.index) }, h1, ?_, ?_, ?_,
      ?_, ?_⟩
    · rw [hkey]
      exact h2
    · rw [hkey]
      exact h3
    · rw [heq, hpe2]
      rfl
    · rw [hspec2]
      simp only [specAfter]
      rw [readBack_getElem, h1]
      simp
    · rw [heq, hpe2]
      rfl
  · intro pre post e e2 job2 hshape hsh1 hsh2 hname hdec2
    have hmap : buildMap (pre ++ e2 :: post) = buildMap spec.ServiceTriggerWorkflow := by
      funext k
      rw [hshape, buildMap_shadowed pre post e hsh1 k, buildMap_shadowed pre post e2 hsh2 k]
    have hcol := collectEvents_congr dec workflow spec (pre ++ e2 :: post) hmap
    have h1 := ToJobs_of_decode dec workflow job spec hdec
    have h2 := ToJobs_of_decode dec workflow job2 _ hdec2
    rw [h1, h2, hcol]
    rcases hc : collectEvents dec workflow spec with err | events
    · rfl
    · have havoid : ∀ pe ∈ events, pe.1 ≠ Addr.service pre.length := by
        intro pe hpe
        obtain ⟨pairs, hpairs⟩ := collectEvents_common_shape dec workflow spec events htype hc
        rw [hpairs] at hpe
        obtain ⟨k, _, p, hp, hpe2⟩ := pairTargets_mem _ _ _ hpe
        rw [hshape] at hp
        have hidx := buildMap_index_ne_shadowed pre post e hsh1 k p hp
        rw [hpe2]
        intro hcon
        injection hcon with hcon
        exact hidx hcon
      simp only []
      rw [initStore_replace spec pre post e e2 hshape,
        resolveEvents_write workflow events _ _ _ havoid]
      rcases hr : resolveEvents workflow events (initStore spec) with err | st
      · rfl
      · simp only [Except.map, finishEvents_write workflow events st _ _ havoid]
        simp only [mkJobTask, hname]

/-- A run of C18: the first entry for `svc`/`mod` is shadowed by the second;
the event carries the second entry's workflow name and parameters, and putting
a parameter whose resolution would panic in the first entry changes nothing. -/
theorem ToJobs_last_entry_wins_witness :
    ToJobs exampleDecoder (exWorkflow [exBuild] (exDupSpec (exInfo [])))
        (exTriggerJob (exDupSpec (exInfo []))) =
      .ok ([mkJobTask (exTriggerJob (exDupSpec (exInfo []))) (exDupSpec (exInfo []))
              [{ WorkflowName := "deploy-svc-v2", Params := [exStringParam],
                 ServiceName := "svc", ServiceModule := "mod", ProjectName := "proj-a" }]],
           exDupSpec (exInfo [])) ∧
    (ToJobs exampleDecoder (exWorkflow [exBuild] (exDupSpec (exInfo [])))
        (exTriggerJob (exDupSpec (exInfo [exRepoParam 1])))).map Prod.fst =
      (ToJobs exampleDecoder (exWorkflow [exBuild] (exDupSpec (exInfo [])))
        (exTriggerJob (exDupSpec (exInfo [])))).map Prod.fst :=
  ⟨rfl,
   (ToJobs_last_entry_wins exampleDecoder (exWorkflow [exBuild] (exDupSpec (exInfo [])))
      (exTriggerJob (exDupSpec (exInfo []))) (exDupSpec (exInfo [])) rfl rfl).2
      [] [{ ServiceName := "svc", ServiceModule := "mod", WorkflowName := "deploy-svc-v2",
            ProjectName := "proj-a", Params := [exStringParam] }]
      (exInfo []) (exInfo [exRepoParam 1]) (exTriggerJob (exDupSpec (exInfo [exRepoParam 1])))
      rfl ⟨_, List.mem_singleton.mpr rfl, rfl⟩ ⟨_, List.mem_singleton.mpr rfl, rfl⟩ rfl rfl⟩

/-! ## The loops of `checkWorkflowTriggerLoop` as one run of steps -/

theorem runSteps_append (visit : String → Verdict) (l1 l2 : List (Except String String))
    (checked : List String) :
    runSteps visit (l1 ++ l2) checked =
      match runSteps visit l1 checked with
      | (.pass, checked2) => runSteps visit l2 checked2
      | r => r := by
  induction l1 generalizing checked with
  | nil => rfl
  | cons s rest ih =>
    cases s with
    | error e => rfl
    | ok n =>
      simp only [List.cons_append, runSteps]
      split_ifs with hmem
      · exact ih checked
      · cases hv : visit n with
        | pass => exact ih (n :: checked)
        | fail msg => rfl
        | outOfFuel => rfl

theorem loopInfos_eq_runSteps (visit : String → Verdict)
    (infos : List ServiceTriggerWorkflowInfo) (checked : List String) :
    loopInfos visit infos checked =
      runSteps visit (infos.map (fun info => Except.ok info.WorkflowName)) checked := by
  induction infos generalizing checked with
  | nil => rfl
  | cons info rest ih =>
    simp only [loopInfos, List.map_cons, runSteps]
    split_ifs with hmem
    · exact ih checked
    · cases hv : visit info.WorkflowName with
      | pass => exact ih _
      | fail msg => rfl
      | outOfFuel => rfl

theorem loopJobs_eq_runSteps (dec : SpecDecoder) (visit : String → Verdict) (jobs : List Job)
    (checked : List String) :
    loopJobs dec visit jobs checked = runSteps visit (walkSteps dec jobs) checked := by
  induction jobs generalizing checked with
  | nil => rfl
  | cons job rest ih =>
    simp only [loopJobs, walkSteps, List.flatMap_cons]
    by_cases ht : job.JobType = JobWorkflowTrigger
    · simp only [ht, if_true]
      rcases hd : dec.toTrigger job.Spec with e | spec
      · rfl
      · simp only []
        rw [runSteps_append, ← loopInfos_eq_runSteps]
        rcases hl : loopInfos visit spec.ServiceTriggerWorkflow checked with ⟨v, c2⟩
        cases v with
        | pass => exact ih c2
        | fail msg => rfl
        | outOfFuel => rfl
    · simp only [ht, if_false, List.nil_append]
      exact ih checked

theorem loopStages_eq_runSteps (dec : SpecDecoder) (visit : String → Verdict)
    (stages : List WorkflowStage) (checked : List String) :
    loopStages dec visit stages checked =
      runSteps visit (walkSteps dec (stages.flatMap (fun stage => stage.Jobs))) checked := by
  induction stages generalizing checked with
  | nil => rfl
  | cons stage rest ih =>
    have happ : walkSteps dec ((stage :: rest).flatMap (fun stage => stage.Jobs)) =
        walkSteps dec stage.Jobs ++ walkSteps dec (rest.flatMap (fun stage => stage.Jobs)) := by
      simp only [walkSteps, List.flatMap_cons, List.flatMap_append]
    rw [happ, runSteps_append, ← loopJobs_eq_runSteps]
    simp only [loopStages]
    rcases hl : loopJobs dec visit stage.Jobs checked with ⟨v, c2⟩
    cases v with
    | pass => exact ih c2
    | fail msg => rfl
    | outOfFuel => rfl

theorem checkWorkflowTriggerLoop_succ (dec : SpecDecoder) (coll : WorkflowColl) (fuel : Nat)
    (workflow : WorkflowV4) (workflowSet : List String) :
    checkWorkflowTriggerLoop dec coll (fuel + 1) workflow workflowSet =
      (runSteps (loopVisit (checkWorkflowTriggerLoop dec coll fuel) coll workflow workflowSet)
        (walkSteps dec workflow.jobs) []).1 := by
  simp only [checkWorkflowTriggerLoop, loopStages_eq_runSteps]
  rfl

theorem ok_mem_walkSteps (dec : SpecDecoder) (jobs : List Job) (n : String) :
    Except.ok n ∈ walkSteps dec jobs ↔
      ∃ job ∈ jobs, job.JobType = JobWorkflowTrigger ∧
        ∃ spec, dec.toTrigger job.Spec = .ok spec ∧
          ∃ info ∈ spec.ServiceTriggerWorkflow, info.WorkflowName = n := by
  unfold walkSteps
  rw [List.mem_flatMap]
  constructor
  · rintro ⟨job, hjob, hmem⟩
    by_cases ht : job.JobType = JobWorkflowTrigger
    · rw [if_pos ht] at hmem
      rcases hd : dec.toTrigger job.Spec with e | spec
      · rw [hd] at hmem
        simp at hmem
      · rw [hd] at hmem
        simp only [List.mem_map, Except.ok.injEq] at hmem
        obtain ⟨info, hinfo, hname⟩ := hmem
        exact ⟨job, hjob, ht, spec, hd, info, hinfo, hname⟩
    · rw [if_neg ht] at hmem
      cases hmem
  · rintro ⟨job, hjob, ht, spec, hd, info, hinfo, hname⟩
    refine ⟨job, hjob, ?_⟩
    rw [if_pos ht, hd]
    simp only [List.mem_map, Except.ok.injEq]
    exact ⟨info, hinfo, hname⟩

theorem error_mem_walkSteps (dec : SpecDecoder) (jobs : List Job) (e : String) :
    Except.error e ∈ walkSteps dec jobs ↔
      ∃ job ∈ jobs, job.JobType = JobWorkflowTrigger ∧ dec.toTrigger job.Spec = .error e := by
  unfold walkSteps
  rw [List.mem_flatMap]
  constructor
  · rintro ⟨job, hjob, hmem⟩
    by_cases ht : job.JobType = JobWorkflowTrigger
    · rw [if_pos ht] at hmem
      rcases hd : dec.toTrigger job.Spec with e2 | spec
      · rw [hd] at hmem
        simp only [List.mem_singleton, Except.error.injEq] at hmem
        exact ⟨job, hjob, ht, by rw [hmem]; exact hd⟩
      · rw [hd] at hmem
        simp at hmem
    · rw [if_neg ht] at hmem
      cases hmem
  · rintro ⟨job, hjob, ht, hd⟩
    refine ⟨job, hjob, ?_⟩
    rw [if_pos ht, hd]
    simp

/-- A run passes exactly when it has no decoding error and every name not
checked beforehand is visited with a pass. -/
theorem runSteps_pass_iff (visit : String → Verdict) (steps : List (Except String String))
    (checked : List String) :
    (runSteps visit steps checked).1 = .pass ↔
      (∀ e, Except.error e ∉ steps) ∧
      ∀ n, Except.ok n ∈ steps → n ∈ checked ∨ visit n = .pass := by
  induction steps generalizing checked with
  | nil => simp [runSteps]
  | cons s rest ih =>
    cases s with
    | error e =>
      simp only [runSteps]
      constructor
      · intro h
        cases h
      · rintro ⟨h, _⟩
        exact absurd (List.mem_cons_self _ _) (h e)
    | ok n =>
      simp only [runSteps]
      by_cases hmem : n ∈ checked
      · rw [if_pos hmem, ih checked]
        constructor
        · rintro ⟨h1, h2⟩
          refine ⟨?_, ?_⟩
          · intro e he
            rcases List.mem_cons.mp he with he | he
            · cases he
            · exact h1 e he
          · intro n2 hn2
            rcases List.mem_cons.mp hn2 with hn2 | hn2
            · injection hn2 with hn2
              rw [hn2]
              exact Or.inl hmem
            · exact h2 n2 hn2
        · rintro ⟨h1, h2⟩
          exact ⟨fun e he => h1 e (List.mem_cons_of_mem _ he),
            fun n2 hn2 => h2 n2 (List.mem_cons_of_mem _ hn2)⟩
      · rw [if_neg hmem]
        cases hv : visit n with
        | pass =>
          simp only []
          rw [ih (n :: checked)]
          constructor
          · rintro ⟨h1, h2⟩
            refine ⟨?_, ?_⟩
            · intro e he
              rcases List.mem_cons.mp he with he | he
              · cases he
              · exact h1 e he
            · intro n2 hn2
              rcases List.mem_cons.mp hn2 with hn2 | hn2
              · injection hn2 with hn2
                rw [hn2]
                exact Or.inr hv
              · rcases h2 n2 hn2 with h3 | h3
                · rcases List.mem_cons.mp h3 with h4 | h4
                  · rw [h4]
                    exact Or.inr hv
                  · exact Or.inl h4
                · exact Or.inr h3
          · rintro ⟨h1, h2⟩
            refine ⟨fun e he => h1 e (List.mem_cons_of_mem _ he), ?_⟩
            intro n2 hn2
            rcases h2 n2 (List.mem_cons_of_mem _ hn2) with h3 | h3
            · exact Or.inl (List.mem_cons_of_mem _ h3)
            · exact Or.inr h3
        | fail msg =>
          simp only []
          constructor
          · intro h
            cases h
          · rintro ⟨_, h2⟩
            rcases h2 n (List.mem_cons_self _ _) with h3 | h3
            · exact absurd h3 hmem
            · rw [hv] at h3
              cases h3
        | outOfFuel =>
          simp only []
          constructor
          · intro h
            cases h
          · rintro ⟨_, h2⟩
            rcases h2 n (List.mem_cons_self _ _) with h3 | h3
            · exact absurd h3 hmem
            · rw [hv] at h3
              cases h3

/-- A run that does not pass ends on a decoding error or on the verdict of a
visit. -/
theorem runSteps_not_pass (visit : String → Verdict) (steps : List (Except String String))
    (checked : List String) (h : (runSteps visit steps checked).1 ≠ .pass) :
    (∃ e, Except.error e ∈ steps ∧ (runSteps visit steps checked).1 = .fail e) ∨
    ∃ n, Except.ok n ∈ steps ∧ visit n = (runSteps visit steps checked).1 := by
  induction steps generalizing checked with
  | nil => exact absurd rfl h
  | cons s rest ih =>
    cases s with
    | error e => exact Or.inl ⟨e, List.mem_cons_self _ _, rfl⟩
    | ok n =>
      simp only [runSteps] at h ⊢
      by_cases hmem : n ∈ checked
      · rw [if_pos hmem] at h ⊢
        rcases ih checked h with ⟨e, he, hr⟩ | ⟨n2, hn2, hr⟩
        · exact Or.inl ⟨e, List.mem_cons_of_mem _ he, hr⟩
        · exact Or.inr ⟨n2, List.mem_cons_of_mem _ hn2, hr⟩
      · rw [if_neg hmem] at h ⊢
        cases hv : visit n with
        | pass =>
          rw [hv] at h
          simp only [] at h ⊢
          rcases ih (n :: checked) h with ⟨e, he, hr⟩ | ⟨n2, hn2, hr⟩
          · exact Or.inl ⟨e, List.mem_cons_of_mem _ he, hr⟩
          · exact Or.inr ⟨n2, List.mem_cons_of_mem _ hn2, hr⟩
        | fail msg => exact Or.inr ⟨n, List.mem_cons_self _ _, hv⟩
        | outOfFuel => exact Or.inr ⟨n, List.mem_cons_self _ _, hv⟩

theorem runSteps_congr (visit1 visit2 : String → Verdict) (steps : List (Except String String))
    (checked : List String) (h : ∀ n, Except.ok n ∈ steps → visit1 n = visit2 n) :
    runSteps visit1 steps checked = runSteps visit2 steps checked := by
  induction steps generalizing checked with
  | nil => rfl
  | cons s rest ih =>
    cases s with
    | error e => rfl
    | ok n =>
      have ih2 := fun c => ih c (fun n2 hn2 => h n2 (List.mem_cons_of_mem _ hn2))
      simp only [runSteps, ← h n (List.mem_cons_self _ _)]
      split_ifs
      · exact ih2 checked
      · cases hv : visit1 n with
        | pass => exact ih2 _
        | fail msg => rfl
        | outOfFuel => rfl

/-! ## The store and the recursion budget -/

theorem Find_name (coll : WorkflowColl) (name : String) (w : WorkflowV4)
    (h : coll.Find name = .ok w) : w.Name = name := by
  unfold WorkflowColl.Find at h
  cases hf : coll.workflows.find? (fun w => decide (w.Name = name)) with
  | none =>
    rw [hf] at h
    cases h
  | some w2 =>
    rw [hf] at h
    simp only [Except.ok.injEq] at h
    subst h
    have := List.find?_some hf
    exact of_decide_eq_true this

theorem Find_mem_names (coll : WorkflowColl) (name : String) (w : WorkflowV4)
    (h : coll.Find name = .ok w) : name ∈ coll.names := by
  have hn := Find_name coll name w h
  unfold WorkflowColl.Find at h
  cases hf : coll.workflows.find? (fun w => decide (w.Name = name)) with
  | none =>
    rw [hf] at h
    cases h
  | some w2 =>
    rw [hf] at h
    simp only [Except.ok.injEq] at h
    subst h
    unfold WorkflowColl.names
    rw [List.mem_dedup, List.mem_map]
    exact ⟨w2, List.mem_of_find?_eq_some hf, hn⟩

theorem namesLeft_length_le (coll : WorkflowColl) (workflowSet : List String) :
    (coll.namesLeft workflowSet).length ≤ coll.names.length := by
  unfold WorkflowColl.namesLeft
  exact List.length_filter_le _ _

/-- Extending the path by a stored name that is not on it leaves fewer names. -/
theorem namesLeft_cons_lt (coll : WorkflowColl) (workflowSet : List String) (n : String)
    (hn : n ∈ coll.names) (hnot : n ∉ workflowSet) :
    (coll.namesLeft (n :: workflowSet)).length < (coll.namesLeft workflowSet).length := by
  have h1 : coll.namesLeft (n :: workflowSet) =
      (coll.namesLeft workflowSet).filter (fun x => decide (x ≠ n)) := by
    unfold WorkflowColl.namesLeft
    rw [List.filter_filter]
    apply List.filter_congr
    intro x _
    simp only [List.mem_cons, not_or, ne_eq, Bool.decide_and, Bool.and_comm]
  rw [h1, List.length_filter_lt_length_iff_exists]
  refine ⟨n, ?_, by simp⟩
  unfold WorkflowColl.namesLeft
  rw [List.mem_filter]
  exact ⟨hn, by simpa using hnot⟩

/-- The shape of a visit: a failure that does not depend on the recursive
call, or the recursive call on the stored workflow, with the path extended by a
stored name that was not on it. -/
theorem loopVisit_cases (coll : WorkflowColl) (workflow : WorkflowV4)
    (workflowSet : List String) (name : String) :
    (∃ msg, ∀ recur, loopVisit recur coll workflow workflowSet name = .fail msg) ∨
    ∃ w, coll.Find name = .ok w ∧ name ∉ workflowSet ∧ name ∈ coll.names ∧
      ∀ recur, loopVisit recur coll workflow workflowSet name = recur w (name :: workflowSet) := by
  rcases hf : coll.Find name with e | w
  · left
    exact ⟨_, fun recur => by unfold loopVisit; rw [hf]⟩
  · by_cases hmem : name ∈ workflowSet
    · left
      exact ⟨"工作流不能循环触发, 工作流名称: " ++ workflow.Name,
        fun recur => by unfold loopVisit; rw [hf]; simp only [if_pos hmem]⟩
    · right
      exact ⟨w, rfl, hmem, Find_mem_names coll name w hf,
        fun recur => by unfold loopVisit; rw [hf]; simp only [if_neg hmem]⟩

theorem checkWorkflowTriggerLoop_fuel (dec : SpecDecoder) (coll : WorkflowColl) (fuel : Nat)
    (workflow : WorkflowV4) (workflowSet : List String)
    (hfuel : (coll.namesLeft workflowSet).length < fuel) :
    checkWorkflowTriggerLoop dec coll fuel workflow workflowSet ≠ .outOfFuel := by
  induction fuel generalizing workflow workflowSet with
  | zero => omega
  | succ fuel ih =>
    intro hout
    rw [checkWorkflowTriggerLoop_succ] at hout
    have hnp : (runSteps (loopVisit (checkWorkflowTriggerLoop dec coll fuel) coll workflow
        workflowSet) (walkSteps dec workflow.jobs) []).1 ≠ .pass := by
      rw [hout]
      intro h
      cases h
    rcases runSteps_not_pass _ _ _ hnp with ⟨e, _, hr⟩ | ⟨n, _, hr⟩
    · rw [hout] at hr
      cases hr
    · rw [hout] at hr
      rcases loopVisit_cases coll workflow workflowSet n with ⟨msg, hmsg⟩ | ⟨w, _, hnot, hn, hrec⟩
      · rw [hmsg] at hr
        cases hr
      · rw [hrec] at hr
        have hlt := namesLeft_cons_lt coll workflowSet n hn hnot
        exact ih w (n :: workflowSet) (by omega) hr

theorem checkWorkflowTriggerLoop_stable (dec : SpecDecoder) (coll : WorkflowColl)
    (fuel1 fuel2 : Nat) (workflow : WorkflowV4) (workflowSet : List String)
    (h1 : (coll.namesLeft workflowSet).length < fuel1)
    (h2 : (coll.namesLeft workflowSet).length < fuel2) :
    checkWorkflowTriggerLoop dec coll fuel1 workflow workflowSet =
      checkWorkflowTriggerLoop dec coll fuel2 workflow workflowSet := by
  induction fuel1 generalizing fuel2 workflow workflowSet with
  | zero => omega
  | succ fuel1 ih =>
    cases fuel2 with
    | zero => omega
    | succ fuel2 =>
      rw [checkWorkflowTriggerLoop_succ, checkWorkflowTriggerLoop_succ]
      congr 1
      apply runSteps_congr
      intro n _
      rcases loopVisit_cases coll workflow workflowSet n with ⟨msg, hmsg⟩ | ⟨w, _, hnot, hn, hrec⟩
      · rw [hmsg, hmsg]
      · rw [hrec, hrec]
        have hlt := namesLeft_cons_lt coll workflowSet n hn hnot
        exact ih fuel2 w (n :: workflowSet) (by omega) (by omega)

theorem lintInfos_fuel (fuel : Nat) (dec : SpecDecoder) (coll : WorkflowColl)
    (owner : WorkflowV4) (infos : List ServiceTriggerWorkflowInfo) (checked : List String)
    (hfuel : coll.names.length ≤ fuel) :
    lintInfos fuel dec coll owner infos checked ≠ .outOfFuel := by
  induction infos generalizing checked with
  | nil =>
    intro h
    cases h
  | cons info rest ih =>
    simp only [lintInfos]
    split_ifs with hmem
    · exact ih checked
    · rcases hf : coll.Find info.WorkflowName with e | w
      · intro h
        cases h
      · simp only []
        split_ifs with hcyc
        · intro h
          cases h
        · have hn : w.Name ∈ coll.names := by
            rw [Find_name coll _ w hf]
            exact Find_mem_names coll _ w hf
          have hlt := namesLeft_cons_lt coll [owner.Name] w.Name hn hcyc
          have hle := namesLeft_length_le coll [owner.Name]
          have hloop := checkWorkflowTriggerLoop_fuel dec coll fuel w (w.Name :: [owner.Name])
            (by omega)
          cases hl : checkWorkflowTriggerLoop dec coll fuel w (w.Name :: [owner.Name]) with
          | pass =>
            simp only []
            cases ht : checkJobTypes w w.Stages with
            | pass => exact ih _
            | fail msg =>
              intro h
              cases h
            | outOfFuel =>
              exfalso
              have hno : ∀ stages, checkJobTypes w stages ≠ .outOfFuel := by
                intro stages
                induction stages with
                | nil =>
                  intro h
                  cases h
                | cons stage rest2 ih2 =>
                  simp only [checkJobTypes]
                  have hjobs : ∀ jobs, checkJobTypesJobs w jobs ≠ .outOfFuel := by
                    intro jobs
                    induction jobs with
                    | nil =>
                      intro h
                      cases h
                    | cons job rest3 ih3 =>
                      simp only [checkJobTypesJobs]
                      split_ifs
                      · exact ih3
                      · intro h
                        cases h
                  cases hj : checkJobTypesJobs w stage.Jobs with
                  | pass => exact ih2
                  | fail msg =>
                    intro h
                    cases h
                  | outOfFuel => exact absurd hj (hjobs _)
              exact hno _ ht
          | fail msg =>
            intro h
            cases h
          | outOfFuel => exact absurd hl hloop

theorem lintInfos_stable (fuel1 fuel2 : Nat) (dec : SpecDecoder) (coll : WorkflowColl)
    (owner : WorkflowV4) (infos : List ServiceTriggerWorkflowInfo) (checked : List String)
    (h1 : coll.names.length ≤ fuel1) (h2 : coll.names.length ≤ fuel2) :
    lintInfos fuel1 dec coll owner infos checked = lintInfos fuel2 dec coll owner infos checked := by
  induction infos generalizing checked with
  | nil => rfl
  | cons info rest ih =>
    simp only [lintInfos]
    split_ifs with hmem
    · exact ih checked
    · rcases hf : coll.Find info.WorkflowName with e | w
      · rfl
      · simp only []
        split_ifs with hcyc
        · rfl
        · have hn : w.Name ∈ coll.names := by
            rw [Find_name coll _ w hf]
            exact Find_mem_names coll _ w hf
          have hlt := namesLeft_cons_lt coll [owner.Name] w.Name hn hcyc
          have hle := namesLeft_length_le coll [owner.Name]
          rw [checkWorkflowTriggerLoop_stable dec coll fuel1 fuel2 w (w.Name :: [owner.Name])
            (by omega) (by omega)]
          cases checkWorkflowTriggerLoop dec coll fuel2 w (w.Name :: [owner.Name]) with
          | pass =>
            simp only []
            cases checkJobTypes w w.Stages with
            | pass => exact ih _
            | fail msg => rfl
            | outOfFuel => rfl
          | fail msg => rfl
          | outOfFuel => rfl

theorem LintJob_fuel (fuel : Nat) (env : LintEnv) (workflow : WorkflowV4) (job : Job)
    (hfuel : env.coll.names.length ≤ fuel) : LintJob fuel env workflow job ≠ .outOfFuel := by
  unfold LintJob
  rcases hd : env.IToiYaml job.Spec with e | spec
  · intro h
    cases h
  · simp only []
    have hl := lintInfos_fuel fuel env.IToi env.coll workflow spec.ServiceTriggerWorkflow [] hfuel
    cases hv : lintInfos fuel env.IToi env.coll workflow spec.ServiceTriggerWorkflow [] with
    | pass =>
      simp only []
      split_ifs
      · intro h
        cases h
      · unfold checkJobRank
        split
        · intro h
          cases h
        · split_ifs <;> intro h <;> cases h
    | fail msg =>
      intro h
      cases h
    | outOfFuel => exact absurd hv hl

theorem LintJob_stable (fuel1 fuel2 : Nat) (env : LintEnv) (workflow : WorkflowV4) (job : Job)
    (h1 : env.coll.names.length ≤ fuel1) (h2 : env.coll.names.length ≤ fuel2) :
    LintJob fuel1 env workflow job = LintJob fuel2 env workflow job := by
  unfold LintJob
  rcases hd : env.IToiYaml job.Spec with e | spec
  · rfl
  · simp only []
    rw [lintInfos_stable fuel1 fuel2 env.IToi env.coll workflow _ [] h1 h2]

/-- C16. With a store of `k` distinct workflow names, cyclic or not, a
recursion budget of `k + 1` is enough for `checkWorkflowTriggerLoop`, whatever
the workflow and the path set, and for `LintJob`: neither runs out of budget,
and every budget of at least `k + 1` gives the same verdict, so the walk
terminates and its recursion depth is at most `k + 1`.  The reason: a visit
recurses only on a stored workflow, with the path set extended by a stored name
that was not in it. -/
theorem checkWorkflowTriggerLoop_terminates (fuel : Nat) (env : LintEnv) (owner : WorkflowV4)
    (job : Job) (hfuel : env.coll.names.length + 1 ≤ fuel) :
    (∀ workflow workflowSet,
      checkWorkflowTriggerLoop env.IToi env.coll fuel workflow workflowSet ≠ .outOfFuel ∧
      ∀ fuel2, env.coll.names.length + 1 ≤ fuel2 →
        checkWorkflowTriggerLoop env.IToi env.coll fuel2 workflow workflowSet =
          checkWorkflowTriggerLoop env.IToi env.coll fuel workflow workflowSet) ∧
    (LintJob fuel env owner job ≠ .outOfFuel ∧
      ∀ fuel2, env.coll.names.length + 1 ≤ fuel2 →
        LintJob fuel2 env owner job = LintJob fuel env owner job) ∧
    (∀ workflow workflowSet name,
      (∃ msg, ∀ recur, loopVisit recur env.coll workflow workflowSet name = .fail msg) ∨
      ∃ w, env.coll.Find name = .ok w ∧ name ∉ workflowSet ∧ name ∈ env.coll.names ∧
        ∀ recur, loopVisit recur env.coll workflow workflowSet name =
          recur w (name :: workflowSet)) := by
  refine ⟨?_, ⟨?_, ?_⟩, ?_⟩
  · intro workflow workflowSet
    have hle := namesLeft_length_le env.coll workflowSet
    refine ⟨checkWorkflowTriggerLoop_fuel _ _ _ _ _ (by omega), ?_⟩
    intro fuel2 h2
    exact checkWorkflowTriggerLoop_stable _ _ _ _ _ _ (by omega) (by omega)
  · exact LintJob_fuel fuel env owner job (by omega)
  · intro fuel2 h2
    exact LintJob_stable fuel2 fuel env owner job (by omega) (by omega)
  · intro workflow workflowSet name
    exact loopVisit_cases env.coll workflow workflowSet name

/-! ## The loop of `LintJob` as a run of steps -/

theorem lintInfos_eq_runSteps (fuel : Nat) (dec : SpecDecoder) (coll : WorkflowColl)
    (owner : WorkflowV4) (infos : List ServiceTriggerWorkflowInfo) (checked : List String) :
    lintInfos fuel dec coll owner infos checked =
      (runSteps (lintVisit fuel dec coll owner)
        (infos.map (fun info => Except.ok info.WorkflowName)) checked).1 := by
  induction infos generalizing checked with
  | nil => rfl
  | cons info rest ih =>
    simp only [lintInfos, List.map_cons, runSteps]
    split_ifs with hmem
    · exact ih checked
    · unfold lintVisit
      rcases hf : coll.Find info.WorkflowName with e | w
      · rfl
      · have hname := Find_name coll _ w hf
        simp only []
        split_ifs with hcyc
        · rfl
        · cases checkWorkflowTriggerLoop dec coll fuel w (w.Name :: [owner.Name]) with
          | pass =>
            simp only []
            cases checkJobTypes w w.Stages with
            | pass =>
              simp only []
              rw [hname]
              exact ih _
            | fail msg => rfl
            | outOfFuel => rfl
          | fail msg => rfl
          | outOfFuel => rfl

theorem ok_mem_targets (infos : List ServiceTriggerWorkflowInfo) (n : String) :
    Except.ok n ∈ infos.map (fun info => (Except.ok info.WorkflowName : Except String String)) ↔
      n ∈ targetNames infos := by
  unfold targetNames
  simp only [List.mem_map, Except.ok.injEq]

theorem error_not_mem_targets (infos : List ServiceTriggerWorkflowInfo) (e : String) :
    Except.error e ∉
      infos.map (fun info => (Except.ok info.WorkflowName : Except String String)) := by
  simp only [List.mem_map, not_exists, not_and]
  intro info _ h
  cases h

theorem lintVisit_pass (fuel : Nat) (dec : SpecDecoder) (coll : WorkflowColl)
    (owner : WorkflowV4) (name : String) (h : lintVisit fuel dec coll owner name = .pass) :
    ∃ w, coll.Find name = .ok w ∧ name ≠ owner.Name ∧
      checkWorkflowTriggerLoop dec coll fuel w (name :: [owner.Name]) = .pass ∧
      checkJobTypes w w.Stages = .pass := by
  unfold lintVisit at h
  rcases hf : coll.Find name with e | w
  · rw [hf] at h
    cases h
  · rw [hf] at h
    have hname := Find_name coll _ w hf
    simp only [] at h
    split_ifs at h with hcyc
    rw [hname] at h hcyc
    refine ⟨w, rfl, by simpa using hcyc, ?_⟩
    cases hl : checkWorkflowTriggerLoop dec coll fuel w (name :: [owner.Name]) with
    | pass =>
      rw [hl] at h
      exact ⟨rfl, h⟩
    | fail msg =>
      rw [hl] at h
      cases h
    | outOfFuel =>
      rw [hl] at h
      cases h

theorem Triggers_iff_step (dec : SpecDecoder) (workflow : WorkflowV4) (n : String) :
    Triggers dec workflow n ↔ Except.ok n ∈ walkSteps dec workflow.jobs :=
  (ok_mem_walkSteps dec workflow.jobs n).symm

/-- When the loop of `LintJob` passes, every path of the trigger graph from the
job's targets is free of repetition and avoids the owner, and the walk passed
on the workflow at its end. -/
theorem lintInfos_sound (fuel : Nat) (dec : SpecDecoder) (coll : WorkflowColl)
    (owner : WorkflowV4) (infos : List ServiceTriggerWorkflowInfo)
    (hpass : lintInfos fuel dec coll owner infos [] = .pass)
    (n : String) (path : List String) (hreach : Reach dec coll (targetNames infos) (n :: path)) :
    n ∉ path ∧ n ≠ owner.Name ∧
      ∃ w fuel2, coll.Find n = .ok w ∧
        checkWorkflowTriggerLoop dec coll fuel2 w ((n :: path) ++ [owner.Name]) = .pass := by
  generalize hp : n :: path = p at hreach
  induction hreach generalizing n path with
  | start n0 hn0 =>
    injection hp with h1 h2
    subst h1
    subst h2
    rw [lintInfos_eq_runSteps, runSteps_pass_iff] at hpass
    rcases hpass.2 n ((ok_mem_targets infos n).mpr hn0) with h | h
    · cases h
    · obtain ⟨w, hf, hne, hloop, _⟩ := lintVisit_pass fuel dec coll owner n h
      exact ⟨by simp, hne, w, fuel, hf, hloop⟩
  | step n0 m path0 w hr hf ht ih =>
    injection hp with h1 h2
    subst h1
    subst h2
    obtain ⟨_, _, w2, fuel2, hf2, hloop⟩ := ih n0 path0 rfl
    rw [hf] at hf2
    injection hf2 with hw
    subst hw
    cases fuel2 with
    | zero => cases hloop
    | succ fuel3 =>
      rw [checkWorkflowTriggerLoop_succ, runSteps_pass_iff] at hloop
      rcases hloop.2 n ((Triggers_iff_step dec w n).mp ht) with h | h
      · cases h
      · rcases loopVisit_cases coll w ((n0 :: path0) ++ [owner.Name]) n with
          ⟨msg, hmsg⟩ | ⟨w3, hf3, hnot, _, hrec⟩
        · rw [hmsg] at h
          cases h
        · rw [hrec] at h
          simp only [List.cons_append, List.mem_cons, List.mem_append, List.mem_singleton,
            not_or] at hnot
          refine ⟨?_, hnot.2.2.1, w3, fuel3, hf3, h⟩
          simp only [List.mem_cons, not_or]
          exact ⟨hnot.1, hnot.2.1⟩

/-- C12. When the trigger graph has a path from a target of the job's
`ServiceTriggerWorkflow` - each name on it but the last stored, the workflow
stored under it naming the next in the `ServiceTriggerWorkflow` of one of its
WorkflowTrigger jobs - whose last name is the owner's name or a name already on
the path, `LintJob` returns an error; so `A → B → A` and `A → A` are
rejected. -/
theorem LintJob_rejects_cycle (fuel : Nat) (env : LintEnv) (owner : WorkflowV4) (job : Job)
    (spec : WorkflowTriggerJobSpec) (n : String) (path : List String)
    (hfuel : env.coll.names.length + 1 ≤ fuel)
    (hdec : env.IToiYaml job.Spec = .ok spec)
    (hreach : Reach env.IToi env.coll (targetNames spec.ServiceTriggerWorkflow) (n :: path))
    (hcycle : n = owner.Name ∨ n ∈ path) :
    ∃ msg, LintJob fuel env owner job = .fail msg := by
  have hnp : LintJob fuel env owner job ≠ .pass := by
    intro hpass
    unfold LintJob at hpass
    rw [hdec] at hpass
    simp only [] at hpass
    cases hl : lintInfos fuel env.IToi env.coll owner spec.ServiceTriggerWorkflow [] with
    | pass =>
      obtain ⟨h1, h2, _⟩ := lintInfos_sound fuel env.IToi env.coll owner _ hl n path hreach
      rcases hcycle with h | h
      · exact h2 h
      · exact h1 h
    | fail msg =>
      rw [hl] at hpass
      cases hpass
    | outOfFuel =>
      rw [hl] at hpass
      cases hpass
  have hnf := LintJob_fuel fuel env owner job (by omega)
  cases hv : LintJob fuel env owner job with
  | pass => exact absurd hv hnp
  | fail msg => exact ⟨msg, rfl⟩
  | outOfFuel => exact absurd hv hnf

/-! ## Acyclic trigger graphs pass -/

theorem loopVisit_of_found (recur : WorkflowV4 → List String → Verdict) (coll : WorkflowColl)
    (workflow w : WorkflowV4) (workflowSet : List String) (name : String)
    (hf : coll.Find name = .ok w) (hnot : name ∉ workflowSet) :
    loopVisit recur coll workflow workflowSet name = recur w (name :: workflowSet) := by
  unfold loopVisit
  rw [hf]
  simp only [if_neg hnot]

theorem checkJobTypesJobs_pass (workflow : WorkflowV4) (jobs : List Job)
    (h : ∀ job ∈ jobs,
      job.JobType = JobFreestyle ∨ job.JobType = JobPlugin ∨ job.JobType = JobWorkflowTrigger) :
    checkJobTypesJobs workflow jobs = .pass := by
  induction jobs with
  | nil => rfl
  | cons job rest ih =>
    simp only [checkJobTypesJobs, if_pos (h job (List.mem_cons_self _ _))]
    exact ih (fun j hj => h j (List.mem_cons_of_mem _ hj))

theorem checkJobTypes_pass (workflow : WorkflowV4) (stages : List WorkflowStage)
    (h : ∀ job ∈ stages.flatMap (fun stage => stage.Jobs),
      job.JobType = JobFreestyle ∨ job.JobType = JobPlugin ∨ job.JobType = JobWorkflowTrigger) :
    checkJobTypes workflow stages = .pass := by
  induction stages with
  | nil => rfl
  | cons stage rest ih =>
    simp only [List.flatMap_cons, List.mem_append] at h
    simp only [checkJobTypes, checkJobTypesJobs_pass workflow stage.Jobs
      (fun j hj => h j (Or.inl hj))]
    exact ih (fun j hj => h j (Or.inr hj))

/-- On a trigger graph in which every reachable workflow is stored and
decodes, and no path repeats a name or returns to the owner, the walk never
returns an error. -/
theorem checkWorkflowTriggerLoop_not_fail (dec : SpecDecoder) (coll : WorkflowColl)
    (owner : WorkflowV4) (targets : List String)
    (hsafe : ∀ n path, Reach dec coll targets (n :: path) →
      (∃ w, coll.Find n = .ok w ∧ Decodes dec w) ∧ n ∉ path ∧ n ≠ owner.Name)
    (fuel : Nat) (n : String) (path : List String) (w : WorkflowV4)
    (hreach : Reach dec coll targets (n :: path)) (hf : coll.Find n = .ok w) (msg : String) :
    checkWorkflowTriggerLoop dec coll fuel w ((n :: path) ++ [owner.Name]) ≠ .fail msg := by
  induction fuel generalizing n path w msg with
  | zero =>
    intro h
    cases h
  | succ fuel ih =>
    intro hfail
    rw [checkWorkflowTriggerLoop_succ] at hfail
    have hnp : (runSteps (loopVisit (checkWorkflowTriggerLoop dec coll fuel) coll w
        ((n :: path) ++ [owner.Name])) (walkSteps dec w.jobs) []).1 ≠ .pass := by
      rw [hfail]
      intro h
      cases h
    obtain ⟨⟨w0, hf0, hdecodes⟩, _, _⟩ := hsafe n path hreach
    rw [hf] at hf0
    injection hf0 with hw
    subst hw
    rcases runSteps_not_pass _ _ _ hnp with ⟨e, he, _⟩ | ⟨m, hm, hr⟩
    · obtain ⟨job, hjob, ht, hd⟩ := (error_mem_walkSteps dec w.jobs e).mp he
      obtain ⟨spec, hspec⟩ := hdecodes job hjob ht
      rw [hspec] at hd
      cases hd
    · have htrig : Triggers dec w m := (Triggers_iff_step dec w m).mpr hm
      have hreach2 : Reach dec coll targets (m :: n :: path) :=
        Reach.step n m path w hreach hf htrig
      obtain ⟨⟨w2, hf2, _⟩, hnot, hne⟩ := hsafe m (n :: path) hreach2
      have hnotP : m ∉ (n :: path) ++ [owner.Name] := by
        simp only [List.mem_append, List.mem_singleton, not_or]
        exact ⟨hnot, hne⟩
      rw [loopVisit_of_found _ coll w w2 _ m hf2 hnotP, hfail] at hr
      exact ih m (n :: path) w2 hreach2 hf2 msg hr

/-- C13. When every workflow name reachable from the job through
`ServiceTriggerWorkflow` targets is stored and the specs of its WorkflowTrigger
jobs decode, no path of the trigger graph repeats a name or returns to the
owner, every directly targeted workflow holds only Freestyle, Plugin and
WorkflowTrigger jobs, and the job is not a `Common`/`FromJob` trigger, `LintJob`
succeeds; the condition on paths is per path, so a workflow reached along two
branches is no obstacle. -/
theorem LintJob_accepts (fuel : Nat) (env : LintEnv) (owner : WorkflowV4) (job : Job)
    (spec : WorkflowTriggerJobSpec)
    (hfuel : env.coll.names.length + 1 ≤ fuel)
    (hdec : env.IToiYaml job.Spec = .ok spec)
    (hsafe : ∀ n path,
      Reach env.IToi env.coll (targetNames spec.ServiceTriggerWorkflow) (n :: path) →
      (∃ w, env.coll.Find n = .ok w ∧ Decodes env.IToi w) ∧ n ∉ path ∧ n ≠ owner.Name)
    (htypes : ∀ n ∈ targetNames spec.ServiceTriggerWorkflow, ∀ w,
      env.coll.Find n = .ok w → Triggerable w)
    (hkind : ¬ (spec.TriggerType = WorkflowTriggerTypeCommon ∧
      spec.Source = TriggerWorkflowSourceFromJob)) :
    LintJob fuel env owner job = .pass := by
  have hwalk : lintInfos fuel env.IToi env.coll owner spec.ServiceTriggerWorkflow [] = .pass := by
    rw [lintInfos_eq_runSteps, runSteps_pass_iff]
    refine ⟨fun e => error_not_mem_targets _ e, ?_⟩
    intro n hn
    right
    have hn2 := (ok_mem_targets _ n).mp hn
    have hreach : Reach env.IToi env.coll (targetNames spec.ServiceTriggerWorkflow) [n] :=
      Reach.start n hn2
    obtain ⟨⟨w, hf, _⟩, _, hne⟩ := hsafe n [] hreach
    have hname := Find_name env.coll n w hf
    have hcyc : ¬ w.Name ∈ [owner.Name] := by
      rw [hname]
      simpa using hne
    have hloop : checkWorkflowTriggerLoop env.IToi env.coll fuel w (w.Name :: [owner.Name]) =
        .pass := by
      rw [hname]
      have hnf := checkWorkflowTriggerLoop_not_fail env.IToi env.coll owner _ hsafe fuel n [] w
        hreach hf
      have hle := namesLeft_length_le env.coll (n :: [owner.Name])
      have hno := checkWorkflowTriggerLoop_fuel env.IToi env.coll fuel w (n :: [owner.Name])
        (by omega)
      cases hv : checkWorkflowTriggerLoop env.IToi env.coll fuel w (n :: [owner.Name]) with
      | pass => rfl
      | fail msg => exact absurd hv (hnf msg)
      | outOfFuel => exact absurd hv hno
    unfold lintVisit
    rw [hf]
    simp only [if_neg hcyc, hloop]
    exact checkJobTypes_pass w w.Stages (htypes n hn2 w hf)
  unfold LintJob
  rw [hdec]
  simp only [hwalk]
  by_cases h1 : spec.TriggerType = WorkflowTriggerTypeCommon
  · by_cases h2 : spec.Source = TriggerWorkflowSourceFromJob
    · exact absurd ⟨h1, h2⟩ hkind
    · rw [if_pos (Or.inr h2)]
  · rw [if_pos (Or.inl h1)]

/-! ## The `checkedWorkflow` sets do not change the verdict -/

theorem runStepsPlain_append (visit : String → Verdict) (l1 l2 : List (Except String String)) :
    runStepsPlain visit (l1 ++ l2) =
      match runStepsPlain visit l1 with
      | .pass => runStepsPlain visit l2
      | v => v := by
  induction l1 with
  | nil => rfl
  | cons s rest ih =>
    cases s with
    | error e => rfl
    | ok n =>
      simp only [List.cons_append, runStepsPlain]
      cases hv : visit n with
      | pass => exact ih
      | fail msg => rfl
      | outOfFuel => rfl

theorem loopInfosPlain_eq (visit : String → Verdict) (infos : List ServiceTriggerWorkflowInfo) :
    loopInfosPlain visit infos =
      runStepsPlain visit (infos.map (fun info => Except.ok info.WorkflowName)) := by
  induction infos with
  | nil => rfl
  | cons info rest ih =>
    simp only [loopInfosPlain, List.map_cons, runStepsPlain]
    cases hv : visit info.WorkflowName with
    | pass => exact ih
    | fail msg => rfl
    | outOfFuel => rfl

theorem loopJobsPlain_eq (dec : SpecDecoder) (visit : String → Verdict) (jobs : List Job) :
    loopJobsPlain dec visit jobs = runStepsPlain visit (walkSteps dec jobs) := by
  induction jobs with
  | nil => rfl
  | cons job rest ih =>
    simp only [loopJobsPlain, walkSteps, List.flatMap_cons]
    by_cases ht : job.JobType = JobWorkflowTrigger
    · simp only [ht, if_true]
      rcases hd : dec.toTrigger job.Spec with e | spec
      · rfl
      · simp only []
        rw [runStepsPlain_append, ← loopInfosPlain_eq]
        cases hl : loopInfosPlain visit spec.ServiceTriggerWorkflow with
        | pass => exact ih
        | fail msg => rfl
        | outOfFuel => rfl
    · simp only [ht, if_false, List.nil_append]
      exact ih

theorem loopStagesPlain_eq (dec : SpecDecoder) (visit : String → Verdict)
    (stages : List WorkflowStage) :
    loopStagesPlain dec visit stages =
      runStepsPlain visit (walkSteps dec (stages.flatMap (fun stage => stage.Jobs))) := by
  induction stages with
  | nil => rfl
  | cons stage rest ih =>
    have happ : walkSteps dec ((stage :: rest).flatMap (fun stage => stage.Jobs)) =
        walkSteps dec stage.Jobs ++ walkSteps dec (rest.flatMap (fun stage => stage.Jobs)) := by
      simp only [walkSteps, List.flatMap_cons, List.flatMap_append]
    rw [happ, runStepsPlain_append, ← loopJobsPlain_eq]
    simp only [loopStagesPlain]
    cases hl : loopJobsPlain dec visit stage.Jobs with
    | pass => exact ih
    | fail msg => rfl
    | outOfFuel => rfl

/-- Skipping the names already checked gives the verdict of visiting every
name, as long as the names checked so far were visited with a pass. -/
theorem runSteps_eq_plain (visit : String → Verdict) (steps : List (Except String String))
    (checked : List String) (h : ∀ n ∈ checked, visit n = .pass) :
    (runSteps visit steps checked).1 = runStepsPlain visit steps := by
  induction steps generalizing checked with
  | nil => rfl
  | cons s rest ih =>
    cases s with
    | error e => rfl
    | ok n =>
      simp only [runSteps, runStepsPlain]
      by_cases hmem : n ∈ checked
      · rw [if_pos hmem, h n hmem]
        exact ih checked h
      · rw [if_neg hmem]
        cases hv : visit n with
        | pass =>
          simp only []
          apply ih
          intro n2 hn2
          rcases List.mem_cons.mp hn2 with h2 | h2
          · rw [h2]
            exact hv
          · exact h n2 h2
        | fail msg => rfl
        | outOfFuel => rfl

theorem checkWorkflowTriggerLoop_eq_plain (dec : SpecDecoder) (coll : WorkflowColl) (fuel : Nat)
    (workflow : WorkflowV4) (workflowSet : List String) :
    checkWorkflowTriggerLoop dec coll fuel workflow workflowSet =
      checkWorkflowTriggerLoopPlain dec coll fuel workflow workflowSet := by
  induction fuel generalizing workflow workflowSet with
  | zero => rfl
  | succ fuel ih =>
    have hrec : checkWorkflowTriggerLoop dec coll fuel =
        checkWorkflowTriggerLoopPlain dec coll fuel := by
      funext w p
      exact ih w p
    rw [checkWorkflowTriggerLoop_succ, runSteps_eq_plain _ _ [] (fun n hn => by cases hn)]
    simp only [checkWorkflowTriggerLoopPlain, loopStagesPlain_eq, hrec]
    rfl

theorem lintInfosPlain_eq (fuel : Nat) (dec : SpecDecoder) (coll : WorkflowColl)
    (owner : WorkflowV4) (infos : List ServiceTriggerWorkflowInfo) :
    lintInfosPlain fuel dec coll owner infos =
      runStepsPlain (lintVisit fuel dec coll owner)
        (infos.map (fun info => Except.ok info.WorkflowName)) := by
  induction infos with
  | nil => rfl
  | cons info rest ih =>
    simp only [lintInfosPlain, List.map_cons, runStepsPlain]
    unfold lintVisit
    rcases hf : coll.Find info.WorkflowName with e | w
    · rfl
    · simp only []
      split_ifs with hcyc
      · rfl
      · rw [← checkWorkflowTriggerLoop_eq_plain]
        cases checkWorkflowTriggerLoop dec coll fuel w (w.Name :: [owner.Name]) with
        | pass =>
          simp only []
          cases checkJobTypes w w.Stages with
          | pass => exact ih
          | fail msg => rfl
          | outOfFuel => rfl
        | fail msg => rfl
        | outOfFuel => rfl

/-- C20. The per-call sets of already checked target names do not change the
verdict: for every store, every recursion budget, every workflow and path set,
and every trigger job, `checkWorkflowTriggerLoop` and `LintJob` return what
the same walks return without the `checkedWorkflow` sets, visiting every
`ServiceTriggerWorkflow` entry, repeated target names included - the same
success, or the same first error. -/
theorem LintJob_eq_plain (fuel : Nat) (env : LintEnv) (owner : WorkflowV4) (job : Job) :
    (∀ workflow workflowSet,
      checkWorkflowTriggerLoop env.IToi env.coll fuel workflow workflowSet =
        checkWorkflowTriggerLoopPlain env.IToi env.coll fuel workflow workflowSet) ∧
    LintJob fuel env owner job = LintJobPlain fuel env owner job := by
  refine ⟨fun workflow workflowSet =>
    checkWorkflowTriggerLoop_eq_plain env.IToi env.coll fuel workflow workflowSet, ?_⟩
  unfold LintJob LintJobPlain
  rcases hd : env.IToiYaml job.Spec with e | spec
  · rfl
  · simp only []
    rw [lintInfos_eq_runSteps, lintInfosPlain_eq,
      runSteps_eq_plain _ _ [] (fun n hn => by cases hn)]

/-! ## The rank check of `LintJob` -/

theorem rankIn_isSome (name : String) (jobs : List Job) (i : Int) :
    (rankIn name jobs i).isSome ↔ ∃ j ∈ jobs, j.Name = name := by
  induction jobs generalizing i with
  | nil => simp [rankIn]
  | cons job rest ih =>
    simp only [rankIn, List.mem_cons, exists_eq_or_imp]
    cases hr : rankIn name rest (i + 1) with
    | some r =>
      have h2 := (ih (i + 1)).mp (by rw [hr]; rfl)
      simp only [Option.isSome_some, true_iff]
      exact Or.inr h2
    | none =>
      have h2 : ¬ ∃ j ∈ rest, j.Name = name := by
        intro hcon
        have := (ih (i + 1)).mpr hcon
        rw [hr] at this
        cases this
      by_cases hn : job.Name = name
      · simp [hn]
      · rw [if_neg hn]
        constructor
        · intro h
          cases h
        · rintro (h | h)
          · exact absurd h hn
          · exact absurd h h2

theorem rankIn_ge (name : String) (jobs : List Job) (i r : Int)
    (h : rankIn name jobs i = some r) : i ≤ r := by
  induction jobs generalizing i r with
  | nil => cases h
  | cons job rest ih =>
    simp only [rankIn] at h
    cases hr : rankIn name rest (i + 1) with
    | some r2 =>
      rw [hr] at h
      simp only [Option.some.injEq] at h
      have := ih (i + 1) r2 hr
      omega
    | none =>
      rw [hr] at h
      simp only [] at h
      split_ifs at h
      simp only [Option.some.injEq] at h
      omega

theorem checkJobRank_cases (jobRankMap : String → Option Int) (spec : WorkflowTriggerJobSpec)
    (job : Job) :
    checkJobRank jobRankMap spec job = .pass ∨
      checkJobRank jobRankMap spec job =
        .fail ("can not quote job " ++ spec.SourceJobName ++ " in job " ++ job.Name) := by
  unfold checkJobRank
  cases jobRankMap spec.SourceJobName with
  | none => exact Or.inr rfl
  | some r =>
    simp only []
    split_ifs
    · exact Or.inr rfl
    · exact Or.inl rfl

/-- C17. For a `Common`/`FromJob` trigger job whose trigger-graph walk passes,
with a rank map that ranks exactly the names of the jobs of the owning
workflow and has no negative rank: `LintJob` succeeds exactly when
`SourceJobName` names a job of the owning workflow, the trigger job's name
names one too, and the source job's rank is strictly less than the trigger
job's rank; in every other case - source job absent, trigger job absent, equal
or later rank - it fails with the ordering error. -/
theorem LintJob_ordering (fuel : Nat) (env : LintEnv) (owner : WorkflowV4) (job : Job)
    (spec : WorkflowTriggerJobSpec)
    (hdec : env.IToiYaml job.Spec = .ok spec)
    (htype : spec.TriggerType = WorkflowTriggerTypeCommon)
    (hsrc : spec.Source = TriggerWorkflowSourceFromJob)
    (hwalk : lintInfos fuel env.IToi env.coll owner spec.ServiceTriggerWorkflow [] = .pass)
    (hdom : ∀ name, (env.getJobRankMap owner.Stages name).isSome ↔
      ∃ j ∈ owner.jobs, j.Name = name)
    (hnonneg : ∀ name r, env.getJobRankMap owner.Stages name = some r → 0 ≤ r) :
    (LintJob fuel env owner job = .pass ↔
      (∃ j ∈ owner.jobs, j.Name = spec.SourceJobName) ∧
      (∃ j ∈ owner.jobs, j.Name = job.Name) ∧
      ∃ rs rt, env.getJobRankMap owner.Stages spec.SourceJobName = some rs ∧
        env.getJobRankMap owner.Stages job.Name = some rt ∧ rs < rt) ∧
    (LintJob fuel env owner job ≠ .pass →
      LintJob fuel env owner job =
        .fail ("can not quote job " ++ spec.SourceJobName ++ " in job " ++ job.Name)) := by
  have hform : LintJob fuel env owner job =
      checkJobRank (env.getJobRankMap owner.Stages) spec job := by
    unfold LintJob
    rw [hdec]
    simp only [hwalk]
    rw [if_neg]
    simp only [htype, hsrc, ne_eq, not_true_eq_false, or_self, not_false_eq_true]
  rw [hform]
  refine ⟨?_, ?_⟩
  · unfold checkJobRank
    cases hs : env.getJobRankMap owner.Stages spec.SourceJobName with
    | none =>
      simp only []
      constructor
      · intro h
        cases h
      · rintro ⟨_, _, rs, _, h, _⟩
        cases h
    | some rs =>
      simp only []
      cases ht : env.getJobRankMap owner.Stages job.Name with
      | none =>
        have h0 := hnonneg _ rs hs
        simp only [Option.getD_none]
        rw [if_pos (by omega)]
        constructor
        · intro h
          cases h
        · rintro ⟨_, _, _, rt, _, h, _⟩
          cases h
      | some rt =>
        simp only [Option.getD_some]
        by_cases hlt : rs ≥ rt
        · rw [if_pos hlt]
          constructor
          · intro h
            cases h
          · rintro ⟨_, _, rs2, rt2, h1, h2, h3⟩
            injection h1 with h1
            injection h2 with h2
            omega
        · rw [if_neg hlt]
          simp only [true_iff]
          refine ⟨(hdom _).mp (by rw [hs]; rfl), (hdom _).mp (by rw [ht]; rfl), rs, rt, rfl, rfl,
            by omega⟩
  · intro hne
    rcases checkJobRank_cases (env.getJobRankMap owner.Stages) spec job with h | h
    · exact absurd h hne
    · exact h

/-! ## Job types of the directly targeted workflows -/

theorem checkJobTypesJobs_of_pass (workflow : WorkflowV4) (jobs : List Job)
    (h : checkJobTypesJobs workflow jobs = .pass) :
    ∀ job ∈ jobs,
      job.JobType = JobFreestyle ∨ job.JobType = JobPlugin ∨ job.JobType = JobWorkflowTrigger := by
  induction jobs with
  | nil =>
    intro job hjob
    cases hjob
  | cons j rest ih =>
    simp only [checkJobTypesJobs] at h
    split_ifs at h with hj
    intro job hjob
    rcases List.mem_cons.mp hjob with h2 | h2
    · rw [h2]
      exact hj
    · exact ih h job h2

theorem checkJobTypes_of_pass (workflow : WorkflowV4) (stages : List WorkflowStage)
    (h : checkJobTypes workflow stages = .pass) :
    ∀ job ∈ stages.flatMap (fun stage => stage.Jobs),
      job.JobType = JobFreestyle ∨ job.JobType = JobPlugin ∨ job.JobType = JobWorkflowTrigger := by
  induction stages with
  | nil =>
    intro job hjob
    cases hjob
  | cons stage rest ih =>
    simp only [checkJobTypes] at h
    cases hj : checkJobTypesJobs workflow stage.Jobs with
    | pass =>
      rw [hj] at h
      intro job hjob
      simp only [List.flatMap_cons, List.mem_append] at hjob
      rcases hjob with h2 | h2
      · exact checkJobTypesJobs_of_pass workflow stage.Jobs hj job h2
      · exact ih h job h2
    | fail msg =>
      rw [hj] at h
      cases h
    | outOfFuel =>
      rw [hj] at h
      cases h

/-- When a workflow directly targeted by the job's `ServiceTriggerWorkflow`
holds a job of a type other than Freestyle, Plugin and WorkflowTrigger,
`LintJob` returns an error. -/
theorem LintJob_rejects_direct_job_type (fuel : Nat) (env : LintEnv) (owner : WorkflowV4)
    (job : Job) (spec : WorkflowTriggerJobSpec) (n : String) (w : WorkflowV4)
    (hfuel : env.coll.names.length + 1 ≤ fuel)
    (hdec : env.IToiYaml job.Spec = .ok spec)
    (hn : n ∈ targetNames spec.ServiceTriggerWorkflow)
    (hf : env.coll.Find n = .ok w)
    (hbad : ¬ Triggerable w) :
    ∃ msg, LintJob fuel env owner job = .fail msg := by
  have hnp : LintJob fuel env owner job ≠ .pass := by
    intro hpass
    unfold LintJob at hpass
    rw [hdec] at hpass
    simp only [] at hpass
    cases hl : lintInfos fuel env.IToi env.coll owner spec.ServiceTriggerWorkflow [] with
    | pass =>
      rw [lintInfos_eq_runSteps, runSteps_pass_iff] at hl
      rcases hl.2 n ((ok_mem_targets _ n).mpr hn) with h | h
      · cases h
      · obtain ⟨w2, hf2, _, _, htypes⟩ := lintVisit_pass fuel env.IToi env.coll owner n h
        rw [hf] at hf2
        injection hf2 with hw
        subst hw
        exact hbad (checkJobTypes_of_pass w w.Stages htypes)
    | fail msg =>
      rw [hl] at hpass
      cases hpass
    | outOfFuel =>
      rw [hl] at hpass
      cases hpass
  have hnf := LintJob_fuel fuel env owner job (by omega)
  cases hv : LintJob fuel env owner job with
  | pass => exact absurd hv hnp
  | fail msg => exact ⟨msg, rfl⟩
  | outOfFuel => exact absurd hv hnf

/-! ## Runs of the validator -/

theorem Triggers_exTriggerTo (name : String) (targets : List String) (m : String) :
    Triggers exampleDecoder (exStored name [exTriggerTo targets]) m ↔ m ∈ targets := by
  unfold Triggers
  constructor
  · rintro ⟨job, hjob, _, spec, hspec, info, hinfo, hname⟩
    simp only [WorkflowV4.jobs, exStored, List.flatMap_cons, List.flatMap_nil, List.append_nil,
      List.mem_singleton] at hjob
    subst hjob
    simp only [exampleDecoder, exTriggerTo, Except.ok.injEq] at hspec
    subst hspec
    simp only [List.mem_map] at hinfo
    obtain ⟨t, ht, hinfo⟩ := hinfo
    subst hinfo
    rw [← hname]
    exact ht
  · intro hm
    refine ⟨exTriggerTo targets, ?_, rfl, _, rfl, _, List.mem_map_of_mem _ hm, rfl⟩
    simp [WorkflowV4.jobs, exStored]

theorem Triggers_exTestJob (name : String) (m : String) :
    ¬ Triggers exampleDecoder (exStored name [exTestJob]) m := by
  rintro ⟨job, hjob, htype, _⟩
  simp only [WorkflowV4.jobs, exStored, List.flatMap_cons, List.flatMap_nil, List.append_nil,
    List.mem_singleton] at hjob
  subst hjob
  exact absurd htype (by decide)

/-- A run of C12: `A → B → A`, and the verdict of the run. -/
theorem LintJob_rejects_cycle_witness :
    LintJob 3 (exEnv exCycleStore) (exStored "A" [exTriggerTo ["B"]]) (exTriggerTo ["B"]) =
      .fail "工作流不能循环触发, 工作流名称: B" ∧
    ∃ msg, LintJob 3 (exEnv exCycleStore) (exStored "A" [exTriggerTo ["B"]])
      (exTriggerTo ["B"]) = .fail msg :=
  ⟨rfl,
   LintJob_rejects_cycle 3 (exEnv exCycleStore) (exStored "A" [exTriggerTo ["B"]])
    (exTriggerTo ["B"]) _ "A" ["B"] (by decide) rfl
    (Reach.step "B" "A" [] (exStored "B" [exTriggerTo ["A"]])
      (Reach.start "B" (List.mem_singleton.mpr rfl)) rfl
      ((Triggers_exTriggerTo "B" ["A"] "A").mpr (List.mem_singleton.mpr rfl)))
    (Or.inl rfl)⟩

theorem exDiamond_reach (p : List String)
    (h : Reach exampleDecoder { workflows := exDiamondStore } ["B", "C"] p) :
    p = ["B"] ∨ p = ["C"] ∨ p = ["D", "B"] ∨ p = ["D", "C"] := by
  induction h with
  | start n hn =>
    simp only [List.mem_cons, List.mem_singleton, List.not_mem_nil, or_false] at hn
    rcases hn with hn | hn
    · left
      rw [hn]
    · right
      left
      rw [hn]
  | step n m path w _ hf ht ih =>
    rcases ih with h | h | h | h
    · injection h with h1 h2
      subst h1
      subst h2
      have hw : w = exStored "B" [exTriggerTo ["D"]] := by
        have : WorkflowColl.Find { workflows := exDiamondStore } "B" =
            .ok (exStored "B" [exTriggerTo ["D"]]) := rfl
        rw [this] at hf
        exact (Except.ok.inj hf).symm
      subst hw
      have hm := (Triggers_exTriggerTo "B" ["D"] m).mp ht
      rw [List.mem_singleton] at hm
      subst hm
      right
      right
      left
      rfl
    · injection h with h1 h2
      subst h1
      subst h2
      have hw : w = exStored "C" [exTriggerTo ["D"]] := by
        have : WorkflowColl.Find { workflows := exDiamondStore } "C" =
            .ok (exStored "C" [exTriggerTo ["D"]]) := rfl
        rw [this] at hf
        exact (Except.ok.inj hf).symm
      subst hw
      have hm := (Triggers_exTriggerTo "C" ["D"] m).mp ht
      rw [List.mem_singleton] at hm
      subst hm
      right
      right
      right
      rfl
    · injection h with h1 h2
      subst h1
      have hw : w = exStored "D" [exTestJob] := by
        have : WorkflowColl.Find { workflows := exDiamondStore } "D" =
            .ok (exStored "D" [exTestJob]) := rfl
        rw [this] at hf
        exact (Except.ok.inj hf).symm
      subst hw
      exact absurd ht (Triggers_exTestJob "D" m)
    · injection h with h1 h2
      subst h1
      have hw : w = exStored "D" [exTestJob] := by
        have : WorkflowColl.Find { workflows := exDiamondStore } "D" =
            .ok (exStored "D" [exTestJob]) := rfl
        rw [this] at hf
        exact (Except.ok.inj hf).symm
      subst hw
      exact absurd ht (Triggers_exTestJob "D" m)

theorem Decodes_exTriggerTo (name : String) (targets : List String) :
    Decodes exampleDecoder (exStored name [exTriggerTo targets]) := by
  intro job hjob _
  simp only [WorkflowV4.jobs, exStored, List.flatMap_cons, List.flatMap_nil, List.append_nil,
    List.mem_singleton] at hjob
  subst hjob
  exact ⟨_, rfl⟩

theorem Decodes_exTestJob (name : String) :
    Decodes exampleDecoder (exStored name [exTestJob]) := by
  intro job hjob htype
  simp only [WorkflowV4.jobs, exStored, List.flatMap_cons, List.flatMap_nil, List.append_nil,
    List.mem_singleton] at hjob
  subst hjob
  exact absurd htype (by decide)

theorem Triggerable_exTriggerTo (name : String) (targets : List String) :
    Triggerable (exStored name [exTriggerTo targets]) := by
  intro job hjob
  simp only [WorkflowV4.jobs, exStored, List.flatMap_cons, List.flatMap_nil, List.append_nil,
    List.mem_singleton] at hjob
  subst hjob
  exact Or.inr (Or.inr rfl)

/-- A run of C13: `A` triggers `B` and `C`, and both trigger `D`. -/
theorem LintJob_accepts_witness :
    LintJob 5 (exEnv exDiamondStore) (exStored "A" [exTriggerTo ["B", "C"]])
      (exTriggerTo ["B", "C"]) = .pass :=
  LintJob_accepts 5 (exEnv exDiamondStore) (exStored "A" [exTriggerTo ["B", "C"]])
    (exTriggerTo ["B", "C"]) _ (by decide) rfl
    (by
      intro n path hreach
      rcases exDiamond_reach _ hreach with h | h | h | h
      · injection h with h1 h2
        subst h1
        subst h2
        exact ⟨⟨_, rfl, Decodes_exTriggerTo "B" ["D"]⟩, by simp, by decide⟩
      · injection h with h1 h2
        subst h1
        subst h2
        exact ⟨⟨_, rfl, Decodes_exTriggerTo "C" ["D"]⟩, by simp, by decide⟩
      · injection h with h1 h2
        subst h1
        subst h2
        exact ⟨⟨_, rfl, Decodes_exTestJob "D"⟩, by decide, by decide⟩
      · injection h with h1 h2
        subst h1
        subst h2
        exact ⟨⟨_, rfl, Decodes_exTestJob "D"⟩, by decide, by decide⟩)
    (by
      intro n hn w hf
      simp only [targetNames, exTriggerTo, List.map_cons, List.map_nil, List.mem_cons,
        List.mem_singleton, List.not_mem_nil, or_false] at hn
      rcases hn with hn | hn
      · subst hn
        have : WorkflowColl.Find (exEnv exDiamondStore).coll "B" =
            .ok (exStored "B" [exTriggerTo ["D"]]) := rfl
        rw [this] at hf
        rw [← Except.ok.inj hf]
        exact Triggerable_exTriggerTo "B" ["D"]
      · subst hn
        have : WorkflowColl.Find (exEnv exDiamondStore).coll "C" =
            .ok (exStored "C" [exTriggerTo ["D"]]) := rfl
        rw [this] at hf
        rw [← Except.ok.inj hf]
        exact Triggerable_exTriggerTo "C" ["D"])
    (by
      rintro ⟨_, h⟩
      exact absurd h (by decide))

/-- A run of C16 on the cyclic store `A → B → A`, which has two names. -/
theorem checkWorkflowTriggerLoop_terminates_witness :
    LintJob 3 (exEnv exCycleStore) (exStored "A" [exTriggerTo ["B"]]) (exTriggerTo ["B"]) ≠
      .outOfFuel ∧
    LintJob 10 (exEnv exCycleStore) (exStored "A" [exTriggerTo ["B"]]) (exTriggerTo ["B"]) =
      LintJob 3 (exEnv exCycleStore) (exStored "A" [exTriggerTo ["B"]]) (exTriggerTo ["B"]) ∧
    checkWorkflowTriggerLoop exampleDecoder { workflows := exCycleStore } 3
      (exStored "B" [exTriggerTo ["A"]]) [] ≠ .outOfFuel :=
  have h := checkWorkflowTriggerLoop_terminates 3 (exEnv exCycleStore)
    (exStored "A" [exTriggerTo ["B"]]) (exTriggerTo ["B"]) (by decide)
  ⟨h.2.1.1, h.2.1.2 10 (by decide), (h.1 (exStored "B" [exTriggerTo ["A"]]) []).1⟩

/-- A run of C17: in the workflow with the jobs `build`, `unit-test`, `trigger`
the trigger job may quote `build`, and may not quote itself. -/
theorem LintJob_ordering_witness :
    LintJob 2 (exEnv exDeployStore)
        (exWorkflow [exBuild] (exCommonSpec TriggerWorkflowSourceFromJob "build" [] []))
        (exTriggerJob (exCommonSpec TriggerWorkflowSourceFromJob "build" [] [])) = .pass ∧
    LintJob 2 (exEnv exDeployStore)
        (exWorkflow [exBuild] (exCommonSpec TriggerWorkflowSourceFromJob "trigger" [] []))
        (exTriggerJob (exCommonSpec TriggerWorkflowSourceFromJob "trigger" [] [])) =
      .fail "can not quote job trigger in job trigger" :=
  ⟨((LintJob_ordering 2 (exEnv exDeployStore)
      (exWorkflow [exBuild] (exCommonSpec TriggerWorkflowSourceFromJob "build" [] []))
      (exTriggerJob (exCommonSpec TriggerWorkflowSourceFromJob "build" [] []))
      (exCommonSpec TriggerWorkflowSourceFromJob "build" [] []) rfl rfl rfl rfl
      (fun name => rankIn_isSome name _ 0) (fun name r h => rankIn_ge name _ 0 r h)).1).mpr
      ⟨⟨exBuildJob [exBuild], by simp [WorkflowV4.jobs, exWorkflow], rfl⟩,
       ⟨exTriggerJob (exCommonSpec TriggerWorkflowSourceFromJob "build" [] []),
        by simp [WorkflowV4.jobs, exWorkflow], rfl⟩,
       0, 2, rfl, rfl, by decide⟩,
   (LintJob_ordering 2 (exEnv exDeployStore)
      (exWorkflow [exBuild] (exCommonSpec TriggerWorkflowSourceFromJob "trigger" [] []))
      (exTriggerJob (exCommonSpec TriggerWorkflowSourceFromJob "trigger" [] []))
      (exCommonSpec TriggerWorkflowSourceFromJob "trigger" [] []) rfl rfl rfl rfl
      (fun name => rankIn_isSome name _ 0) (fun name r h => rankIn_ge name _ 0 r h)).2
      (by decide)⟩

/-! ## Runs on which the validator departs from a claim -/

/-- C14. `LintJob` succeeds for a `Fixed` trigger job of `A` whose only target
is `A` itself, the event `ToJobs` emits for it targets `A`; and `LintJob`
succeeds for a `Common` trigger job of `A` that targets `B` while `B` holds a
`Fixed` trigger job that targets `A`: neither loop reads `FixedWorkflowList`. -/
theorem LintJob_ignores_fixed_targets :
    LintJob 3 (exEnv [exStored "A" [exTriggerJob exSelfFixedSpec]])
        (exStored "A" [exTriggerJob exSelfFixedSpec]) (exTriggerJob exSelfFixedSpec) = .pass ∧
    ToJobs exampleDecoder (exStored "A" [exTriggerJob exSelfFixedSpec])
        (exTriggerJob exSelfFixedSpec) =
      .ok ([mkJobTask (exTriggerJob exSelfFixedSpec) exSelfFixedSpec
              [{ WorkflowName := "A", Params := [], ServiceName := "", ServiceModule := "",
                 ProjectName := "proj-a" }]],
           exSelfFixedSpec) ∧
    LintJob 3 (exEnv (exFixedBackStore (exTriggerTo ["B"])))
        (exStored "A" [exTriggerTo ["B"]]) (exTriggerTo ["B"]) = .pass :=
  ⟨rfl, rfl, rfl⟩

/-- C15. `LintJob` succeeds for the trigger job of `A`, which targets `B`,
although `B` triggers `C` and `C` holds a Build job: the job types are checked
in the directly targeted workflows only. -/
theorem LintJob_ignores_downstream_job_types :
    LintJob 4 (exEnv exBuildDownstreamStore) (exStored "A" [exTriggerTo ["B"]])
      (exTriggerTo ["B"]) = .pass :=
  rfl

end Zadig
